import Mathlib

/-!
# FAT-viewer: a shallow embedding of `FAT.c` and its checked properties

Conventions of the embedding.

* A byte buffer (`uint8_t *`) is a `List Nat`; a byte that is read as a number is
  taken modulo 256. Machine integers are natural numbers, with an explicit
  `% 2 ^ w` wherever the C type can wrap.
* An access outside a buffer is undefined behaviour in C. It is reported as
  `Res.ub`; a loop that has not finished when its fuel is used up is
  `Res.timeout`. `Res.ok` is a normal return.
* A `FileEntry_t *` is modelled by the entry it points to (`DirPtr.entry`), the
  null pointer by `DirPtr.null`. The volume is never written and the directory
  buffers `findEntry` points into are never released, so a valid pointer always
  reads the same entry. Two pointers to equal entries are not told apart.
-/

namespace FAT

/-! ## Constants of `FAT.h` -/

def FILE_READ_ONLY : Nat := 0x01
def HIDDEN_FILE : Nat := 0x02
def SYSTEM_FILE : Nat := 0x04
def VOLUME_LABEL : Nat := 0x08
def LONG_FILENAME : Nat := 0x0f
def DIRECTORY : Nat := 0x10
def ARCHIVE : Nat := 0x20
def UNALLOCATED : Nat := 0x00
def DELETED : Nat := 0xe5
def MAX_DEPTH : Nat := 100
def BUFFER_SIZE : Nat := 1024

/-- The macro `last_entry`. -/
def last_entry (entry : Nat) : Bool := decide (entry ≥ 0xff8)

/-- The macro `bad_entry`. -/
def bad_entry (entry : Nat) : Bool := decide (entry = 0xff7)

/-- The macro `free_entry`. -/
def free_entry (entry : Nat) : Bool := decide (entry = 0x000)

/-- The macro `used_entry`. -/
def used_entry (entry : Nat) : Bool := decide (entry ≥ 0x002 ∧ entry ≤ 0xfef)

/-- The macro `reserved_entry`. -/
def reserved_entry (entry : Nat) : Bool := decide (entry ≥ 0xff0 ∧ entry ≤ 0xff6)

/-! ## Results -/

/-- Outcome of running a piece of C code: a normal return, an access outside a
buffer (undefined behaviour), or a loop still running when the fuel ran out. -/
inductive Res (α : Type) where
  | ok (a : α)
  | ub
  | timeout
  deriving DecidableEq, Repr

/-- Sequencing of two computations. -/
def Res.bind {α β : Type} (r : Res α) (f : α → Res β) : Res β :=
  match r with
  | .ok a => f a
  | .ub => .ub
  | .timeout => .timeout

/-! ## Data model (`FAT.h`) -/

/-- The fields of `struct _BootSector` the code reads. -/
structure BootSector where
  bytes_per_sector : Nat
  sectors_per_cluster : Nat
  FATs : Nat
  max_files_in_root : Nat
  number_of_sectors_2b : Nat
  size_of_FAT : Nat
  number_of_sectors_4b : Nat
  deriving DecidableEq, Repr

/-- `struct _FileEntry`, one 32-byte directory entry. `filename` (8 bytes) and
`extension` (3 bytes) are byte strings; `allocation_status` shares the first
byte of `filename` (the union). -/
structure FileEntry where
  filename : List Nat
  extension : List Nat
  file_attributes : Nat
  reserved : Nat
  creation_time_ms : Nat
  creation_time : Nat
  creation_date : Nat
  access_date : Nat
  first_cluster_address_high : Nat
  modified_time : Nat
  modified_date : Nat
  first_cluster_address_low : Nat
  file_size : Nat
  deriving DecidableEq, Repr

/-- The union member `allocation_status`: the first byte of the entry. -/
def FileEntry.allocation_status (entry : FileEntry) : Nat := entry.filename.getD 0 0

/-- The macro `is_directory`. -/
def is_directory (entry : FileEntry) : Bool := entry.file_attributes &&& DIRECTORY != 0

/-- A value of type `FileEntry_t *`: the null pointer (the root directory), a
pointer to an entry, or a value assembled from the low bytes of one pointer and
the high bytes of another (`none` standing for the null pointer), as a `memcpy`
that ends inside a pointer leaves it. -/
inductive DirPtr where
  | null
  | entry (e : FileEntry)
  | torn (lo hi : Option FileEntry)
  deriving DecidableEq, Repr

/-- The pointer the low bytes of a pointer value come from. -/
def DirPtr.lowPart : DirPtr → Option FileEntry
  | .null => none
  | .entry e => some e
  | .torn lo _ => lo

/-- The pointer the high bytes of a pointer value come from. -/
def DirPtr.highPart : DirPtr → Option FileEntry
  | .null => none
  | .entry e => some e
  | .torn _ hi => hi

/-- The pointer value with the low bytes of `lo` and the high bytes of `hi`.
Two different pointers are taken to differ in both halves, so that their mixture
is no valid pointer; on a host where the two happen to share their high bytes
the mixture is the pointer `lo`. -/
def DirPtr.mix (lo hi : Option FileEntry) : DirPtr :=
  if lo = hi then
    match lo with
    | none => .null
    | some e => .entry e
  else .torn lo hi

/-- `enum file_type`. -/
inductive file_type where
  | directory
  | file
  deriving DecidableEq, Repr

/-- `struct _File_t`. `_position` is an `int`, `_size` a `size_t`. -/
structure File_t where
  _entry : DirPtr
  _position : Int
  _type : file_type
  _size : Nat
  _opened : Bool
  deriving DecidableEq, Repr

/-- `struct global_data_t`: the loaded volume and the working-directory stack.
`directoryHistory` and `historyBackup` have `MAX_DEPTH` slots. -/
structure global_data_t where
  BS : BootSector
  FAT : List Nat
  dataSection : List Nat
  rootEntries : List Nat
  directoryHistory : List DirPtr
  historyBackup : List DirPtr
  historyIndex : Nat
  historyIndexBackup : Nat
  deriving DecidableEq, Repr

/-- What the C code takes from its platform: the size of a pointer and of a
`File_t` in bytes, and which allocation requests (by size in bytes) succeed. -/
structure Platform where
  sizeof_ptr : Nat
  sizeof_File_t : Nat
  calloc : Nat → Bool

/-! ## Bytes and strings -/

/-- Little-endian `uint16_t` from two bytes. -/
def le16 (b0 b1 : Nat) : Nat := b0 % 256 + 256 * (b1 % 256)

/-- Little-endian `uint32_t` from four bytes. -/
def le32 (b0 b1 b2 b3 : Nat) : Nat :=
  b0 % 256 + 256 * (b1 % 256) + 65536 * (b2 % 256) + 16777216 * (b3 % 256)

/-- The entry stored in 32 bytes (the packed layout of `struct _FileEntry`). -/
def FileEntry.ofBytes (bs : List Nat) : FileEntry :=
  { filename := (bs.take 8).map (· % 256)
    extension := ((bs.drop 8).take 3).map (· % 256)
    file_attributes := bs.getD 11 0 % 256
    reserved := bs.getD 12 0 % 256
    creation_time_ms := bs.getD 13 0 % 256
    creation_time := le16 (bs.getD 14 0) (bs.getD 15 0)
    creation_date := le16 (bs.getD 16 0) (bs.getD 17 0)
    access_date := le16 (bs.getD 18 0) (bs.getD 19 0)
    first_cluster_address_high := le16 (bs.getD 20 0) (bs.getD 21 0)
    modified_time := le16 (bs.getD 22 0) (bs.getD 23 0)
    modified_date := le16 (bs.getD 24 0) (bs.getD 25 0)
    first_cluster_address_low := le16 (bs.getD 26 0) (bs.getD 27 0)
    file_size := le32 (bs.getD 28 0) (bs.getD 29 0) (bs.getD 30 0) (bs.getD 31 0) }

/-- The entries `entries[0]`, `entries[1]`, ... that lie inside a buffer cast to
`FileEntry_t *`; an index past them is outside the buffer. -/
def entriesOf (buf : List Nat) : List FileEntry :=
  (List.range (buf.length / 32)).map fun i => FileEntry.ofBytes ((buf.drop (32 * i)).take 32)

/-- The C string held in a buffer: the bytes before the first NUL. -/
def cstr (buf : List Nat) : List Nat := buf.takeWhile (· != 0)

/-- `tolower` in the "C" locale (the program never calls `setlocale`). -/
def tolower (c : Nat) : Nat := if 65 ≤ c ∧ c ≤ 90 then c + 32 else c

/-- `memcpy(dst + dstOff, src + srcOff, n)` on byte buffers; `none` when a byte
that is copied lies outside `src` or outside `dst`. -/
def memcpy (dst : List Nat) (dstOff : Nat) (src : List Nat) (srcOff n : Nat) :
    Option (List Nat) :=
  if n = 0 then some dst
  else if srcOff + n ≤ src.length ∧ dstOff + n ≤ dst.length then
    some (dst.take dstOff ++ (src.drop srcOff).take n ++ dst.drop (dstOff + n))
  else none

/-- The successive results of `strtok(s, delim)`, `strtok(NULL, delim)`, ...
before the first `NULL`: the non-empty pieces of `s` between delimiters. `cur`
is the piece being read, reversed. -/
def strtokAux (delim : Nat) : List Nat → List Nat → List (List Nat)
  | [], cur => if cur = [] then [] else [cur.reverse]
  | c :: cs, cur =>
    if c = delim then
      (if cur = [] then strtokAux delim cs [] else cur.reverse :: strtokAux delim cs [])
    else strtokAux delim cs (c :: cur)

/-- All tokens `strtok` yields for the C string `s`. -/
def strtok (s : List Nat) (delim : Nat) : List (List Nat) := strtokAux delim (cstr s) []

/-! ## FAT decoding -/

/-- `get_fat_entry(FAT, index)`. `index` is the value of the `uint16_t`
parameter, so `index + index / 2` cannot wrap; a caller holding a wider integer
converts it at the call. The `uint16_t` is read little-endian at
`FAT[fat_offset]`; `none` is a read outside the FAT buffer. -/
def get_fat_entry (FAT : List Nat) (index : Nat) : Option Nat :=
  let fat_offset := index + index / 2
  match FAT[fat_offset]?, FAT[fat_offset + 1]? with
  | some b0, some b1 =>
    let entry_value := (b0 % 256 + 256 * (b1 % 256)) % 65536
    if index &&& 0x0001 ≠ 0 then some (entry_value >>> 4)
    else some (entry_value &&& 0x0fff)
  | _, _ => none

/-! ## Directory entries -/

/-- `skippable(entry)`. -/
def skippable (entry : FileEntry) : Bool :=
  if entry.allocation_status = DELETED then true
  else if entry.file_attributes &&& HIDDEN_FILE ≠ 0 then true
  else if entry.file_attributes &&& LONG_FILENAME ≠ 0 then true
  else false

/-- `lastEntry(entry)`. -/
def lastEntry (entry : FileEntry) : Bool := entry.allocation_status == UNALLOCATED

/-- `getFilename(entry)`: the 13-byte buffer returned, `none` when `calloc`
fails. The bytes are written from index 0 on, the rest stays zero. -/
def getFilename (p : Platform) (entry : FileEntry) : Option (List Nat) :=
  if p.calloc 13 = false then none
  else
    let base := ((entry.filename.take 8).takeWhile (· != 32)).map tolower
    if entry.extension.getD 0 0 = 32 then
      some (base ++ List.replicate (13 - base.length) 0)
    else
      let name := base ++ [46] ++ ((entry.extension.take 3).takeWhile (· != 32)).map tolower
      some (name ++ List.replicate (13 - name.length) 0)

/-- The `for` loop of `countRootEntries` with `n` iterations left, at index `i`;
`none` of `rootEntries[i]` is a read outside the array. -/
def countRootEntries_loop (rootEntries : List FileEntry) : Nat → Nat → Nat → Res Nat
  | 0, _, counter => .ok counter
  | n + 1, i, counter =>
    match rootEntries[i]? with
    | none => .ub
    | some entry =>
      if lastEntry entry then .ok counter
      else if skippable entry then countRootEntries_loop rootEntries n (i + 1) counter
      else countRootEntries_loop rootEntries n (i + 1) ((counter + 1) % 2 ^ 32)

/-- `countRootEntries()`. -/
def countRootEntries (g : global_data_t) : Res Nat :=
  countRootEntries_loop (entriesOf g.rootEntries) g.BS.max_files_in_root 0 0

/-! ## Cluster chains -/

/-- The loop of `countFATentries`, from the value `FAT_entry` with `counter`
clusters counted so far. -/
def countFATentries_loop (FAT : List Nat) : Nat → Nat → Nat → Res Nat
  | 0, _, _ => .timeout
  | fuel + 1, FAT_entry, counter =>
    if last_entry FAT_entry || bad_entry FAT_entry then .ok counter
    else
      match get_fat_entry FAT FAT_entry with
      | none => .ub
      | some next => countFATentries_loop FAT fuel next ((counter + 1) % 2 ^ 32)

/-- `countFATentries(entry)`. -/
def countFATentries (g : global_data_t) (fuel : Nat) (entry : FileEntry) : Res Nat :=
  countFATentries_loop g.FAT fuel entry.first_cluster_address_low 0

/-- `cluster_size` as `getContents` computes it. -/
def cluster_size (g : global_data_t) : Nat :=
  (g.BS.bytes_per_sector * g.BS.sectors_per_cluster) % 2 ^ 32

/-- The `while (true)` loop of `getContents`. `none` is the `NULL` returned on
a bad entry. In `offset` the `int` value `FAT_entry_value - 2` is converted to
`uint32_t` by the multiplication with `cluster_size`. -/
def getContents_loop (g : global_data_t) (isDirectory : Bool) :
    Nat → Nat → Nat → Nat → List Nat → Res (Option (List Nat))
  | 0, _, _, _, _ => .timeout
  | fuel + 1, FAT_entry_value, remaining_data, data_read, contents =>
    if bad_entry FAT_entry_value then .ok none
    else if isDirectory && last_entry FAT_entry_value then .ok (some contents)
    else
      let offset := ((FAT_entry_value + 2 ^ 32 - 2) % 2 ^ 32 * cluster_size g) % 2 ^ 32
      let to_read :=
        if isDirectory then cluster_size g
        else if remaining_data > cluster_size g then cluster_size g else remaining_data
      match memcpy contents data_read g.dataSection offset to_read with
      | none => .ub
      | some contents1 =>
        let data_read1 := (data_read + to_read) % 2 ^ 32
        let remaining_data1 := (remaining_data + 2 ^ 32 - to_read) % 2 ^ 32
        if last_entry FAT_entry_value then .ok (some contents1)
        else
          match get_fat_entry g.FAT FAT_entry_value with
          | none => .ub
          | some next => getContents_loop g isDirectory fuel next remaining_data1 data_read1 contents1

/-- `getContents(entry)`: `ok (some buffer)` is the buffer returned, `ok none`
is `NULL`. For the null entry the root array itself is returned. -/
def getContents (p : Platform) (g : global_data_t) (fuel : Nat) :
    DirPtr → Res (Option (List Nat))
  | .null => .ok (some g.rootEntries)
  | .torn _ _ => .ub
  | .entry entry =>
    let isDirectory := is_directory entry
    let FAT_index := entry.first_cluster_address_low
    let remaining_data := entry.file_size
    let size : Res Nat :=
      if isDirectory then
        (countFATentries g fuel entry).bind fun clusters =>
          .ok ((clusters * cluster_size g) % 2 ^ 32)
      else .ok ((entry.file_size + 1) % 2 ^ 32)
    size.bind fun n =>
      if p.calloc n = false then .ok none
      else getContents_loop g isDirectory fuel FAT_index remaining_data 0 (List.replicate n 0)

/-- The `while (true)` loop of `getContents` as in `getContents_loop`, together
with a log of its copies: for every `memcpy` the loop executes, in order, the
value of `FAT_entry_value` the source offset was computed from and the number of
bytes copied. The log ends with the first copy that leaves a buffer. -/
def getContents_loop_log (g : global_data_t) (isDirectory : Bool) :
    Nat → Nat → Nat → Nat → List Nat → Res (Option (List Nat)) × List (Nat × Nat)
  | 0, _, _, _, _ => (.timeout, [])
  | fuel + 1, FAT_entry_value, remaining_data, data_read, contents =>
    if bad_entry FAT_entry_value then (.ok none, [])
    else if isDirectory && last_entry FAT_entry_value then (.ok (some contents), [])
    else
      let offset := ((FAT_entry_value + 2 ^ 32 - 2) % 2 ^ 32 * cluster_size g) % 2 ^ 32
      let to_read :=
        if isDirectory then cluster_size g
        else if remaining_data > cluster_size g then cluster_size g else remaining_data
      match memcpy contents data_read g.dataSection offset to_read with
      | none => (.ub, [(FAT_entry_value, to_read)])
      | some contents1 =>
        let data_read1 := (data_read + to_read) % 2 ^ 32
        let remaining_data1 := (remaining_data + 2 ^ 32 - to_read) % 2 ^ 32
        if last_entry FAT_entry_value then (.ok (some contents1), [(FAT_entry_value, to_read)])
        else
          match get_fat_entry g.FAT FAT_entry_value with
          | none => (.ub, [(FAT_entry_value, to_read)])
          | some next =>
            let r := getContents_loop_log g isDirectory fuel next remaining_data1 data_read1
              contents1
            (r.1, (FAT_entry_value, to_read) :: r.2)

/-- The copies `getContents(entry)` executes for an entry other than the root:
the log of its loop, empty when the loop is not reached. -/
def getContents_reads (p : Platform) (g : global_data_t) (fuel : Nat) (entry : FileEntry) :
    List (Nat × Nat) :=
  let isDirectory := is_directory entry
  let size : Res Nat :=
    if isDirectory then
      (countFATentries g fuel entry).bind fun clusters =>
        .ok ((clusters * cluster_size g) % 2 ^ 32)
    else .ok ((entry.file_size + 1) % 2 ^ 32)
  match size with
  | .ok n =>
    if p.calloc n = false then []
    else
      (getContents_loop_log g isDirectory fuel entry.first_cluster_address_low entry.file_size 0
        (List.replicate n 0)).2
  | _ => []

/-! ## The working-directory stack -/

/-- `memcpy(dst, src, n)` between two arrays of pointers of `sizeof_ptr` bytes
each, slot by slot from slot `i`: a slot inside the first `n` bytes is copied,
a slot outside them is kept, and a slot the copy ends in gets the low bytes of
the source and keeps its own high bytes. -/
def memcpy_ptrs (sizeof_ptr n : Nat) : Nat → List DirPtr → List DirPtr → List DirPtr
  | _, [], _ => []
  | _, d :: ds, [] => d :: ds
  | i, d :: ds, s :: ss =>
    (if (i + 1) * sizeof_ptr ≤ n then s
     else if n ≤ i * sizeof_ptr then d
     else DirPtr.mix s.lowPart d.highPart) :: memcpy_ptrs sizeof_ptr n (i + 1) ds ss

/-- `makeHistoryBackup()`. -/
def makeHistoryBackup (p : Platform) (g : global_data_t) : global_data_t :=
  { g with
    historyIndexBackup := g.historyIndex
    historyBackup := memcpy_ptrs p.sizeof_ptr MAX_DEPTH 0 g.historyBackup g.directoryHistory }

/-- `restoreHistory()`. -/
def restoreHistory (p : Platform) (g : global_data_t) : global_data_t :=
  { g with
    historyIndex := g.historyIndexBackup
    directoryHistory := memcpy_ptrs p.sizeof_ptr MAX_DEPTH 0 g.directoryHistory g.historyBackup }

/-- `getDirectory(index)`; `none` is a read outside the array. -/
def getDirectory (g : global_data_t) (index : Nat) : Option DirPtr := g.directoryHistory[index]?

/-- `getCurrentDir()`. -/
def getCurrentDir (g : global_data_t) : Option DirPtr := getDirectory g g.historyIndex

/-! ## Path resolution -/

/-- The scan loop of `findEntry` over `dirCluster[i]`, `dirCluster[i + 1]`, ...:
`ok (some e)` is the pointer `dirCluster + i` returned, `ok none` is `NULL`;
running past the last entry of the buffer is a read outside it. -/
def findEntry_scan (p : Platform) (name : List Nat) : List FileEntry → Res (Option FileEntry)
  | [] => .ub
  | entry :: rest =>
    if lastEntry entry then .ok none
    else if skippable entry then findEntry_scan p name rest
    else
      match getFilename p entry with
      | none => findEntry_scan p name rest
      | some filename =>
        if cstr name = cstr filename then .ok (some entry)
        else findEntry_scan p name rest

/-- `findEntry(name)`; `name = none` is the null pointer. -/
def findEntry (p : Platform) (g : global_data_t) (fuel : Nat) (name : Option (List Nat)) :
    Res (Option FileEntry) :=
  match name with
  | none => .ok none
  | some name =>
    if (cstr name).head? = some 46 then .ok none
    else
      match getCurrentDir g with
      | none => .ub
      | some directory =>
        (getContents p g fuel directory).bind fun dirCluster =>
          match dirCluster with
          | none => .ok none
          | some dirCluster => findEntry_scan p name (entriesOf dirCluster)

/-- What `goAndFetch` returns: `NULL`, the sentinel `ROOT`, or a new handle. -/
inductive Fetched where
  | null
  | root
  | handle (h : File_t)
  deriving DecidableEq, Repr

/-- How the `while (chunk != NULL)` loop of `goAndFetch` ends: with one of the
`return NULL` statements inside it (after `restoreHistory`), or by leaving the
loop with `final_chunk` and `last_file`. -/
inductive WalkEnd where
  | returned
  | left (final_chunk : Option (List Nat)) (last_file : Bool)
  deriving DecidableEq, Repr

/-- The `while (chunk != NULL)` loop of `goAndFetch`. The first list holds
`chunk` and the tokens `strtok(NULL, "/")` will yield after it. -/
def goAndFetch_walk (p : Platform) (fuel : Nat) :
    List (List Nat) → global_data_t → Option (List Nat) → Res (WalkEnd × global_data_t)
  | [], g, final_chunk => .ok (.left final_chunk false, g)
  | chunk :: rest, g, _ =>
    if chunk = [46] then goAndFetch_walk p fuel rest g rest.head?
    else if chunk = [46, 46] then
      goAndFetch_walk p fuel rest
        (if g.historyIndex > 0 then { g with historyIndex := g.historyIndex - 1 } else g)
        rest.head?
    else
      match findEntry p g fuel (some chunk) with
      | .ub => .ub
      | .timeout => .timeout
      | .ok none => .ok (.returned, restoreHistory p g)
      | .ok (some dir) =>
        if is_directory dir = false then
          if rest ≠ [] then .ok (.returned, restoreHistory p g)
          else .ok (.left (some chunk) true, g)
        else
          let index := (g.historyIndex + 1) % 2 ^ 32
          if index < g.directoryHistory.length then
            goAndFetch_walk p fuel rest
              { g with historyIndex := index
                       directoryHistory := g.directoryHistory.set index (.entry dir) }
              (some chunk)
          else .ub

/-- `goAndFetch(path, restore_history)`; `path = none` is the null pointer. -/
def goAndFetch (p : Platform) (fuel : Nat) (g : global_data_t) (path : Option (List Nat))
    (restore_history : Bool) : Res (Fetched × global_data_t) :=
  match path with
  | none => .ok (.null, g)
  | some path =>
    let g := makeHistoryBackup p g
    let g := if path.head? = some 47 then { g with historyIndex := 0 } else g
    if p.calloc ((cstr path).length + 1) = false then .ok (.null, restoreHistory p g)
    else
      (goAndFetch_walk p fuel (strtok path 47) g none).bind fun (w, g) =>
        match w with
        | .returned => .ok (.null, g)
        | .left final_chunk last_file =>
          let g :=
            if last_file = false ∧ g.historyIndex > 0 ∧ final_chunk ≠ none then
              { g with historyIndex := g.historyIndex - 1 }
            else g
          if final_chunk = none ∧ g.historyIndex = 0 then
            .ok (.root, if restore_history then restoreHistory p g else g)
          else
            (findEntry p g fuel final_chunk).bind fun entry =>
              match entry with
              | none => .ok (.null, restoreHistory p g)
              | some entry =>
                if p.calloc p.sizeof_File_t = false then .ok (.null, restoreHistory p g)
                else
                  let handle : File_t :=
                    { _entry := .entry entry
                      _position := 0
                      _type := if is_directory entry then .directory else .file
                      _size := entry.file_size
                      _opened := true }
                  .ok (.handle handle, if restore_history then restoreHistory p g else g)

/-! ## The `cd` command -/

/-- What the `cd` branch of `handleCommand` prints, or that it printed nothing:
on arriving at the root, and on entering a directory. -/
inductive CdReport where
  | no_argument
  | arrived_at_root
  | doesnt_exist
  | not_a_directory
  | max_depth_reached
  | entered
  deriving DecidableEq, Repr

/-- The `cd` branch of `handleCommand`; `second` is the second token of the
command line (`none` when there is none). -/
def handleCommand_cd (p : Platform) (fuel : Nat) (g : global_data_t)
    (second : Option (List Nat)) : Res (CdReport × global_data_t) :=
  match second with
  | none => .ok (.no_argument, g)
  | some second =>
    (goAndFetch p fuel g (some second) false).bind fun (handle, g) =>
      match handle with
      | .root => .ok (.arrived_at_root, g)
      | .null => .ok (.doesnt_exist, g)
      | .handle handle =>
        match handle._entry with
        | .entry directory =>
          if is_directory directory = false then .ok (.not_a_directory, g)
          else if (g.historyIndex + 1) % 2 ^ 32 = MAX_DEPTH then .ok (.max_depth_reached, g)
          else
            let index := (g.historyIndex + 1) % 2 ^ 32
            if index < g.directoryHistory.length then
              .ok (.entered, { g with historyIndex := index
                                      directoryHistory := g.directoryHistory.set index (.entry directory) })
            else .ub
        | _ => .ub

/-- The working-directory stack: the slots `directoryHistory[0..historyIndex]`. -/
def stack (g : global_data_t) : List DirPtr := g.directoryHistory.take (g.historyIndex + 1)

/-! ## Stream handles -/

def FILE_ERROR : Int := -2
def FILE_END : Int := -3

/-- What the stream functions take from the C implementation besides
`Platform`: the width of `size_t` in bits and whether plain `char` is signed. -/
structure CTypes where
  size_t_bits : Nat
  char_signed : Bool
  deriving DecidableEq, Repr

/-- The conversion of an integer to `int` or `int32_t`: the value modulo 2^32,
taken in the range from -2^31 to 2^31 - 1. -/
def wrap32 (x : Int) : Int := (x + 2 ^ 31) % 2 ^ 32 - 2 ^ 31

/-- The conversion of an integer to `size_t`. -/
def to_size_t (c : CTypes) (x : Int) : Nat := (x % 2 ^ c.size_t_bits).toNat

/-- `directoryOpen(directoryname)`: the handle returned (`none` is `NULL`) and
the globals after the call. The root handle is written to without a test of
what `calloc` returned. -/
def directoryOpen (p : Platform) (fuel : Nat) (g : global_data_t)
    (directoryname : Option (List Nat)) : Res (Option File_t × global_data_t) :=
  (goAndFetch p fuel g directoryname true).bind fun (handle, g) =>
    match handle with
    | .null => .ok (none, restoreHistory p g)
    | .root =>
      if p.calloc p.sizeof_File_t = false then .ub
      else
        .ok (some { _entry := .null, _position := 0, _type := .directory, _size := 0,
                    _opened := true }, g)
    | .handle handle => .ok (some handle, g)

/-- `fileOpen(filename)`. -/
def fileOpen (p : Platform) (fuel : Nat) (g : global_data_t) (filename : Option (List Nat)) :
    Res (Option File_t × global_data_t) :=
  (goAndFetch p fuel g filename true).bind fun (handle, g) =>
    match handle with
    | .handle handle => .ok (some handle, g)
    | _ => .ok (none, restoreHistory p g)

/-- What `fileRead` leaves: the value returned, the caller's buffer and the
handle. -/
structure ReadOutcome where
  ret : Int
  buffer : Option (List Nat)
  handle : Option File_t
  deriving DecidableEq, Repr

/-- `fileRead(buffer, size, items, handle)`; `none` is a null pointer. `size`
and `items` are values of `size_t`. The buffer is the memory the caller passes:
a copy of more bytes than it holds writes outside it. -/
def fileRead (p : Platform) (c : CTypes) (g : global_data_t) (fuel : Nat)
    (buffer : Option (List Nat)) (size items : Nat) (handle : Option File_t) : Res ReadOutcome :=
  match handle, buffer with
  | some h, some buf =>
    if h._opened = false ∨ h._type = file_type.directory then
      .ok { ret := FILE_ERROR, buffer := buffer, handle := handle }
    else
      let to_read := (size * items) % 2 ^ c.size_t_bits
      if to_read < size then .ok { ret := FILE_ERROR, buffer := buffer, handle := handle }
      else
        let remaining_bytes := to_size_t c ((h._size : Int) - h._position)
        if remaining_bytes = 0 then .ok { ret := FILE_END, buffer := buffer, handle := handle }
        else
          let to_read := if to_read > remaining_bytes then remaining_bytes else to_read
          (getContents p g fuel h._entry).bind fun contents =>
            match contents with
            | none => .ok { ret := FILE_ERROR, buffer := buffer, handle := handle }
            | some contents =>
              if h._position < 0 ∧ to_read ≠ 0 then .ub
              else
                match memcpy buf 0 contents h._position.toNat to_read with
                | none => .ub
                | some buf1 =>
                  .ok { ret := wrap32 to_read
                        buffer := some buf1
                        handle := some { h with
                          _position := wrap32 (to_size_t c (h._position + (to_read : Int))) } }
  | _, _ => .ok { ret := FILE_ERROR, buffer := buffer, handle := handle }

/-- The value of a byte stored in a plain `char`, as an `int`. -/
def char_value (c : CTypes) (b : Nat) : Int :=
  if c.char_signed ∧ b % 256 ≥ 128 then (b % 256 : Int) - 256 else (b % 256 : Int)

/-- `fileReadChar(handle)`: the value returned and the handle. The local `c` is
a one-byte buffer. -/
def fileReadChar (p : Platform) (c : CTypes) (g : global_data_t) (fuel : Nat)
    (handle : Option File_t) : Res (Int × Option File_t) :=
  (fileRead p c g fuel (some [0]) 1 1 handle).bind fun r =>
    if r.ret < 0 then .ok (r.ret, r.handle)
    else
      match r.buffer with
      | some [b] => .ok (char_value c b, r.handle)
      | _ => .ub

/-- `fileSeek(handle, position)`: the handle after the call. `position` is a
value of `size_t`, `_position` an `int`. -/
def fileSeek (handle : Option File_t) (position : Nat) : Option File_t :=
  match handle with
  | none => none
  | some h =>
    if h._opened = false then some h
    else
      let position := if position > h._size then h._size else position
      some { h with _position := wrap32 position }

/-- `fileSeekCurrent(handle, offset)`: the handle after the call. `offset` is a
value of `int32_t`. The sum `handle->_position + offset` is computed in `int`,
where an overflow is undefined behaviour; in `new_position > handle->_size` the
`int32_t` is converted to `size_t`. -/
def fileSeekCurrent (c : CTypes) (handle : Option File_t) (offset : Int) :
    Res (Option File_t) :=
  match handle with
  | none => .ok none
  | some h =>
    if h._opened = false then .ok (some h)
    else
      let new_position := h._position + offset
      if new_position < -2 ^ 31 ∨ 2 ^ 31 ≤ new_position then .ub
      else if new_position < 0 then .ok (some { h with _position := 0 })
      else if to_size_t c new_position > h._size then
        .ok (some { h with _position := wrap32 h._size })
      else .ok (some { h with _position := new_position })

/-- How the scan loop of `fileReadDirectory` ends: by `break` at the last entry,
by the `return FILE_ERROR` after a failed `getFilename`, or by copying a
filename to the buffer. -/
inductive DirScanEnd where
  | finished
  | failed
  | found (filename : List Nat)
  deriving DecidableEq, Repr

/-- The scan loop of `fileReadDirectory` over `entries[i]`, `entries[i + 1]`,
..., with the loop variable `entryIndex` and the static `lastIndex`. -/
def fileReadDirectory_scan (p : Platform) (lastIndex : Nat) :
    List FileEntry → Nat → Res DirScanEnd
  | [], _ => .ub
  | entry :: rest, entryIndex =>
    if lastEntry entry then .ok .finished
    else if skippable entry then fileReadDirectory_scan p lastIndex rest entryIndex
    else if entryIndex ≤ lastIndex then fileReadDirectory_scan p lastIndex rest (entryIndex + 1)
    else
      match getFilename p entry with
      | none => .ok .failed
      | some filename => .ok (.found filename)

/-- What `fileReadDirectory` leaves: the value returned, the string copied to
the caller's buffer (`none` when nothing is copied), the static `lastIndex`, and
whether `free(entries)` was called on the root array (`getContents` returns the
root array itself for the root handle). -/
structure ReadDirOutcome where
  ret : Int
  name : Option (List Nat)
  lastIndex : Nat
  freed_root : Bool
  deriving DecidableEq, Repr

/-- `fileReadDirectory(buffer, handle)`, from the value `lastIndex` of its static
variable. -/
def fileReadDirectory (p : Platform) (g : global_data_t) (fuel : Nat) (lastIndex : Nat)
    (handle : Option File_t) : Res ReadDirOutcome :=
  match handle with
  | none => .ok { ret := FILE_ERROR, name := none, lastIndex := lastIndex, freed_root := false }
  | some h =>
    if h._opened = false ∨ h._type ≠ file_type.directory then
      .ok { ret := FILE_ERROR, name := none, lastIndex := lastIndex, freed_root := false }
    else
      (getContents p g fuel h._entry).bind fun entries =>
        match entries with
        | none =>
          .ok { ret := FILE_ERROR, name := none, lastIndex := lastIndex, freed_root := false }
        | some entries =>
          (fileReadDirectory_scan p lastIndex (entriesOf entries) 0).bind fun e =>
            match e with
            | .found filename =>
              .ok { ret := 0, name := some (cstr filename), lastIndex := lastIndex + 1,
                    freed_root := false }
            | .failed =>
              .ok { ret := FILE_ERROR, name := none, lastIndex := lastIndex,
                    freed_root := decide (h._entry = DirPtr.null) }
            | .finished =>
              .ok { ret := FILE_END, name := none, lastIndex := 0,
                    freed_root := decide (h._entry = DirPtr.null) }

/-! ## The `spaceinfo` and `get` commands -/

/-- The counters of the `spaceinfo` branch of `handleCommand`. -/
structure SpaceInfo where
  bad_entries : Nat
  free_entries : Nat
  used_entries : Nat
  ending_entries : Nat
  deriving DecidableEq, Repr

/-- The value of a classification test (0 or 1) as it is added to a counter. -/
def truth_value (b : Bool) : Nat := if b then 1 else 0

/-- The `for` loop of `spaceinfo` with `n` iterations left, at index `i`. The
`int` index is converted to the `uint16_t` parameter of `get_fat_entry`, and
`i++` overflows at the largest `int`. -/
def spaceinfo_loop (FAT : List Nat) : Nat → Nat → SpaceInfo → Res SpaceInfo
  | 0, _, c => .ok c
  | n + 1, i, c =>
    match get_fat_entry FAT (i % 65536) with
    | none => .ub
    | some entry =>
      if i + 1 < 2 ^ 31 then
        spaceinfo_loop FAT n (i + 1)
          { bad_entries := (c.bad_entries + truth_value (bad_entry entry)) % 2 ^ 32
            free_entries := (c.free_entries + truth_value (free_entry entry)) % 2 ^ 32
            ending_entries := (c.ending_entries + truth_value (last_entry entry)) % 2 ^ 32
            used_entries := (c.used_entries + truth_value (used_entry entry)) % 2 ^ 32 }
      else .ub

/-- `FAT_entries` of the `spaceinfo` branch: `(FAT_size / 3) * 2`. -/
def FAT_entries (g : global_data_t) : Nat :=
  ((g.BS.size_of_FAT * g.BS.bytes_per_sector) % 2 ^ 32 / 3 * 2) % 2 ^ 32

/-- The `spaceinfo` branch of `handleCommand`: the four counters it prints. -/
def handleCommand_spaceinfo (g : global_data_t) : Res SpaceInfo :=
  spaceinfo_loop g.FAT (FAT_entries g) 0
    { bad_entries := 0, free_entries := 0, used_entries := 0, ending_entries := 0 }

/-- What the `get` branch of `handleCommand` prints, and for a copy the name of
the host file and the bytes written to it. -/
inductive GetReport where
  | no_argument
  | not_found
  | is_a_directory
  | couldnt_create
  | copied (filename : List Nat) (written : List Nat)
  deriving DecidableEq, Repr

/-- The `get` branch of `handleCommand`; `second` is the second token of the
command line and `fopen_ok` tells whether `fopen(filename, "w")` succeeds. The
bytes written are those of `fwrite(contents, strlen(contents), 1, output)` on a
host that writes a stream opened with "w" unchanged. -/
def handleCommand_get (p : Platform) (fuel : Nat) (g : global_data_t)
    (second : Option (List Nat)) (fopen_ok : Bool) : Res (GetReport × global_data_t) :=
  match second with
  | none => .ok (.no_argument, g)
  | some second =>
    (fileOpen p fuel g (some second)).bind fun (handle, g) =>
      match handle with
      | none => .ok (.not_found, g)
      | some handle =>
        match handle._entry with
        | .entry entry =>
          if is_directory entry then .ok (.is_a_directory, g)
          else
            (getContents p g fuel (.entry entry)).bind fun contents =>
              match getFilename p entry with
              | none => .ub
              | some filename =>
                if fopen_ok = false then .ok (.couldnt_create, g)
                else
                  match contents with
                  | none => .ub
                  | some contents => .ok (.copied (cstr filename) (cstr contents), g)
        | _ => .ub

/-! ## Vocabulary of the statements -/

/-- The FAT chain that starts at the value `c`: following `get_fat_entry` from
`c` visits exactly the values `cs`, in this order, and then holds the value `t`. -/
def isChain (FAT : List Nat) : Nat → List Nat → Nat → Bool
  | c, [], t => c == t
  | c, x :: xs, t =>
    x == c &&
      match get_fat_entry FAT c with
      | some next => isChain FAT next xs t
      | none => false

/-- Cluster `c` lies inside the data region: `2 ≤ c` and the `cluster_size`
bytes at data offset `(c - 2) * cluster_size` are bytes of `dataSection`. -/
def inData (g : global_data_t) (c : Nat) : Prop :=
  2 ≤ c ∧ (c - 2) * cluster_size g + cluster_size g ≤ g.dataSection.length

instance (g : global_data_t) (c : Nat) : Decidable (inData g c) := by
  unfold inData; infer_instance

/-- The bytes of cluster `c`, taken at data offset `(c - 2) * cluster_size`. -/
def cluster (g : global_data_t) (c : Nat) : List Nat :=
  (g.dataSection.drop ((c - 2) * cluster_size g)).take (cluster_size g)

/-- The number of entries `loadDiskImage` allocates for `dataSection`
(`remaining_entries`), in its `uint32_t` arithmetic. -/
def remaining_entries (BS : BootSector) : Nat :=
  let number_of_sectors := max BS.number_of_sectors_2b BS.number_of_sectors_4b
  let root_in_bytes := (BS.max_files_in_root * 32) % 2 ^ 32
  let root_in_sectors := root_in_bytes / BS.bytes_per_sector
  let loaded_sectors := (1 + BS.FATs * BS.size_of_FAT + root_in_sectors) % 2 ^ 32
  let remaining_sectors := (number_of_sectors + 2 ^ 32 - loaded_sectors) % 2 ^ 32
  (remaining_sectors * BS.bytes_per_sector) % 2 ^ 32 / 32

/-- The buffers of `g` have the sizes `loadDiskImage` allocates them with:
`calloc(FAT_in_bytes, 1)`, `calloc(max_files_in_root, 32)` and
`calloc(remaining_entries, 32)`. -/
def loaded (g : global_data_t) : Prop :=
  g.FAT.length = (g.BS.size_of_FAT * g.BS.bytes_per_sector) % 2 ^ 32 ∧
  g.rootEntries.length = g.BS.max_files_in_root * 32 ∧
  g.dataSection.length = remaining_entries g.BS * 32

instance (g : global_data_t) : Decidable (loaded g) := by
  unfold loaded; infer_instance

/-! ## The program: `main`, `loadDiskImage` and `initGUI` -/

/-- The boot sector stored in 512 bytes (the packed layout of
`struct _BootSector`). -/
def BootSector.ofBytes (bs : List Nat) : BootSector :=
  { bytes_per_sector := le16 (bs.getD 11 0) (bs.getD 12 0)
    sectors_per_cluster := bs.getD 13 0 % 256
    FATs := bs.getD 16 0 % 256
    max_files_in_root := le16 (bs.getD 17 0) (bs.getD 18 0)
    number_of_sectors_2b := le16 (bs.getD 19 0) (bs.getD 20 0)
    size_of_FAT := le16 (bs.getD 22 0) (bs.getD 23 0)
    number_of_sectors_4b :=
      le32 (bs.getD 32 0) (bs.getD 33 0) (bs.getD 34 0) (bs.getD 35 0) }

/-- The globals of the program as far as `main` depends on them: the loaded
volume (`none` while `FAT`, `dataSection` and `rootEntries` are null), and
whether `global_data.BS` points to memory that has been freed. -/
structure ProgramState where
  volume : Option global_data_t
  BS_freed : Bool
  deriving DecidableEq, Repr

/-- The globals at program start: all pointers null. -/
def ProgramState.start : ProgramState := { volume := none, BS_freed := false }

/-- A read of `n` bytes from a stream into a zeroed buffer of `n` bytes: the
buffer and the rest of the stream. Where the stream ends early the rest of the
buffer stays zero. -/
def fread_bytes (stream : List Nat) (n : Nat) : List Nat × List Nat :=
  (stream.take n ++ List.replicate (n - (stream.take n).length) 0, stream.drop n)

/-- The loop of `loadDiskImage` that allocates and reads the `n` remaining FAT
copies: the copies read and the rest of the stream, `none` when a `calloc`
fails. -/
def loadDiskImage_FATs (p : Platform) (FAT_in_bytes : Nat) :
    Nat → List Nat → Option (List (List Nat) × List Nat)
  | 0, stream => some ([], stream)
  | n + 1, stream =>
    if p.calloc FAT_in_bytes = false then none
    else
      match loadDiskImage_FATs p FAT_in_bytes n (fread_bytes stream FAT_in_bytes).2 with
      | none => none
      | some (FATs, rest) => some ((fread_bytes stream FAT_in_bytes).1 :: FATs, rest)

/-- `loadDiskImage(name)`: the value returned and the globals after the call.
`image` is the content of the file `name`, `none` when `fopen` fails. The last
`fread` stores up to `remaining_sectors` items of `bytes_per_sector` bytes; more
bytes than `dataSection` holds are written outside it. -/
def loadDiskImage (p : Platform) (image : Option (List Nat)) : Res (Int × ProgramState) :=
  match image with
  | none => .ok (1, ProgramState.start)
  | some diskFile =>
    if p.calloc 512 = false then .ok (1, ProgramState.start)
    else
      let BS := BootSector.ofBytes (fread_bytes diskFile 512).1
      let stream := (fread_bytes diskFile 512).2
      let number_of_sectors := max BS.number_of_sectors_2b BS.number_of_sectors_4b
      let FAT_in_bytes := (BS.size_of_FAT * BS.bytes_per_sector) % 2 ^ 32
      if p.calloc (BS.FATs * p.sizeof_ptr) = false then
        .ok (1, { volume := none, BS_freed := true })
      else
        match loadDiskImage_FATs p FAT_in_bytes BS.FATs stream with
        | none => .ok (1, { volume := none, BS_freed := true })
        | some ([], _) => .ub
        | some (FAT :: _, stream) =>
          let root_in_bytes := (BS.max_files_in_root * 32) % 2 ^ 32
          if BS.bytes_per_sector = 0 then .ub
          else
            let root_in_sectors := root_in_bytes / BS.bytes_per_sector
            if p.calloc (BS.max_files_in_root * 32) = false then
              .ok (1, { volume := none, BS_freed := true })
            else
              let rootEntries := (fread_bytes stream root_in_bytes).1
              let stream := (fread_bytes stream root_in_bytes).2
              let loaded_sectors := (1 + BS.FATs * BS.size_of_FAT + root_in_sectors) % 2 ^ 32
              let remaining_sectors := (number_of_sectors + 2 ^ 32 - loaded_sectors) % 2 ^ 32
              let remaining_entries := (remaining_sectors * BS.bytes_per_sector) % 2 ^ 32 / 32
              if p.calloc (remaining_entries * 32) = false then
                .ok (1, { volume := none, BS_freed := true })
              else
                let data := stream.take (BS.bytes_per_sector * remaining_sectors)
                if data.length > remaining_entries * 32 then .ub
                else
                .ok (0,
                  { volume := some
                      { BS := BS
                        FAT := FAT
                        dataSection :=
                          data ++ List.replicate (remaining_entries * 32 - data.length) 0
                        rootEntries := rootEntries
                        directoryHistory := List.replicate MAX_DEPTH .null
                        historyBackup := List.replicate MAX_DEPTH .null
                        historyIndex := 0
                        historyIndexBackup := 0 }
                    BS_freed := false })

/-- `fgets(buffer, n, stdin)`: the characters stored (at most `n - 1`, up to and
with the first newline) and the rest of the input. -/
def fgets : Nat → List Nat → List Nat × List Nat
  | 0, stdin => ([], stdin)
  | 1, stdin => ([], stdin)
  | _, [] => ([], [])
  | n + 1, c :: stdin =>
    if c = 10 then ([c], stdin)
    else ((c :: (fgets n stdin).1), (fgets n stdin).2)

/-- The loop `while (getchar() != '\n');`: the input after the next newline,
`none` when there is no newline left (at the end of the input `getchar` returns
`EOF` on and on). -/
def skip_line : List Nat → Option (List Nat)
  | [] => none
  | c :: stdin => if c = 10 then some stdin else skip_line stdin

/-- `initGUI()`, for at most `fuel` commands: the globals when the loop is left
by the command `exit`. `stdin` is the input, `handleCommand` the dispatcher as a
function of the globals and the command line. An empty `buffer` is indexed at
`length - 1` with `length` 0. -/
def initGUI (handleCommand : ProgramState → List Nat → Res ProgramState) :
    Nat → List Nat → ProgramState → Res ProgramState
  | 0, _, _ => .timeout
  | fuel + 1, stdin, s =>
    let buffer := cstr (fgets BUFFER_SIZE stdin).1
    let stdin := (fgets BUFFER_SIZE stdin).2
    match buffer.getLast? with
    | none => .ub
    | some last =>
      let line : Option (List Nat × List Nat) :=
        if last = 10 then some (buffer.dropLast, stdin)
        else (skip_line stdin).map fun rest => (buffer, rest)
      match line with
      | none => .timeout
      | some (command, stdin) =>
        if command = [101, 120, 105, 116] then .ok s
        else (handleCommand s command).bind fun s => initGUI handleCommand fuel stdin s

/-- `freeResources()`: freeing `global_data.BS` a second time is undefined
behaviour. -/
def freeResources (s : ProgramState) : Res Unit := if s.BS_freed then .ub else .ok ()

/-- `main(argc, argv)`: the exit code. `image` is the content of the file
`argv[1]` (`none` when it cannot be opened). -/
def main (p : Platform) (handleCommand : ProgramState → List Nat → Res ProgramState)
    (fuel : Nat) (argc : Nat) (image : Option (List Nat)) (stdin : List Nat) : Res Int :=
  if argc < 2 then .ok 1
  else
    (loadDiskImage p image).bind fun r =>
      (initGUI handleCommand fuel stdin r.2).bind fun s =>
        (freeResources s).bind fun _ => .ok 0

/-! ## An example volume

A FAT12 image with 128-byte sectors and one sector per cluster: fourteen nested
directories `A` (the directory of level `i` in cluster `i + 1`), each holding
the empty directory `B` (cluster 16) and the file `F.TXT`, and in the root the
files `HELLO.TXT` (200 bytes in clusters 17 and 18), `BAD.TXT` (cluster 19,
followed by the bad value), `SHORT.TXT` (200 bytes, but only cluster 20 in its
chain), `RO.TXT` (read-only) and `ONE.TXT` (first cluster 1, FAT entry 1 holding
the bad value). -/

/-- The character codes of a string. -/
def str (s : String) : List Nat := s.toList.map Char.toNat

/-- FAT12 packing of a list of 12-bit values, two values in three bytes. -/
def packFAT : List Nat → List Nat
  | a :: b :: rest => (a % 256) :: (a / 256 + 16 * (b % 16)) :: (b / 16) :: packFAT rest
  | [a] => [a % 256, a / 256, 0]
  | [] => []

/-- A buffer filled up with zero bytes to `n` bytes. -/
def padTo (n : Nat) (l : List Nat) : List Nat := l ++ List.replicate (n - l.length) 0

/-- The 32 bytes of a directory entry with the given 8.3 name, attribute byte,
first cluster and size. -/
def entryBytes (name ext : String) (attr first_cluster size : Nat) : List Nat :=
  (str name ++ List.replicate (8 - name.length) 32) ++
  (str ext ++ List.replicate (3 - ext.length) 32) ++
  [attr] ++ List.replicate 14 0 ++ [first_cluster % 256, first_cluster / 256] ++
  [size % 256, size / 256 % 256, size / 65536 % 256, size / 16777216]

/-- The cluster of the nested directory of level `i + 1`. -/
def demoDirCluster (i : Nat) : List Nat :=
  padTo 128
    ((if i + 1 < 14 then entryBytes "A" "" 0x10 (i + 3) 0 else []) ++
      entryBytes "B" "" 0x10 16 0 ++ entryBytes "F" "TXT" 0x20 17 200)

/-- The data region of the example volume: clusters 2 to 20. -/
def demoData : List Nat :=
  (List.range 14).flatMap demoDirCluster ++ padTo 128 [] ++
  (List.range 256).map (fun i => i % 251) ++
  List.replicate 128 66 ++ List.replicate 128 83

/-- The root directory of the example volume. -/
def demoRoot : List Nat :=
  padTo 256
    (entryBytes "A" "" 0x10 2 0 ++ entryBytes "HELLO" "TXT" 0x20 17 200 ++
      entryBytes "BAD" "TXT" 0x20 19 300 ++ entryBytes "SHORT" "TXT" 0x20 20 200 ++
      entryBytes "RO" "TXT" 0x01 17 200 ++ entryBytes "ONE" "TXT" 0x20 1 10)

/-- The example volume as `loadDiskImage` leaves it, in the root directory. -/
def demo : global_data_t :=
  { BS := { bytes_per_sector := 128, sectors_per_cluster := 1, FATs := 1,
            max_files_in_root := 8, number_of_sectors_2b := 23, size_of_FAT := 1,
            number_of_sectors_4b := 0 }
    FAT := padTo 128 (packFAT ([0xff8, 0xff7] ++ List.replicate 15 0xfff ++
      [18, 0xfff, 0xff7, 0xfff]))
    dataSection := demoData
    rootEntries := demoRoot
    directoryHistory := List.replicate 100 .null
    historyBackup := List.replicate 100 .null
    historyIndex := 0
    historyIndexBackup := 0 }

/-- The entry number `i` of the root directory of the example volume. -/
def demoEntry (i : Nat) : FileEntry := FileEntry.ofBytes ((demoRoot.drop (32 * i)).take 32)

/-- A 64-bit platform on which every allocation succeeds. -/
def lp64 : Platform := { sizeof_ptr := 8, sizeof_File_t := 32, calloc := fun _ => true }

/-- The command `cd a`, `n` times in a row. -/
def cd_a_times (p : Platform) (fuel : Nat) : Nat → global_data_t → Res global_data_t
  | 0, g => .ok g
  | n + 1, g => (handleCommand_cd p fuel g (some (str "a"))).bind fun r => cd_a_times p fuel n r.2

/-- The example volume after `cd a` has been run fourteen times from the root:
the working directory is `/a/a/a/a/a/a/a/a/a/a/a/a/a/a/`. -/
def demoDeep : global_data_t :=
  match cd_a_times lp64 3 14 demo with
  | .ok g => g
  | _ => demo

/-- The value a run returned, when it returned. -/
def Res.toOption {α : Type} : Res α → Option α
  | .ok a => some a
  | _ => none

/-- The first clusters of the directories on the working-directory stack (0 for
the root), `none` for a slot that holds no valid pointer. -/
def stack_clusters (g : global_data_t) : List (Option Nat) :=
  (stack g).map fun d =>
    match d with
    | .null => some 0
    | .entry e => some e.first_cluster_address_low
    | .torn _ _ => none

/-- The integer types of x86-64 Linux: 64-bit `size_t`, signed `char`. -/
def x86_64 : CTypes := { size_t_bits := 64, char_signed := true }

/-- The handle `fileOpen("hello.txt")` returns in the root of the example volume. -/
def helloHandle : File_t :=
  { _entry := .entry (demoEntry 1), _position := 0, _type := .file, _size := 200,
    _opened := true }

/-- The handle `directoryOpen("/")` returns. -/
def rootHandle : File_t :=
  { _entry := .null, _position := 0, _type := .directory, _size := 0, _opened := true }

/-- A volume with a cyclic directory link: the root holds the directory `A`
(cluster 2), and cluster 2 holds the directory `A` with first cluster 2 again. -/
def loopVol : global_data_t :=
  { BS := { bytes_per_sector := 128, sectors_per_cluster := 1, FATs := 1,
            max_files_in_root := 8, number_of_sectors_2b := 5, size_of_FAT := 1,
            number_of_sectors_4b := 0 }
    FAT := padTo 128 (packFAT [0xff8, 0xfff, 0xfff])
    dataSection := padTo 128 (entryBytes "A" "" 0x10 2 0)
    rootEntries := padTo 256 (entryBytes "A" "" 0x10 2 0)
    directoryHistory := List.replicate 100 .null
    historyBackup := List.replicate 100 .null
    historyIndex := 0
    historyIndexBackup := 0 }

/-- The path `a/a/.../a/` with `n` components. -/
def a_path (n : Nat) : List Nat := (List.replicate n (str "a/")).flatten

/-- The volume `loopVol` after the command `cd a/a/.../a/` with 99 components:
the working directory is 99 levels deep. -/
def loopDeep : global_data_t :=
  match handleCommand_cd lp64 3 loopVol (some (a_path 99)) with
  | .ok r => r.2
  | _ => loopVol

/-- The example volume with the first two bytes of `HELLO.TXT` (cluster 17, data
offset 1920) replaced by 0xFD and 0xFE. -/
def demoFD : global_data_t :=
  { demo with dataSection := demoData.take 1920 ++ [0xFD, 0xFE] ++ demoData.drop 1922 }

/-- The example volume with a FAT whose entry 2 holds the value 0x001. -/
def demoOne : global_data_t :=
  { demo with FAT := padTo 128 (packFAT [0xff8, 0xfff, 0x001]) }

/-- A handle as `goAndFetch` builds it for a regular file whose directory entry
gives `file_size` 3000000000. -/
def hugeHandle : File_t :=
  { _entry := .entry { demoEntry 1 with file_size := 3000000000 }, _position := 0,
    _type := .file, _size := 3000000000, _opened := true }

/-- The FAT entries the loop of `spaceinfo` reads, in the order it reads them. -/
def scanned_entries (g : global_data_t) : List Nat :=
  (List.range (FAT_entries g)).filterMap fun i => get_fat_entry g.FAT (i % 65536)

/-- The names `getFilename` gives the entries of a directory buffer that lie
before the first entry with status byte 0x00 and are not skippable. -/
def listed_names (p : Platform) (buf : List Nat) : List (Option (List Nat)) :=
  (((entriesOf buf).takeWhile fun e => !lastEntry e).filter fun e => !skippable e).map
    fun e => (getFilename p e).map cstr

/-- The contents of `HELLO.TXT` in the example volume, as `getContents` returns
them: the first 200 bytes of clusters 17 and 18 and the zero byte. -/
def helloContents : List Nat := ([17, 18].flatMap (cluster demo)).take 200 ++ [0]

/-! ## A volume with a file of 2^31 bytes

Sectors of 65504 bytes, 255 sectors per cluster (16703520 bytes), a data region
of 130 clusters and a root directory with the file `BIG.BIN` of 2^31 bytes in
the 129 clusters 2 to 130. -/

/-- The FAT: entry `i` holds `i + 1` for `i` from 2 to 129, entry 130 is terminal. -/
def bigFAT : List Nat := padTo 65504 (packFAT ([0xff8, 0xfff] ++ List.range' 3 128 ++ [0xfff]))

/-- The root directory: `BIG.BIN`, first cluster 2, 2^31 bytes. -/
def bigRoot : List Nat := padTo 512 (entryBytes "BIG" "BIN" 0x20 2 2147483648)

/-- The data region: 130 clusters of 16703520 bytes. -/
def bigData : List Nat := List.replicate 2171457600 0x41

/-- The volume with the file of 2^31 bytes. -/
def bigVol : global_data_t :=
  { BS := { bytes_per_sector := 65504, sectors_per_cluster := 255, FATs := 1,
            max_files_in_root := 16, number_of_sectors_2b := 0, size_of_FAT := 1,
            number_of_sectors_4b := 33152 }
    FAT := bigFAT
    dataSection := bigData
    rootEntries := bigRoot
    directoryHistory := List.replicate 100 .null
    historyBackup := List.replicate 100 .null
    historyIndex := 0
    historyIndexBackup := 0 }

/-- The directory entry of `BIG.BIN`. -/
def bigEntry : FileEntry := FileEntry.ofBytes (bigRoot.take 32)

/-- The handle `fileOpen("big.bin")` returns in the root of `bigVol`. -/
def bigHandle : File_t :=
  { _entry := .entry bigEntry, _position := 0, _type := .file, _size := 2147483648,
    _opened := true }

/-- A caller's buffer of 2^31 bytes. -/
def bigBuffer : List Nat := List.replicate 2147483648 0

/-! ## Further entries and volumes of the examples -/

/-- The entry number `i` of the nested directory of level `l + 1` of the example
volume. -/
def demoDirEntry (l i : Nat) : FileEntry :=
  FileEntry.ofBytes (((demoDirCluster l).drop (32 * i)).take 32)

/-- The example volume with one more entry in the root: the directory `R`
(first cluster 16) with the attribute byte 0x11, `DIRECTORY` and `READ_ONLY`. -/
def demoR : global_data_t :=
  { demo with rootEntries := padTo 256 (demoRoot.take 192 ++ entryBytes "R" "" 0x11 16 0) }

/-- The example volume with a full root directory: the eight entries of the root
array are all in use, none has the status byte 0x00. -/
def demoFull : global_data_t :=
  { demo with
    rootEntries := demoRoot.take 192 ++ entryBytes "G" "TXT" 0x20 17 200 ++
      entryBytes "H" "TXT" 0x20 17 200 }

/-- The example volume with the root directory holding `TINY.TXT` (100 bytes,
first cluster 19, whose FAT entry holds the bad value) and `EMPTY.TXT` (0 bytes,
first cluster 19). -/
def demoTiny : global_data_t :=
  { demo with
    rootEntries := padTo 256 (entryBytes "TINY" "TXT" 0x20 19 100 ++
      entryBytes "EMPTY" "TXT" 0x20 19 0) }

/-- The entry number `i` of the root directory of a volume. -/
def rootEntry (g : global_data_t) (i : Nat) : FileEntry :=
  FileEntry.ofBytes ((g.rootEntries.drop (32 * i)).take 32)

/-- A regular-file entry of 100 bytes with first cluster 17, whose chain goes on
to cluster 18 and the terminal value. -/
def partEntry : FileEntry := { demoEntry 1 with file_size := 100 }

/-- An open handle on a regular file of 2^31 - 1 bytes with the cursor at the end
(as `fileSeekEnd` leaves it). -/
def maxHandle : File_t :=
  { _entry := .entry { demoEntry 1 with file_size := 2147483647 }, _position := 2147483647,
    _type := .file, _size := 2147483647, _opened := true }

/-! ## The 8.3 layout, in the words of the specification -/

/-- `toupper` in the "C" locale. -/
def toupper (c : Nat) : Nat := if 97 ≤ c ∧ c ≤ 122 then c - 32 else c

/-- The name with base `base` and extension `ext` as one string: `base` alone
when the extension is empty, `base.ext` otherwise. -/
def spec_name (base ext : List Nat) : List Nat :=
  if ext = [] then base else base ++ [46] ++ ext

/-- The 8.3 encoding of a name, as the specification words it: the part before
the first dot is the base, the part after it the extension; both are
upper-cased and padded with spaces to 8 and 3 bytes. The other fields of the
entry are those of `e0`. -/
def spec_encode83 (e0 : FileEntry) (name : List Nat) : FileEntry :=
  let base := name.takeWhile (· != 46)
  let ext := (name.dropWhile (· != 46)).drop 1
  { e0 with
    filename := base.map toupper ++ List.replicate (8 - base.length) 32
    extension := ext.map toupper ++ List.replicate (3 - ext.length) 32 }

/-! ## Vocabulary for paths of directories -/

/-- The globals `g` with `dir` as the current directory. -/
def in_directory (g : global_data_t) (dir : DirPtr) : global_data_t :=
  { g with directoryHistory := [dir], historyIndex := 0 }

/-- The lookups of the code lead from the directory `dir` down through the
directories `es` by the names `ds`: with `dir` as the current directory
`findEntry` returns for the first name the first entry, which is a directory,
and so on from that directory. -/
def isDirPath (p : Platform) (g : global_data_t) (fuel : Nat) :
    DirPtr → List (List Nat) → List FileEntry → Bool
  | _, [], [] => true
  | dir, d :: ds, e :: es =>
    findEntry p (in_directory g dir) fuel (some d) == .ok (some e) && is_directory e &&
      isDirPath p g fuel (.entry e) ds es
  | _, _, _ => false

/-- The absolute path `/d1/d2/.../dk` of the names `d1`, ..., `dk`. -/
def spec_path (ds : List (List Nat)) : List Nat := ds.flatMap fun d => 47 :: d

/-- The commands `cd a1`, `cd a2`, ... run one after the other. -/
def cd_sequence (p : Platform) (fuel : Nat) : global_data_t → List (List Nat) → Res global_data_t
  | g, [] => .ok g
  | g, a :: as => (handleCommand_cd p fuel g (some a)).bind fun r => cd_sequence p fuel r.2 as

/-- The value of `final_chunk` after the loop of `goAndFetch` has gone through
the directory names `ds`, starting from the value `fc`. -/
def final_chunk_of : Option (List Nat) → List (List Nat) → Option (List Nat)
  | fc, [] => fc
  | _, d :: ds => final_chunk_of (some d) ds

/-- Two values of the globals hold the same volume: they differ at most in the
working-directory stack and its backup. -/
def sameVolume (g1 g2 : global_data_t) : Prop :=
  g1.BS = g2.BS ∧ g1.FAT = g2.FAT ∧ g1.dataSection = g2.dataSection ∧
    g1.rootEntries = g2.rootEntries


/-- The absolute path of the names `d1`, ..., `dk`: `/d1/d2/.../dk`, and `/`
when there is no name. -/
def abs_path (ds : List (List Nat)) : List Nat := if ds = [] then [47] else spec_path ds

/-! ## The directory lookup, in the words of the specification -/

/-- The skip rule of the specification: an entry is skipped when it is deleted
(status byte 0xE5), has the `HIDDEN` bit, or has the attribute byte
`LONG_FILENAME` (0x0F) exactly. -/
def spec_skippable (e : FileEntry) : Bool :=
  (e.allocation_status == DELETED) || (e.file_attributes &&& HIDDEN_FILE != 0) ||
    (e.file_attributes == LONG_FILENAME)

/-- The first entry, among those before the first entry with status byte 0x00,
that the rule `skip` does not skip and whose reconstructed filename equals
`name`. -/
def first_match (skip : FileEntry → Bool) (p : Platform) (name : List Nat)
    (entries : List FileEntry) : Option FileEntry :=
  (entries.takeWhile fun e => !lastEntry e).find? fun e =>
    !skip e && ((getFilename p e).map cstr == some (cstr name))

/-- The entry a lookup of `name` yields by the specification: the first entry,
among those before the first entry with status byte 0x00, that is not skippable
and whose reconstructed filename equals `name`. -/
def spec_findEntry (p : Platform) (name : List Nat) (entries : List FileEntry) :
    Option FileEntry :=
  first_match spec_skippable p name entries

/-! ## The copies along a chain -/

/-- The copies the loop of `getContents` takes from the clusters `cs` of the
chain of a regular file with `remaining` bytes left: from each cluster the
smaller of `cluster_size` and what is left. -/
def chain_file_reads (cluster_size : Nat) : List Nat → Nat → List (Nat × Nat)
  | [], _ => []
  | c :: cs, remaining =>
    (c, min remaining cluster_size) ::
      chain_file_reads cluster_size cs (remaining - min remaining cluster_size)

set_option maxRecDepth 100000

/-! ## Theorems -/

/-! ### Helper lemmas -/

theorem loaded_dataSection_lt {g : global_data_t} (h : loaded g) :
    g.dataSection.length + 32 ≤ 2 ^ 32 := by
  obtain ⟨_, _, h3⟩ := h
  rw [h3]
  unfold remaining_entries
  simp only
  omega

theorem isChain_nil {FAT : List Nat} {c t : Nat} :
    isChain FAT c [] t = true ↔ c = t := by
  simp [isChain]

theorem isChain_cons {FAT : List Nat} {c x t : Nat} {xs : List Nat} :
    isChain FAT c (x :: xs) t = true ↔
      x = c ∧ ∃ next, get_fat_entry FAT c = some next ∧ isChain FAT next xs t = true := by
  simp only [isChain, Bool.and_eq_true, beq_iff_eq]
  constructor
  · rintro ⟨h1, h2⟩
    refine ⟨h1, ?_⟩
    split at h2
    · exact ⟨_, by assumption, h2⟩
    · simp at h2
  · rintro ⟨h1, next, h2, h3⟩
    refine ⟨h1, ?_⟩
    rw [h2]
    exact h3

/-- Two walks from the same value that stop at the first value satisfying
`stop` visit the same clusters. -/
theorem isChain_unique {FAT : List Nat} (stop : Nat → Bool) :
    ∀ (l1 l2 : List Nat) (c t1 t2 : Nat),
      isChain FAT c l1 t1 = true → isChain FAT c l2 t2 = true →
      (∀ x ∈ l1, stop x = false) → (∀ x ∈ l2, stop x = false) →
      stop t1 = true → stop t2 = true → l1 = l2
  | [], [], _, _, _, _, _, _, _, _, _ => rfl
  | [], y :: ys, c, t1, t2, h1, h2, _, hs2, ht1, _ => by
    rw [isChain_nil] at h1
    obtain ⟨hy, _⟩ := isChain_cons.1 h2
    have := hs2 y (List.mem_cons_self _ _)
    subst h1; subst hy
    simp [ht1] at this
  | x :: xs, [], c, t1, t2, h1, h2, hs1, _, _, ht2 => by
    rw [isChain_nil] at h2
    obtain ⟨hx, _⟩ := isChain_cons.1 h1
    have := hs1 x (List.mem_cons_self _ _)
    subst h2; subst hx
    simp [ht2] at this
  | x :: xs, y :: ys, c, t1, t2, h1, h2, hs1, hs2, ht1, ht2 => by
    obtain ⟨hx, n1, hn1, hr1⟩ := isChain_cons.1 h1
    obtain ⟨hy, n2, hn2, hr2⟩ := isChain_cons.1 h2
    rw [hn1] at hn2
    cases hn2
    have := isChain_unique stop xs ys n1 t1 t2 hr1 hr2
      (fun z hz => hs1 z (List.mem_cons_of_mem _ hz))
      (fun z hz => hs2 z (List.mem_cons_of_mem _ hz)) ht1 ht2
    rw [hx, hy, this]

theorem isChain_suffix {FAT : List Nat} :
    ∀ (l1 l2 : List Nat) (c x t : Nat),
      isChain FAT c (l1 ++ x :: l2) t = true → isChain FAT x (x :: l2) t = true
  | [], l2, c, x, t, h => by
    obtain ⟨hx, _⟩ := isChain_cons.1 h
    rw [List.nil_append] at h
    rw [hx]; rw [hx] at h; exact h
  | y :: ys, l2, c, x, t, h => by
    rw [List.cons_append] at h
    obtain ⟨_, next, _, hr⟩ := isChain_cons.1 h
    exact isChain_suffix ys l2 next x t hr

/-- A walk that reaches a value satisfying `stop` visits no cluster twice. -/
theorem isChain_nodup {FAT : List Nat} (stop : Nat → Bool) :
    ∀ (l : List Nat) (c t : Nat), isChain FAT c l t = true →
      (∀ x ∈ l, stop x = false) → stop t = true → l.Nodup
  | [], _, _, _, _, _ => List.nodup_nil
  | x :: xs, c, t, h, hs, ht => by
    obtain ⟨hx, next, hn, hr⟩ := isChain_cons.1 h
    have hxs := isChain_nodup stop xs next t hr (fun z hz => hs z (List.mem_cons_of_mem _ hz)) ht
    refine List.nodup_cons.2 ⟨?_, hxs⟩
    intro hmem
    obtain ⟨l1, l2, hsplit⟩ := List.append_of_mem hmem
    have hsuf : isChain FAT x (x :: l2) t = true := by
      rw [hsplit] at hr
      exact isChain_suffix l1 l2 next x t hr
    have hfull : isChain FAT x (x :: xs) t = true := by rw [hx]; rw [hx] at h; exact h
    have heq := isChain_unique stop (x :: l2) (x :: xs) x t t hsuf hfull
      (fun z hz => hs z (by
        rcases List.mem_cons.1 hz with hz | hz
        · rw [hz]; exact List.mem_cons_self _ _
        · rw [hsplit]; exact List.mem_cons_of_mem _ (List.mem_append_right _ (List.mem_cons_of_mem _ hz))))
      hs ht ht
    have hlen := congrArg List.length heq
    rw [hsplit] at hlen
    simp at hlen
    omega

/-- A list of distinct numbers below `K` has at most `K` elements. -/
theorem nodup_length_le (l : List Nat) (K : Nat) (hn : l.Nodup) (hb : ∀ x ∈ l, x < K) :
    l.length ≤ K := by
  have hsub : l ⊆ List.range K := fun x hx => List.mem_range.2 (hb x hx)
  have := (List.Nodup.subperm hn hsub).length_le
  simpa using this



/-- Distinct clusters inside the data region occupy pairwise disjoint ranges of
it, so together they are no longer than the data region. -/
theorem capacity_le (g : global_data_t) (l : List Nat) (hn : l.Nodup)
    (hin : ∀ c ∈ l, inData g c) : l.length * cluster_size g ≤ g.dataSection.length := by
  rcases Nat.eq_zero_or_pos (cluster_size g) with h0 | hpos
  · rw [h0]; simp
  · have hmap : (l.map (fun c => c - 2)).Nodup := by
      refine (List.nodup_map_iff_inj_on hn).2 ?_
      intro x hx y hy hxy
      have h1 := (hin x hx).1
      have h2 := (hin y hy).1
      omega
    have hb : ∀ x ∈ l.map (fun c => c - 2), x < g.dataSection.length / cluster_size g := by
      intro x hx
      obtain ⟨c, hc, rfl⟩ := List.mem_map.1 hx
      have h2 := (hin c hc).2
      have : (c - 2) * cluster_size g + cluster_size g = (c - 2 + 1) * cluster_size g := by ring
      rw [this] at h2
      exact Nat.lt_of_succ_le ((Nat.le_div_iff_mul_le hpos).2 h2)
    have hlen := nodup_length_le _ _ hmap hb
    rw [List.length_map] at hlen
    calc l.length * cluster_size g
        ≤ (g.dataSection.length / cluster_size g) * cluster_size g :=
          Nat.mul_le_mul_right _ hlen
      _ ≤ g.dataSection.length := Nat.div_mul_le_self _ _

theorem not_last_lt {c : Nat} (h : last_entry c = false) : c < 0xff8 := by
  simpa [last_entry] using h

/-- The `uint32_t` offset the loop computes for a cluster inside the data region
is its mathematical offset. -/
theorem offset_eq (g : global_data_t) (c : Nat) (hD : g.dataSection.length < 2 ^ 32)
    (hc : c < 0xff8) (hin : inData g c) :
    ((c + 2 ^ 32 - 2) % 2 ^ 32 * cluster_size g) % 2 ^ 32 = (c - 2) * cluster_size g := by
  obtain ⟨h2, hle⟩ := hin
  have e1 : (c + 2 ^ 32 - 2) % 2 ^ 32 = c - 2 := by omega
  rw [e1]
  apply Nat.mod_eq_of_lt
  omega

theorem memcpy_append (acc rest src : List Nat) (off n : Nat)
    (hs : off + n ≤ src.length) (hd : n ≤ rest.length) :
    memcpy (acc ++ rest) acc.length src off n =
      some (acc ++ (src.drop off).take n ++ rest.drop n) := by
  unfold memcpy
  by_cases hn : n = 0
  · subst hn; simp
  · rw [if_neg hn, if_pos ⟨hs, by simp; omega⟩]
    simp [List.take_append_eq_append_take, List.drop_append_eq_append_drop]

theorem count_segment (FAT : List Nat) :
    ∀ (cs : List Nat) (c t counter f : Nat), isChain FAT c cs t = true →
      (∀ x ∈ cs, last_entry x = false ∧ bad_entry x = false) →
      counter + cs.length < 2 ^ 32 →
      countFATentries_loop FAT (cs.length + f) c counter =
        countFATentries_loop FAT f t (counter + cs.length)
  | [], c, t, counter, f, h, _, _ => by
    rw [isChain_nil] at h
    subst h; simp
  | x :: xs, c, t, counter, f, h, hs, hb => by
    obtain ⟨hx, next, hn, hr⟩ := isChain_cons.1 h
    subst hx
    obtain ⟨h1, h2⟩ := hs x (List.mem_cons_self _ _)
    have hlen : (x :: xs).length + f = (xs.length + f) + 1 := by simp; omega
    rw [hlen, countFATentries_loop]
    simp only [h1, h2, Bool.or_self, Bool.false_eq_true, if_false, hn]
    simp only [List.length_cons] at hb
    have e : (counter + 1) % 2 ^ 32 = counter + 1 := Nat.mod_eq_of_lt (by omega)
    rw [e, count_segment FAT xs next t (counter + 1) f hr
      (fun z hz => hs z (List.mem_cons_of_mem _ hz)) (by omega)]
    congr 1
    simp; omega

/-- The number of bytes one iteration of the loop of `getContents` copies. -/
theorem loop_step (g : global_data_t) (isDirectory : Bool) (fuel v rem dr : Nat)
    (contents contents1 : List Nat) (next : Nat)
    (hb : bad_entry v = false) (hl : last_entry v = false)
    (hn : get_fat_entry g.FAT v = some next)
    (hm : memcpy contents dr g.dataSection
        (((v + 2 ^ 32 - 2) % 2 ^ 32 * cluster_size g) % 2 ^ 32)
        (if isDirectory then cluster_size g
         else if rem > cluster_size g then cluster_size g else rem) = some contents1) :
    getContents_loop g isDirectory (fuel + 1) v rem dr contents =
      getContents_loop g isDirectory fuel next
        ((rem + 2 ^ 32 -
          (if isDirectory then cluster_size g
           else if rem > cluster_size g then cluster_size g else rem)) % 2 ^ 32)
        ((dr +
          (if isDirectory then cluster_size g
           else if rem > cluster_size g then cluster_size g else rem)) % 2 ^ 32)
        contents1 := by
  rw [getContents_loop]
  simp only [hb, hl, Bool.and_false, Bool.false_eq_true, if_false, hm, hn]

theorem cluster_length (g : global_data_t) (c : Nat) (h : inData g c) :
    (cluster g c).length = cluster_size g := by
  unfold cluster
  rw [List.length_take, List.length_drop]
  have := h.2
  omega

/-- The loop of `getContents` on a regular file, along a chain segment. -/
theorem loop_file_segment (g : global_data_t) (hD : g.dataSection.length < 2 ^ 32) :
    ∀ (cs : List Nat) (c t rem f : Nat) (acc : List Nat),
      isChain g.FAT c cs t = true →
      (∀ x ∈ cs, last_entry x = false ∧ bad_entry x = false ∧ inData g x) →
      acc.length + rem < 2 ^ 32 →
      getContents_loop g false (cs.length + f) c rem acc.length
          (acc ++ List.replicate (rem + 1) 0) =
        getContents_loop g false f t (rem - cs.length * cluster_size g)
          (acc ++ (cs.flatMap (cluster g)).take rem).length
          (acc ++ (cs.flatMap (cluster g)).take rem ++
            List.replicate (rem - cs.length * cluster_size g + 1) 0)
  | [], c, t, rem, f, acc, h, _, _ => by
    rw [isChain_nil] at h
    subst h; simp
  | x :: xs, c, t, rem, f, acc, h, hs, hb => by
    obtain ⟨hx, next, hn, hr⟩ := isChain_cons.1 h
    subst hx
    obtain ⟨h1, h2, h3⟩ := hs x (List.mem_cons_self _ _)
    have hlen : (x :: xs).length + f = (xs.length + f) + 1 := by simp; omega
    have hoff := offset_eq g x hD (not_last_lt h1) h3
    have hcl := cluster_length g x h3
    obtain ⟨_, hle⟩ := h3
    have htr : (if false = true then cluster_size g
        else if rem > cluster_size g then cluster_size g else rem) = min rem (cluster_size g) := by
      simp only [Bool.false_eq_true, if_false]
      split <;> omega
    have hm : memcpy (acc ++ List.replicate (rem + 1) 0) acc.length g.dataSection
        (((x + 2 ^ 32 - 2) % 2 ^ 32 * cluster_size g) % 2 ^ 32)
        (if false = true then cluster_size g
         else if rem > cluster_size g then cluster_size g else rem) =
        some ((acc ++ (cluster g x).take rem) ++
          List.replicate (rem - min rem (cluster_size g) + 1) 0) := by
      rw [hoff, htr, memcpy_append _ _ _ _ _ (by omega) (by simp)]
      simp only [cluster, List.take_take, List.drop_replicate, Option.some.injEq]
      congr 2
      omega
    rw [hlen, loop_step g false _ x rem acc.length _ _ next h2 h1 hn hm, htr]
    have e1 : (rem + 2 ^ 32 - min rem (cluster_size g)) % 2 ^ 32 = rem - min rem (cluster_size g) := by
      omega
    have e2 : (acc.length + min rem (cluster_size g)) % 2 ^ 32 =
        (acc ++ (cluster g x).take rem).length := by
      rw [List.length_append, List.length_take, hcl]
      omega
    rw [e1, e2]
    have hacc : (acc ++ (cluster g x).take rem).length + (rem - min rem (cluster_size g)) < 2 ^ 32 := by
      rw [List.length_append, List.length_take, hcl]
      omega
    rw [loop_file_segment g hD xs next t (rem - min rem (cluster_size g)) f
      (acc ++ (cluster g x).take rem) hr (fun z hz => hs z (List.mem_cons_of_mem _ hz)) hacc]
    have hlist : acc ++ (cluster g x).take rem ++
        (xs.flatMap (cluster g)).take (rem - min rem (cluster_size g)) =
        acc ++ ((x :: xs).flatMap (cluster g)).take rem := by
      rw [List.flatMap_cons, List.take_append_eq_append_take, hcl, List.append_assoc]
      congr 3
      omega
    have hrem : rem - min rem (cluster_size g) - xs.length * cluster_size g =
        rem - (x :: xs).length * cluster_size g := by
      simp only [List.length_cons, Nat.add_mul, Nat.one_mul]
      omega
    rw [hlist, hrem]

/-- The loop of `getContents` on a directory, along a chain segment. -/
theorem loop_dir_segment (g : global_data_t) (hD : g.dataSection.length < 2 ^ 32) :
    ∀ (cs : List Nat) (c t rem f : Nat) (acc : List Nat),
      isChain g.FAT c cs t = true →
      (∀ x ∈ cs, last_entry x = false ∧ bad_entry x = false ∧ inData g x) →
      acc.length + cs.length * cluster_size g < 2 ^ 32 →
      ∃ rem1, getContents_loop g true (cs.length + f) c rem acc.length
          (acc ++ List.replicate (cs.length * cluster_size g) 0) =
        getContents_loop g true f t rem1 (acc ++ cs.flatMap (cluster g)).length
          (acc ++ cs.flatMap (cluster g))
  | [], c, t, rem, f, acc, h, _, _ => by
    rw [isChain_nil] at h
    subst h
    exact ⟨rem, by simp⟩
  | x :: xs, c, t, rem, f, acc, h, hs, hb => by
    obtain ⟨hx, next, hn, hr⟩ := isChain_cons.1 h
    subst hx
    obtain ⟨h1, h2, h3⟩ := hs x (List.mem_cons_self _ _)
    have hlen : (x :: xs).length + f = (xs.length + f) + 1 := by simp; omega
    have hoff := offset_eq g x hD (not_last_lt h1) h3
    have hcl := cluster_length g x h3
    obtain ⟨_, hle⟩ := h3
    have hmul : (x :: xs).length * cluster_size g = cluster_size g + xs.length * cluster_size g := by
      simp only [List.length_cons, Nat.add_mul, Nat.one_mul]
      omega
    rw [hmul] at hb
    have hm : memcpy (acc ++ List.replicate ((x :: xs).length * cluster_size g) 0) acc.length
        g.dataSection (((x + 2 ^ 32 - 2) % 2 ^ 32 * cluster_size g) % 2 ^ 32)
        (if true = true then cluster_size g
         else if rem > cluster_size g then cluster_size g else rem) =
        some ((acc ++ cluster g x) ++ List.replicate (xs.length * cluster_size g) 0) := by
      rw [hmul, hoff, if_pos rfl, memcpy_append _ _ _ _ _ (by omega) (by simp)]
      simp only [cluster, List.drop_replicate, Option.some.injEq]
      congr 2
      omega
    rw [hlen, loop_step g true _ x rem acc.length _ _ next h2 h1 hn hm, if_pos rfl]
    have e2 : (acc.length + cluster_size g) % 2 ^ 32 = (acc ++ cluster g x).length := by
      rw [List.length_append, hcl]
      omega
    rw [e2]
    have hacc : (acc ++ cluster g x).length + xs.length * cluster_size g < 2 ^ 32 := by
      rw [List.length_append, hcl]
      omega
    obtain ⟨rem1, hrec⟩ := loop_dir_segment g hD xs next t
      ((rem + 2 ^ 32 - cluster_size g) % 2 ^ 32) f (acc ++ cluster g x) hr
      (fun z hz => hs z (List.mem_cons_of_mem _ hz)) hacc
    refine ⟨rem1, ?_⟩
    rw [hrec, List.flatMap_cons, List.append_assoc]

theorem loop_bad (g : global_data_t) (isDirectory : Bool) (f rem dr : Nat)
    (contents : List Nat) :
    getContents_loop g isDirectory (f + 1) 0xff7 rem dr contents = .ok none := by
  rw [getContents_loop]
  simp [bad_entry]

theorem loop_dir_last (g : global_data_t) (f t rem dr : Nat) (contents : List Nat)
    (ht : last_entry t = true) :
    getContents_loop g true (f + 1) t rem dr contents = .ok (some contents) := by
  have hb : bad_entry t = false := by
    simp only [last_entry, decide_eq_true_eq] at ht
    simp only [bad_entry, decide_eq_false_iff_not]
    omega
  rw [getContents_loop]
  simp [hb, ht]

theorem loop_file_last_zero (g : global_data_t) (f t dr : Nat) (contents : List Nat)
    (ht : last_entry t = true) :
    getContents_loop g false (f + 1) t 0 dr contents = .ok (some contents) := by
  have hb : bad_entry t = false := by
    simp only [last_entry, decide_eq_true_eq] at ht
    simp only [bad_entry, decide_eq_false_iff_not]
    omega
  rw [getContents_loop]
  simp [hb, ht, memcpy]

theorem flatMap_cluster_length (g : global_data_t) (cs : List Nat)
    (h : ∀ c ∈ cs, inData g c) :
    (cs.flatMap (cluster g)).length = cs.length * cluster_size g := by
  induction cs with
  | nil => simp
  | cons x xs ih =>
    rw [List.flatMap_cons, List.length_append, cluster_length g x (h x (List.mem_cons_self _ _)),
      ih (fun c hc => h c (List.mem_cons_of_mem _ hc))]
    simp only [List.length_cons, Nat.add_mul, Nat.one_mul]
    omega

/-- C1: if the bytes at offsets 3k, 3k+1, 3k+2 of the FAT are the FAT12 packing
of the 12-bit values a and b, then `get_fat_entry` returns a at index 2k and b
at index 2k+1 (whatever the other bytes of the FAT are), and every value
`get_fat_entry` returns is below 0x1000. -/
theorem get_fat_entry_packed (FAT : List Nat) (a b k : Nat)
    (ha : a < 0x1000) (hb : b < 0x1000)
    (h0 : FAT[3 * k]? = some (a % 256))
    (h1 : FAT[3 * k + 1]? = some (a / 256 + 16 * (b % 16)))
    (h2 : FAT[3 * k + 2]? = some (b / 16)) :
    get_fat_entry FAT (2 * k) = some a ∧ get_fat_entry FAT (2 * k + 1) = some b ∧
    (∀ (FAT2 : List Nat) (index v : Nat), get_fat_entry FAT2 index = some v → v < 0x1000) := by
  have e1 : 2 * k + 2 * k / 2 = 3 * k := by omega
  have e2 : 2 * k + 1 + (2 * k + 1) / 2 = 3 * k + 1 := by omega
  have hand : ∀ x : Nat, x &&& 0xfff = x % 4096 := fun x =>
    Nat.and_pow_two_sub_one_eq_mod x 12
  refine ⟨?_, ?_, ?_⟩
  · unfold get_fat_entry
    simp only [e1, h0, h1]
    have hm : (2 * k) &&& 1 = 0 := by rw [Nat.and_one_is_mod]; omega
    simp only [hm, hand]
    simp
    omega
  · unfold get_fat_entry
    simp only [e2, h1, h2]
    have hm : (2 * k + 1) &&& 1 = 1 := by rw [Nat.and_one_is_mod]; omega
    simp only [hm, Nat.shiftRight_eq_div_pow]
    simp
    omega
  · intro FAT2 index v hv
    simp only [get_fat_entry] at hv
    split at hv
    · split at hv
      · simp only [Nat.shiftRight_eq_div_pow, Option.some.injEq] at hv
        omega
      · simp only [hand, Option.some.injEq] at hv
        omega
    · simp at hv

/-- Witness of C1: the packing of (0xABC, 0x123) at k = 1. -/
theorem get_fat_entry_packed_witness :
    get_fat_entry [0xF0, 0xFF, 0xFF, 0xBC, 0x3A, 0x12] 2 = some 0xABC ∧
    get_fat_entry [0xF0, 0xFF, 0xFF, 0xBC, 0x3A, 0x12] 3 = some 0x123 :=
  ⟨(get_fat_entry_packed [0xF0, 0xFF, 0xFF, 0xBC, 0x3A, 0x12] 0xABC 0x123 1
      (by decide) (by decide) (by decide) (by decide) (by decide)).1,
   (get_fat_entry_packed [0xF0, 0xFF, 0xFF, 0xBC, 0x3A, 0x12] 0xABC 0x123 1
      (by decide) (by decide) (by decide) (by decide) (by decide)).2.1⟩

/-- C2: for a regular-file entry whose FAT chain is `cs` followed by a terminal
value, with every cluster of `cs` a used value inside the data region and
`file_size` at most `cs.length * cluster_size`, `getContents` returns (for every
fuel above `cs.length`, when `calloc` succeeds) the buffer made of the first
`file_size` bytes of the concatenated clusters of `cs` followed by one zero byte. -/
theorem getContents_file_contents (p : Platform) (g : global_data_t) (e : FileEntry)
    (cs : List Nat) (t fuel : Nat)
    (hload : loaded g)
    (hfile : is_directory e = false)
    (hchain : isChain g.FAT e.first_cluster_address_low cs t = true)
    (hused : ∀ c ∈ cs, used_entry c = true ∧ inData g c)
    (ht : last_entry t = true)
    (hsize : e.file_size ≤ cs.length * cluster_size g)
    (halloc : p.calloc (e.file_size + 1) = true)
    (hfuel : cs.length < fuel) :
    getContents p g fuel (.entry e) =
        .ok (some ((cs.flatMap (cluster g)).take e.file_size ++ [0])) ∧
      ((cs.flatMap (cluster g)).take e.file_size).length = e.file_size := by
  have hD := loaded_dataSection_lt hload
  have hnl : ∀ c ∈ cs, last_entry c = false ∧ bad_entry c = false ∧ inData g c := by
    intro c hc
    obtain ⟨hu, hi⟩ := hused c hc
    simp only [used_entry, decide_eq_true_eq] at hu
    refine ⟨?_, ?_, hi⟩
    · simp only [last_entry, decide_eq_false_iff_not]; omega
    · simp only [bad_entry, decide_eq_false_iff_not]; omega
  have hnd : cs.Nodup :=
    isChain_nodup last_entry cs _ t hchain (fun c hc => (hnl c hc).1) ht
  have hcap := capacity_le g cs hnd (fun c hc => (hused c hc).2)
  have hlen := flatMap_cluster_length g cs (fun c hc => (hused c hc).2)
  have hsz : (e.file_size + 1) % 2 ^ 32 = e.file_size + 1 := Nat.mod_eq_of_lt (by omega)
  obtain ⟨f, rfl⟩ : ∃ f, fuel = cs.length + (f + 1) := ⟨fuel - cs.length - 1, by omega⟩
  refine ⟨?_, ?_⟩
  · simp only [getContents, hfile, Bool.false_eq_true, if_false, Res.bind, hsz, halloc]
    have hseg := loop_file_segment g (by omega) cs e.first_cluster_address_low t e.file_size
      (f + 1) [] hchain hnl (by simp; omega)
    simp only [List.nil_append, List.length_nil] at hseg
    rw [hseg]
    have h0 : e.file_size - cs.length * cluster_size g = 0 := by omega
    rw [h0, loop_file_last_zero g f t _ _ ht]
    simp
  · rw [List.length_take, hlen]
    omega

/-- Witness of C2: `HELLO.TXT` of the example volume, 200 bytes in clusters 17
and 18. -/
theorem getContents_file_contents_witness :
    getContents lp64 demo 3 (.entry (demoEntry 1)) =
        .ok (some (([17, 18].flatMap (cluster demo)).take (demoEntry 1).file_size ++ [0])) ∧
      (([17, 18].flatMap (cluster demo)).take (demoEntry 1).file_size).length =
        (demoEntry 1).file_size :=
  getContents_file_contents lp64 demo (demoEntry 1) [17, 18] 0xfff 3
    (by decide!) (by decide!) (by decide!) (by decide!) (by decide!) (by decide!) (by decide!)
    (by decide!)

/-- C3: for a directory entry whose FAT chain is `cs` followed by a terminal
value, with no bad value in `cs` and every cluster of `cs` inside the data
region, `countFATentries` returns `cs.length` and `getContents` returns (for
every fuel above `cs.length`, when `calloc` succeeds) exactly the concatenation
of the full clusters of `cs` in chain order, `cs.length * cluster_size` bytes. -/
theorem getContents_directory_contents (p : Platform) (g : global_data_t) (e : FileEntry)
    (cs : List Nat) (t fuel : Nat)
    (hload : loaded g)
    (hdir : is_directory e = true)
    (hchain : isChain g.FAT e.first_cluster_address_low cs t = true)
    (hcs : ∀ c ∈ cs, last_entry c = false ∧ bad_entry c = false ∧ inData g c)
    (ht : last_entry t = true)
    (halloc : p.calloc (cs.length * cluster_size g) = true)
    (hfuel : cs.length < fuel) :
    countFATentries g fuel e = .ok cs.length ∧
      getContents p g fuel (.entry e) = .ok (some (cs.flatMap (cluster g))) ∧
      (cs.flatMap (cluster g)).length = cs.length * cluster_size g := by
  have hD := loaded_dataSection_lt hload
  have hnd : cs.Nodup :=
    isChain_nodup last_entry cs _ t hchain (fun c hc => (hcs c hc).1) ht
  have hcap := capacity_le g cs hnd (fun c hc => (hcs c hc).2.2)
  have hlen := flatMap_cluster_length g cs (fun c hc => (hcs c hc).2.2)
  have hn : cs.length ≤ 0xff8 :=
    nodup_length_le cs _ hnd (fun c hc => not_last_lt (hcs c hc).1)
  obtain ⟨f, rfl⟩ : ∃ f, fuel = cs.length + (f + 1) := ⟨fuel - cs.length - 1, by omega⟩
  have hcount : countFATentries g (cs.length + (f + 1)) e = .ok cs.length := by
    unfold countFATentries
    rw [count_segment g.FAT cs _ t 0 (f + 1) hchain (fun c hc => ⟨(hcs c hc).1, (hcs c hc).2.1⟩)
      (by omega), countFATentries_loop]
    simp [ht]
  refine ⟨hcount, ?_, hlen⟩
  have hsz : (cs.length * cluster_size g) % 2 ^ 32 = cs.length * cluster_size g :=
    Nat.mod_eq_of_lt (by omega)
  simp only [getContents, hdir, if_true, hcount, Res.bind, hsz, halloc, Bool.true_eq_false,
    if_false]
  obtain ⟨rem1, hseg⟩ := loop_dir_segment g (by omega) cs e.first_cluster_address_low t
    e.file_size (f + 1) [] hchain hcs (by simp; omega)
  simp only [List.nil_append, List.length_nil] at hseg
  rw [hseg, loop_dir_last g f t _ _ _ ht]

/-- Witness of C3: the directory `A` of the example volume, in cluster 2. -/
theorem getContents_directory_contents_witness :
    countFATentries demo 2 (demoEntry 0) = .ok [2].length ∧
      getContents lp64 demo 2 (.entry (demoEntry 0)) = .ok (some ([2].flatMap (cluster demo))) ∧
      ([2].flatMap (cluster demo)).length = [2].length * cluster_size demo :=
  getContents_directory_contents lp64 demo (demoEntry 0) [2] 0xfff 2
    (by decide!) (by decide!) (by decide!) (by decide!) (by decide!) (by decide!) (by decide!)

/-- C4, as stated, fails: the chain of `ONE.TXT` in the example volume goes from
its first cluster 1 (neither bad nor terminal) to the bad value 0xFF7, and
`getContents` does not return `NULL`: the copy for cluster 1 reads 10 bytes at
data offset `(1 - 2) * 128` taken modulo 2^32, outside the data region. -/
theorem getContents_bad_chain_outside_data :
    isChain demo.FAT (demoEntry 5).first_cluster_address_low [1] 0xff7 = true ∧
      last_entry 1 = false ∧ bad_entry 1 = false ∧
      getContents lp64 demo 5 (.entry (demoEntry 5)) = .ub := by
  decide!

/-- C4, amended: for an entry (file or directory) whose FAT chain is `cs`
followed by the bad value 0xFF7, with no terminal value in `cs`, every cluster
of `cs` inside the data region and, for a regular file, `file_size + 1`
representable in 32 bits, `getContents` returns `NULL` for every fuel above
`cs.length`. -/
theorem getContents_bad_chain (p : Platform) (g : global_data_t) (e : FileEntry)
    (cs : List Nat) (fuel : Nat)
    (hload : loaded g)
    (hchain : isChain g.FAT e.first_cluster_address_low cs 0xff7 = true)
    (hcs : ∀ c ∈ cs, last_entry c = false ∧ bad_entry c = false ∧ inData g c)
    (hsize : is_directory e = false → e.file_size + 1 < 2 ^ 32)
    (hfuel : cs.length < fuel) :
    getContents p g fuel (.entry e) = .ok none := by
  have hD := loaded_dataSection_lt hload
  have hnd : cs.Nodup :=
    isChain_nodup (fun c => last_entry c || bad_entry c) cs _ 0xff7 hchain
      (fun c hc => by simp [(hcs c hc).1, (hcs c hc).2.1]) (by decide)
  have hcap := capacity_le g cs hnd (fun c hc => (hcs c hc).2.2)
  have hn : cs.length ≤ 0xff8 :=
    nodup_length_le cs _ hnd (fun c hc => not_last_lt (hcs c hc).1)
  obtain ⟨f, rfl⟩ : ∃ f, fuel = cs.length + (f + 1) := ⟨fuel - cs.length - 1, by omega⟩
  cases hdir : is_directory e with
  | true =>
    have hcount : countFATentries g (cs.length + (f + 1)) e = .ok cs.length := by
      unfold countFATentries
      rw [count_segment g.FAT cs _ 0xff7 0 (f + 1) hchain
        (fun c hc => ⟨(hcs c hc).1, (hcs c hc).2.1⟩) (by omega), countFATentries_loop]
      simp [bad_entry]
    have hsz : (cs.length * cluster_size g) % 2 ^ 32 = cs.length * cluster_size g :=
      Nat.mod_eq_of_lt (by omega)
    simp only [getContents, hdir, if_true, hcount, Res.bind, hsz]
    split
    · rfl
    · obtain ⟨rem1, hseg⟩ := loop_dir_segment g (by omega) cs e.first_cluster_address_low 0xff7
        e.file_size (f + 1) [] hchain hcs (by simp; omega)
      simp only [List.nil_append, List.length_nil] at hseg
      rw [hseg, loop_bad]
  | false =>
    have hlt := hsize hdir
    have hsz : (e.file_size + 1) % 2 ^ 32 = e.file_size + 1 := Nat.mod_eq_of_lt hlt
    simp only [getContents, hdir, Bool.false_eq_true, if_false, Res.bind, hsz]
    split
    · rfl
    · have hseg := loop_file_segment g (by omega) cs e.first_cluster_address_low 0xff7
        e.file_size (f + 1) [] hchain hcs (by simp; omega)
      simp only [List.nil_append, List.length_nil] at hseg
      rw [hseg, loop_bad]

/-- Witness of C4: `BAD.TXT` of the example volume, cluster 19 followed by the
bad value. -/
theorem getContents_bad_chain_witness :
    getContents lp64 demo 2 (.entry (demoEntry 2)) = .ok none :=
  getContents_bad_chain lp64 demo (demoEntry 2) [19] 2
    (by decide!) (by decide!) (by decide!) (by decide!) (by decide!)

/-- C5 fails on the code: `SHORT.TXT` of the example volume has 200 bytes and a
chain of the single cluster 20 (128 bytes) followed by the terminal value
0xFFF. After cluster 20 the loop goes on to copy the 72 bytes left from data
offset `(0xFFF - 2) * 128`, which is no cluster of the chain (and here lies
outside the data region), instead of stopping with 128 bytes copied. -/
theorem getContents_short_chain :
    is_directory (demoEntry 3) = false ∧ (demoEntry 3).file_size = 200 ∧
      isChain demo.FAT (demoEntry 3).first_cluster_address_low [20] 0xfff = true ∧
      used_entry 20 = true ∧ inData demo 20 ∧ cluster_size demo = 128 ∧
      ¬ inData demo 0xfff ∧
      getContents lp64 demo 5 (.entry (demoEntry 3)) = .ub := by
  decide!

/-- C6 fails on the code: `skippable` tests `file_attributes & LONG_FILENAME`,
so an allocated entry whose only attribute is READ_ONLY (`RO.TXT` of the example
volume), SYSTEM or VOLUME_LABEL is skippable. -/
theorem skippable_read_only :
    (demoEntry 4).allocation_status = 0x52 ∧ (demoEntry 4).file_attributes = FILE_READ_ONLY ∧
      skippable (demoEntry 4) = true ∧
      skippable { demoEntry 4 with file_attributes := SYSTEM_FILE } = true ∧
      skippable { demoEntry 4 with file_attributes := VOLUME_LABEL } = true := by
  decide!

theorem takeWhile_append_replicate (q : Nat → Bool) (l : List Nat) (k x : Nat)
    (hl : ∀ c ∈ l, q c = true) (hx : q x = false) :
    (l ++ List.replicate k x).takeWhile q = l := by
  induction l with
  | nil =>
    cases k with
    | zero => rfl
    | succ k => simp [List.replicate_succ, hx]
  | cons a as ih =>
    have ha := hl a (List.mem_cons_self _ _)
    rw [List.cons_append, List.takeWhile_cons, ha, if_pos rfl,
      ih (fun c hc => hl c (List.mem_cons_of_mem _ hc))]

theorem map_tolower_toupper (l : List Nat) (h : ∀ c ∈ l, ¬(65 ≤ c ∧ c ≤ 90)) :
    (l.map toupper).map tolower = l := by
  induction l with
  | nil => rfl
  | cons a as ih =>
    have ha := h a (List.mem_cons_self _ _)
    rw [List.map_cons, List.map_cons, ih (fun c hc => h c (List.mem_cons_of_mem _ hc))]
    congr 1
    simp only [tolower, toupper]
    split_ifs <;> omega

theorem toupper_ne_space {c : Nat} (h : c ≠ 32) : (toupper c != 32) = true := by
  unfold toupper
  split <;> simp <;> omega

theorem takeWhile_append_of_all (q : Nat → Bool) (l r : List Nat)
    (hl : ∀ c ∈ l, q c = true) : (l ++ r).takeWhile q = l ++ r.takeWhile q := by
  induction l with
  | nil => rfl
  | cons a as ih =>
    have ha := hl a (List.mem_cons_self _ _)
    rw [List.cons_append, List.takeWhile_cons, ha, if_pos rfl,
      ih (fun c hc => hl c (List.mem_cons_of_mem _ hc))]
    rfl

theorem dropWhile_append_of_all (q : Nat → Bool) (l r : List Nat)
    (hl : ∀ c ∈ l, q c = true) : (l ++ r).dropWhile q = r.dropWhile q := by
  induction l with
  | nil => rfl
  | cons a as ih =>
    have ha := hl a (List.mem_cons_self _ _)
    rw [List.cons_append, List.dropWhile_cons, ha, if_pos rfl,
      ih (fun c hc => hl c (List.mem_cons_of_mem _ hc))]

/-- The base and the extension of `spec_name base ext` are `base` and `ext`. -/
theorem spec_name_split (base ext : List Nat) (hb : ∀ c ∈ base, c ≠ 46) :
    (spec_name base ext).takeWhile (· != 46) = base ∧
      ((spec_name base ext).dropWhile (· != 46)).drop 1 = ext := by
  have hq : ∀ c ∈ base, (c != 46) = true := fun c hc => by simpa using hb c hc
  have h1 := takeWhile_append_of_all (· != 46) base
  have h2 := dropWhile_append_of_all (· != 46) base
  unfold spec_name
  by_cases he : ext = []
  · rw [if_pos he, he]
    have e1 := h1 [] hq
    have e2 := h2 [] hq
    rw [List.append_nil] at e1 e2
    rw [e1, e2]
    simp
  · rw [if_neg he, List.append_assoc, h1 _ hq, h2 _ hq]
    simp

/-- C7: for a base of at most 8 and an extension of at most 3 characters, none of
them a NUL, a space, a dot or an upper-case letter, `getFilename` applied to the
entry that holds the upper-cased, space-padded 8.3 encoding of the name returns
the name (the base alone when the extension is empty, base, dot and extension
otherwise); so encoding the returned string again and reconstructing it gives
the same string. -/
theorem getFilename_encode83 (p : Platform) (e0 : FileEntry) (base ext : List Nat)
    (halloc : p.calloc 13 = true)
    (hbl : base.length ≤ 8) (hel : ext.length ≤ 3)
    (hchars : ∀ c ∈ base ++ ext, c ≠ 0 ∧ c ≠ 32 ∧ c ≠ 46 ∧ ¬(65 ≤ c ∧ c ≤ 90)) :
    (getFilename p (spec_encode83 e0 (spec_name base ext))).map cstr =
        some (spec_name base ext) ∧
      ∀ r, (getFilename p (spec_encode83 e0 (spec_name base ext))).map cstr = some r →
        (getFilename p (spec_encode83 e0 r)).map cstr = some r := by
  have hb : ∀ c ∈ base, c ≠ 0 ∧ c ≠ 32 ∧ c ≠ 46 ∧ ¬(65 ≤ c ∧ c ≤ 90) :=
    fun c hc => hchars c (List.mem_append_left _ hc)
  have he : ∀ c ∈ ext, c ≠ 0 ∧ c ≠ 32 ∧ c ≠ 46 ∧ ¬(65 ≤ c ∧ c ≤ 90) :=
    fun c hc => hchars c (List.mem_append_right _ hc)
  obtain ⟨hs1, hs2⟩ := spec_name_split base ext (fun c hc => (hb c hc).2.2.1)
  have hbase : (((base.map toupper ++ List.replicate (8 - base.length) 32).take 8).takeWhile
      (· != 32)).map tolower = base := by
    rw [List.take_of_length_le (by simp; omega),
      takeWhile_append_replicate _ _ _ _ (fun c hc => by
        obtain ⟨a, ha, rfl⟩ := List.mem_map.1 hc
        exact toupper_ne_space (hb a ha).2.1) (by decide),
      map_tolower_toupper _ (fun c hc => (hb c hc).2.2.2)]
  have hext : (((ext.map toupper ++ List.replicate (3 - ext.length) 32).take 3).takeWhile
      (· != 32)).map tolower = ext := by
    rw [List.take_of_length_le (by simp; omega),
      takeWhile_append_replicate _ _ _ _ (fun c hc => by
        obtain ⟨a, ha, rfl⟩ := List.mem_map.1 hc
        exact toupper_ne_space (he a ha).2.1) (by decide),
      map_tolower_toupper _ (fun c hc => (he c hc).2.2.2)]
  have hmain : (getFilename p (spec_encode83 e0 (spec_name base ext))).map cstr =
      some (spec_name base ext) := by
    simp only [getFilename, halloc, Bool.true_eq_false, if_false, spec_encode83, hs1, hs2, hbase,
      hext]
    by_cases hemp : ext = []
    · subst hemp
      simp only [List.map_nil, List.length_nil, List.nil_append]
      rw [if_pos (by decide)]
      simp only [Option.map_some', spec_name, if_true, cstr]
      rw [takeWhile_append_replicate _ _ _ _ (fun c hc => by simpa using (hb c hc).1) (by decide)]
    · obtain ⟨a, as, rfl⟩ := List.exists_cons_of_ne_nil hemp
      have ha := (he a (List.mem_cons_self _ _)).2.1
      have hne : ¬ ((List.map toupper (a :: as) ++
          List.replicate (3 - (a :: as).length) 32).getD 0 0 = 32) := by
        have := toupper_ne_space ha
        simpa using this
      rw [if_neg hne]
      simp only [Option.map_some', spec_name, if_neg hemp, cstr]
      rw [takeWhile_append_replicate _ _ _ _ (fun c hc => by
        rcases List.mem_append.1 hc with hc | hc
        · rcases List.mem_append.1 hc with hc | hc
          · simpa using (hb c hc).1
          · have : c = 46 := by simpa using hc
            subst this; decide
        · simpa using (he c hc).1) (by decide)]
  refine ⟨hmain, ?_⟩
  intro r hr
  rw [hmain] at hr
  cases hr
  exact hmain

/-- Witness of C7: the names `hello.txt` and `readme`. -/
theorem getFilename_encode83_witness :
    (getFilename lp64 (spec_encode83 (demoEntry 0) (str "hello.txt"))).map cstr =
        some (str "hello.txt") ∧
      (getFilename lp64 (spec_encode83 (demoEntry 0) (str "readme"))).map cstr =
        some (str "readme") :=
  ⟨(getFilename_encode83 lp64 (demoEntry 0) (str "hello") (str "txt") rfl (by decide)
      (by decide) (by decide)).1,
   (getFilename_encode83 lp64 (demoEntry 0) (str "readme") [] rfl (by decide)
      (by decide) (by decide)).1⟩

/-- C8 fails on the code: `makeHistoryBackup` and `restoreHistory` copy
`MAX_DEPTH` bytes, not `MAX_DEPTH` pointers, so with 8-byte pointers the slots
from 13 on are neither saved nor restored. In the example volume, with the
working directory fourteen levels deep, `goAndFetch("../b", true)` returns a
handle and leaves `directoryHistory[14]` pointing to `B` (cluster 16) instead of
the fourteenth `A` (cluster 15). -/
theorem goAndFetch_restore_true_deep :
    (cd_a_times lp64 3 14 demo).toOption.map stack_clusters = some (stack_clusters demoDeep) ∧
      stack_clusters demoDeep =
        [some 0, some 2, some 3, some 4, some 5, some 6, some 7, some 8, some 9, some 10,
          some 11, some 12, some 13, some 14, some 15] ∧
      (goAndFetch lp64 3 demoDeep (some (str "../b")) true).toOption.map
          (fun r => (r.1 != Fetched.null && r.1 != Fetched.root, stack_clusters r.2)) =
        some (true,
          [some 0, some 2, some 3, some 4, some 5, some 6, some 7, some 8, some 9, some 10,
            some 11, some 12, some 13, some 14, some 16]) := by
  decide!

/-- C9 fails on the code, by the defect of C8: in the example volume, with the
working directory fourteen levels deep, `goAndFetch("../b/none", false)` returns
`NULL` (the last component does not exist) and leaves `directoryHistory[14]`
pointing to `B` (cluster 16) instead of the fourteenth `A` (cluster 15). -/
theorem goAndFetch_failure_deep :
    stack_clusters demoDeep =
        [some 0, some 2, some 3, some 4, some 5, some 6, some 7, some 8, some 9, some 10,
          some 11, some 12, some 13, some 14, some 15] ∧
      (goAndFetch lp64 3 demoDeep (some (str "../b/none")) false).toOption.map
          (fun r => (r.1, stack_clusters r.2)) =
        some (Fetched.null,
          [some 0, some 2, some 3, some 4, some 5, some 6, some 7, some 8, some 9, some 10,
            some 11, some 12, some 13, some 14, some 16]) := by
  decide!

/-- C10 fails on the code: `cd` calls `goAndFetch` without restoring and does
not restore the stack itself when it reports that the target is not a
directory. In the example volume `cd a/f.txt`, run in the root, reports that
`a/f.txt` is not a directory and leaves the working directory in `/a/`. -/
theorem cd_not_a_directory_moves :
    stack_clusters demo = [some 0] ∧
      (handleCommand_cd lp64 3 demo (some (str "a/f.txt"))).toOption.map
          (fun r => (r.1, stack_clusters r.2)) =
        some (CdReport.not_a_directory, [some 0, some 2]) := by
  decide!

/-- C11 fails on the code: for `..` as the last component `goAndFetch` pops one
level and then calls `findEntry(NULL)` unless it has arrived at the root, so it
restores the stack and returns `NULL`. In the example volume `cd ..` run in
`/a/` leads to the root, but run in `/a/a/` it reports that `..` does not exist
and leaves the working directory in `/a/a/`. -/
theorem cd_dotdot_two_levels :
    (cd_a_times lp64 3 1 demo).toOption.map stack_clusters = some [some 0, some 2] ∧
      ((cd_a_times lp64 3 1 demo).bind fun g =>
          handleCommand_cd lp64 3 g (some (str ".."))).toOption.map
          (fun r => (r.1, stack_clusters r.2)) =
        some (CdReport.arrived_at_root, [some 0]) ∧
      (cd_a_times lp64 3 2 demo).toOption.map stack_clusters =
        some [some 0, some 2, some 3] ∧
      ((cd_a_times lp64 3 2 demo).bind fun g =>
          handleCommand_cd lp64 3 g (some (str ".."))).toOption.map
          (fun r => (r.1, stack_clusters r.2)) =
        some (CdReport.doesnt_exist, [some 0, some 2, some 3]) := by
  decide!

/-- C13 fails on the code: `goAndFetch` executes
`directoryHistory[++historyIndex] = dir` without comparing with `MAX_DEPTH`. In
the volume `loopVol`, 99 levels deep (`historyIndex` 99), `cd a` finds the
directory `a` and writes `directoryHistory[100]`, outside the array. -/
theorem cd_writes_past_max_depth :
    (handleCommand_cd lp64 3 loopVol (some (a_path 99))).toOption.map
        (fun r => (r.1, r.2.historyIndex)) = some (CdReport.entered, 99) ∧
      loopDeep.historyIndex = 99 ∧ loopDeep.directoryHistory.length = MAX_DEPTH ∧
      (findEntry lp64 (makeHistoryBackup lp64 loopDeep) 3 (some (str "a"))).toOption.map
        (fun e => e.map is_directory) = some (some true) ∧
      handleCommand_cd lp64 3 loopDeep (some (str "a")) = .ub := by
  decide!

/-- C14 fails on the code: the scan skips every entry with
`entryIndex <= lastIndex`, and `lastIndex` starts at 0, so the first
non-skippable entry is never returned. For the root of the example volume, whose
non-skippable entries are `a`, `hello.txt`, `bad.txt`, `short.txt` and
`one.txt`, the successive calls return `hello.txt`, `bad.txt`, `short.txt`,
`one.txt` and then `FILE_END`. -/
theorem fileReadDirectory_skips_first :
    listed_names lp64 demo.rootEntries =
        [some (str "a"), some (str "hello.txt"), some (str "bad.txt"),
          some (str "short.txt"), some (str "one.txt")] ∧
      (fileReadDirectory lp64 demo 3 0 (some rootHandle)).toOption.map
          (fun r => (r.ret, r.name, r.lastIndex)) = some (0, some (str "hello.txt"), 1) ∧
      (fileReadDirectory lp64 demo 3 1 (some rootHandle)).toOption.map
          (fun r => (r.ret, r.name, r.lastIndex)) = some (0, some (str "bad.txt"), 2) ∧
      (fileReadDirectory lp64 demo 3 2 (some rootHandle)).toOption.map
          (fun r => (r.ret, r.name, r.lastIndex)) = some (0, some (str "short.txt"), 3) ∧
      (fileReadDirectory lp64 demo 3 3 (some rootHandle)).toOption.map
          (fun r => (r.ret, r.name, r.lastIndex)) = some (0, some (str "one.txt"), 4) ∧
      (fileReadDirectory lp64 demo 3 4 (some rootHandle)).toOption.map
          (fun r => (r.ret, r.name, r.lastIndex)) = some (FILE_END, none, 0) := by
  decide!

/-- C17 fails on the code: the test `to_read < size` misses products that wrap
to a value of at least `size`. With a 64-bit `size_t`, `size` 2 and `items`
2^63 + 1 give the product 2^64 + 2, which wraps to 2: `fileRead` on
`HELLO.TXT` of the example volume returns 2, copies two bytes and moves the
cursor to 2. -/
theorem fileRead_overflow_undetected :
    2 * (2 ^ 63 + 1) ≥ 2 ^ x86_64.size_t_bits ∧
      (fileOpen lp64 3 demo (some (str "hello.txt"))).toOption.map (fun r => r.1) =
        some (some helloHandle) ∧
      (fileRead lp64 x86_64 demo 3 (some [9, 9, 9, 9]) 2 (2 ^ 63 + 1)
          (some helloHandle)).toOption.map
          (fun r => (r.ret, r.buffer, r.handle.map fun h => h._position)) =
        some (2, some [0, 1, 9, 9], some 2) := by
  decide!

/-- C18 fails on the code: `fileReadChar` returns the plain `char` it read, which
is sign-extended where `char` is signed. In the volume `demoFD`, whose file
`HELLO.TXT` starts with the bytes 0xFD and 0xFE, `fileReadChar` returns -3
(`FILE_END`) at cursor 0 and -2 (`FILE_ERROR`) at cursor 1, each time moving the
cursor on by one. -/
theorem fileReadChar_sign_extends :
    (getContents lp64 demoFD 3 (.entry (demoEntry 1))).toOption.map
        (fun r => r.map fun b => b.take 2) = some (some [0xFD, 0xFE]) ∧
      (fileReadChar lp64 x86_64 demoFD 3 (some helloHandle)).toOption.map
          (fun r => (r.1, r.2.map fun h => h._position)) = some (FILE_END, some 1) ∧
      (fileReadChar lp64 x86_64 demoFD 3 (fileSeek (some helloHandle) 1)).toOption.map
          (fun r => (r.1, r.2.map fun h => h._position)) = some (FILE_ERROR, some 2) := by
  decide!

/-- C20 fails on the code: `get` writes `strlen(contents)` bytes, the bytes
before the first zero byte. `HELLO.TXT` of the example volume has 200 bytes, the
first of them zero: `get hello.txt` creates `hello.txt` and writes no byte. -/
theorem get_stops_at_zero_byte :
    (getContents lp64 demo 3 (.entry (demoEntry 1))).toOption.map
        (fun r => r.map fun b => ((b.take (demoEntry 1).file_size).length, b.take 3)) =
        some (some (200, [0, 1, 2])) ∧
      (handleCommand_get lp64 3 demo (some (str "hello.txt")) true).toOption.map
          (fun r => r.1) = some (GetReport.copied (str "hello.txt") []) := by
  decide!

/-- C15, as stated, fails: the cursor `_position` is an `int`. For a handle of
size 3000000000 (a `file_size` above 2^31 - 1) `fileSeek(h, 3000000000)` stores
3000000000 converted to `int`, which is -1294967296, not
min(3000000000, 3000000000). -/
theorem fileSeek_cursor_wraps :
    hugeHandle._opened = true ∧ hugeHandle._size = 3000000000 ∧
      (fileSeek (some hugeHandle) 3000000000).map (fun h => h._position) =
        some (-1294967296) := by
  decide

/-- C15, amended: for an open handle `h` and a position `n` with
min(n, size(h)) at most 2^31 - 1 (the largest `int`), after `fileSeek(h, n)` the
cursor equals min(n, size(h)) and nothing else of the handle changes; on a handle
that is not open the handle is left unchanged. -/
theorem fileSeek_min (h : File_t) (n : Nat) :
    (h._opened = true → min n h._size < 2 ^ 31 →
        fileSeek (some h) n = some { h with _position := (min n h._size : Nat) }) ∧
      (h._opened = false → fileSeek (some h) n = some h) := by
  constructor
  · intro ho hlt
    have hw : wrap32 ((if n > h._size then h._size else n : Nat) : Int) =
        ((min n h._size : Nat) : Int) := by
      have hm : (if n > h._size then h._size else n) = min n h._size := by
        split <;> omega
      rw [hm]
      unfold wrap32
      omega
    simp only [fileSeek, ho, Bool.true_eq_false, if_false, hw]
  · intro ho
    simp [fileSeek, ho]

/-- Witness of C15: seeking to 500 and to 130 in `HELLO.TXT` (200 bytes). -/
theorem fileSeek_min_witness :
    fileSeek (some helloHandle) 500 = some { helloHandle with _position := 200 } ∧
      fileSeek (some helloHandle) 130 = some { helloHandle with _position := 130 } ∧
      fileSeek (some { helloHandle with _opened := false }) 130 =
        some { helloHandle with _opened := false } :=
  ⟨(fileSeek_min helloHandle 500).1 rfl (by decide),
   (fileSeek_min helloHandle 130).1 rfl (by decide),
   (fileSeek_min { helloHandle with _opened := false } 130).2 rfl⟩

theorem fat_entry_partition (v : Nat) (hv : v < 0x1000) :
    truth_value (used_entry v) + truth_value (free_entry v) + truth_value (bad_entry v) +
      truth_value (last_entry v) + truth_value (reserved_entry v) + truth_value (v == 1) = 1 := by
  simp only [truth_value, used_entry, free_entry, bad_entry, last_entry, reserved_entry,
    decide_eq_true_eq, beq_iff_eq]
  split_ifs <;> omega

theorem countP_eq_sum_truth (q : Nat → Bool) (l : List Nat) :
    l.countP q = (l.map fun v => truth_value (q v)).sum := by
  induction l with
  | nil => rfl
  | cons a as ih =>
    rw [List.countP_cons, ih, List.map_cons, List.sum_cons]
    unfold truth_value
    cases q a
    · simp
    · simp; omega

/-- The six counts of a list of 12-bit values add up to its length. -/
theorem six_counts (l : List Nat) (hl : ∀ v ∈ l, v < 0x1000) :
    l.countP used_entry + l.countP free_entry + l.countP bad_entry + l.countP last_entry +
      l.countP reserved_entry + l.countP (fun v => v == 1) = l.length := by
  induction l with
  | nil => rfl
  | cons a as ih =>
    have ha := fat_entry_partition a (hl a (List.mem_cons_self _ _))
    have := ih (fun v hv => hl v (List.mem_cons_of_mem _ hv))
    simp only [countP_eq_sum_truth, List.map_cons, List.sum_cons, List.length_cons] at *
    omega

/-- The loop of `spaceinfo` counts the entries it reads, class by class. -/
theorem spaceinfo_loop_counts (FAT : List Nat) :
    ∀ (n i : Nat) (c : SpaceInfo),
      (∀ j, i ≤ j → j < i + n → (get_fat_entry FAT (j % 65536)).isSome) →
      i + n < 2 ^ 31 →
      c.bad_entries + n < 2 ^ 32 → c.free_entries + n < 2 ^ 32 →
      c.used_entries + n < 2 ^ 32 → c.ending_entries + n < 2 ^ 32 →
      spaceinfo_loop FAT n i c =
        .ok { bad_entries := c.bad_entries +
                ((List.range' i n).filterMap fun j => get_fat_entry FAT (j % 65536)).countP bad_entry
              free_entries := c.free_entries +
                ((List.range' i n).filterMap fun j => get_fat_entry FAT (j % 65536)).countP free_entry
              used_entries := c.used_entries +
                ((List.range' i n).filterMap fun j => get_fat_entry FAT (j % 65536)).countP used_entry
              ending_entries := c.ending_entries +
                ((List.range' i n).filterMap fun j => get_fat_entry FAT (j % 65536)).countP last_entry }
  | 0, i, c, _, _, _, _, _, _ => by simp [spaceinfo_loop]
  | n + 1, i, c, hin, hint, hb, hf, hu, he => by
    obtain ⟨entry, hentry⟩ := Option.isSome_iff_exists.1 (hin i (Nat.le_refl _) (by omega))
    have ht : ∀ b : Bool, truth_value b ≤ 1 := by
      intro b; unfold truth_value; split <;> omega
    have h1 := ht (bad_entry entry)
    have h2 := ht (free_entry entry)
    have h3 := ht (used_entry entry)
    have h4 := ht (last_entry entry)
    rw [spaceinfo_loop]
    simp only [hentry]
    rw [if_pos (show i + 1 < 2 ^ 31 by omega)]
    rw [spaceinfo_loop_counts FAT n (i + 1) _ (fun j hj1 hj2 => hin j (by omega) (by omega))
      (by omega) (by simp only; omega) (by simp only; omega) (by simp only; omega) (by simp only; omega)]
    simp only [List.range'_succ, List.filterMap_cons, hentry, List.countP_cons,
      Nat.mod_eq_of_lt (show c.bad_entries + truth_value (bad_entry entry) < 2 ^ 32 by omega),
      Nat.mod_eq_of_lt (show c.free_entries + truth_value (free_entry entry) < 2 ^ 32 by omega),
      Nat.mod_eq_of_lt (show c.used_entries + truth_value (used_entry entry) < 2 ^ 32 by omega),
      Nat.mod_eq_of_lt (show c.ending_entries + truth_value (last_entry entry) < 2 ^ 32 by omega)]
    simp only [truth_value]
    congr 2 <;> split <;> simp_all <;> omega

theorem get_fat_entry_lt {FAT : List Nat} {index v : Nat}
    (h : get_fat_entry FAT index = some v) : v < 0x1000 := by
  have hand : ∀ x : Nat, x &&& 0xfff = x % 4096 := fun x =>
    Nat.and_pow_two_sub_one_eq_mod x 12
  simp only [get_fat_entry] at h
  split at h
  · split at h
    · simp only [Nat.shiftRight_eq_div_pow, Option.some.injEq] at h
      omega
    · simp only [hand, Option.some.injEq] at h
      omega
  · simp at h

theorem get_fat_entry_isSome {FAT : List Nat} {index : Nat}
    (h : index + index / 2 + 1 < FAT.length) : (get_fat_entry FAT index).isSome := by
  simp only [get_fat_entry]
  rw [List.getElem?_eq_getElem h, List.getElem?_eq_getElem (show index + index / 2 < FAT.length by omega)]
  simp only
  split <;> rfl

theorem filterMap_length_of_isSome {α β : Type} (f : α → Option β) (l : List α)
    (h : ∀ x ∈ l, (f x).isSome) : (l.filterMap f).length = l.length := by
  induction l with
  | nil => rfl
  | cons a as ih =>
    obtain ⟨b, hb⟩ := Option.isSome_iff_exists.1 (h a (List.mem_cons_self _ _))
    rw [List.filterMap_cons, hb]
    simp only [List.length_cons]
    rw [ih (fun x hx => h x (List.mem_cons_of_mem _ hx))]

/-- C19, as stated, fails: the value 0x001 is in none of the five classes. For
the FAT of `demoOne`, whose entry 2 holds 0x001, the 84 entries scanned give 0
used, 81 free, 0 bad, 2 terminal and 0 reserved entries, 83 together. -/
theorem spaceinfo_value_one_unclassified :
    FAT_entries demoOne = 84 ∧ (scanned_entries demoOne)[2]? = some 1 ∧
      used_entry 1 = false ∧ free_entry 1 = false ∧ bad_entry 1 = false ∧
      last_entry 1 = false ∧ reserved_entry 1 = false ∧
      handleCommand_spaceinfo demoOne =
        .ok { bad_entries := 0, free_entries := 81, used_entries := 0, ending_entries := 2 } ∧
      (scanned_entries demoOne).countP reserved_entry = 0 := by
  decide!

/-- C19, amended: for a FAT buffer of the size `loadDiskImage` allocates, with
fewer than 2^31 entries to scan (the loop index is an `int`), the loop of
`spaceinfo` reads `FAT_entries = (FAT_size / 3) * 2` entries and its
four counters are the numbers of bad, free, used and terminal entries among
them; these four counts, the count of reserved entries and the count of entries
with the value 0x001 add up to `FAT_entries`, and every scanned value belongs to
exactly one of the five classes or is 0x001 (which belongs to none). -/
theorem spaceinfo_counts (g : global_data_t) (hload : loaded g)
    (hint : FAT_entries g < 2 ^ 31) :
    ∃ c, handleCommand_spaceinfo g = .ok c ∧
      c.used_entries = (scanned_entries g).countP used_entry ∧
      c.free_entries = (scanned_entries g).countP free_entry ∧
      c.bad_entries = (scanned_entries g).countP bad_entry ∧
      c.ending_entries = (scanned_entries g).countP last_entry ∧
      (scanned_entries g).length = FAT_entries g ∧
      c.used_entries + c.free_entries + c.bad_entries + c.ending_entries +
          (scanned_entries g).countP reserved_entry +
          (scanned_entries g).countP (fun v => v == 1) = FAT_entries g ∧
      ∀ v ∈ scanned_entries g,
        truth_value (used_entry v) + truth_value (free_entry v) + truth_value (bad_entry v) +
          truth_value (last_entry v) + truth_value (reserved_entry v) +
          truth_value (v == 1) = 1 := by
  obtain ⟨hlen, _, _⟩ := hload
  have hn : FAT_entries g = (g.BS.size_of_FAT * g.BS.bytes_per_sector) % 2 ^ 32 / 3 * 2 := by
    unfold FAT_entries
    apply Nat.mod_eq_of_lt
    omega
  have hsome : ∀ j, j < FAT_entries g → (get_fat_entry g.FAT (j % 65536)).isSome := by
    intro j hj
    apply get_fat_entry_isSome
    rw [hlen]
    rw [hn] at hj
    omega
  have hlt : ∀ v ∈ scanned_entries g, v < 0x1000 := by
    intro v hv
    obtain ⟨j, _, hj⟩ := List.mem_filterMap.1 hv
    exact get_fat_entry_lt hj
  have hslen : (scanned_entries g).length = FAT_entries g := by
    unfold scanned_entries
    rw [filterMap_length_of_isSome _ _ (fun j hj => hsome j (List.mem_range.1 hj)),
      List.length_range]
  have hloop := spaceinfo_loop_counts g.FAT (FAT_entries g) 0
    { bad_entries := 0, free_entries := 0, used_entries := 0, ending_entries := 0 }
    (fun j _ hj => hsome j (by omega)) (by omega) (by rw [hn]; simp only; omega)
    (by rw [hn]; simp only; omega) (by rw [hn]; simp only; omega) (by rw [hn]; simp only; omega)
  have hsix := six_counts (scanned_entries g) hlt
  rw [hslen] at hsix
  refine ⟨_, hloop, ?_, ?_, ?_, ?_, hslen, ?_, fun v hv => fat_entry_partition v (hlt v hv)⟩
  all_goals simp only [Nat.zero_add, ← List.range_eq_range']
  all_goals first | rfl | exact hsix

/-- Witness of C19: the FAT of the example volume. -/
theorem spaceinfo_counts_witness :
    ∃ c, handleCommand_spaceinfo demo = .ok c ∧
      c.used_entries = (scanned_entries demo).countP used_entry ∧
      c.free_entries = (scanned_entries demo).countP free_entry ∧
      c.bad_entries = (scanned_entries demo).countP bad_entry ∧
      c.ending_entries = (scanned_entries demo).countP last_entry ∧
      (scanned_entries demo).length = FAT_entries demo ∧
      c.used_entries + c.free_entries + c.bad_entries + c.ending_entries +
          (scanned_entries demo).countP reserved_entry +
          (scanned_entries demo).countP (fun v => v == 1) = FAT_entries demo ∧
      ∀ v ∈ scanned_entries demo,
        truth_value (used_entry v) + truth_value (free_entry v) + truth_value (bad_entry v) +
          truth_value (last_entry v) + truth_value (reserved_entry v) +
          truth_value (v == 1) = 1 :=
  spaceinfo_counts demo (by decide!) (by decide)

theorem memcpy_length {dst src r : List Nat} {dstOff srcOff n : Nat}
    (h : memcpy dst dstOff src srcOff n = some r) : r.length = dst.length := by
  unfold memcpy at h
  split at h
  · cases h; rfl
  · split at h
    · rename_i hb
      cases h
      simp only [List.length_append, List.length_take, List.length_drop]
      omega
    · cases h

theorem getContents_loop_length (g : global_data_t) (isDirectory : Bool) :
    ∀ (fuel v rem dr : Nat) (contents r : List Nat),
      getContents_loop g isDirectory fuel v rem dr contents = .ok (some r) →
      r.length = contents.length
  | 0, _, _, _, _, _, h => by simp [getContents_loop] at h
  | fuel + 1, v, rem, dr, contents, r, h => by
    rw [getContents_loop] at h
    split at h
    · cases h
    · split at h
      · cases h; rfl
      · simp only at h
        split at h
        · cases h
        · rename_i contents1 hm
          have hl := memcpy_length hm
          split at h
          · cases h; exact hl
          · split at h
            · cases h
            · rw [getContents_loop_length g isDirectory fuel _ _ _ _ r h, hl]

/-- The buffer `getContents` returns for a regular file has `file_size + 1`
bytes (in 32-bit arithmetic). -/
theorem getContents_file_length (p : Platform) (g : global_data_t) (fuel : Nat)
    (e : FileEntry) (r : List Nat) (hd : is_directory e = false)
    (h : getContents p g fuel (.entry e) = .ok (some r)) :
    r.length = (e.file_size + 1) % 2 ^ 32 := by
  simp only [getContents, hd, Bool.false_eq_true, if_false, Res.bind] at h
  split at h
  · cases h
  · rw [getContents_loop_length g false _ _ _ _ _ r h, List.length_replicate]

theorem wrap32_of_lt {x : Nat} (h : x < 2 ^ 31) : wrap32 (x : Int) = (x : Int) := by
  unfold wrap32
  omega

/-- What `fileRead` does on an open handle of a regular file whose contents
`getContents` returns, before the cursor has reached the size: the value
returned and the new cursor are the mathematical ones converted to 32-bit
signed integers. -/
theorem fileRead_run (p : Platform) (c : CTypes) (g : global_data_t) (fuel : Nat)
    (buf contents : List Nat) (size items cursor : Nat) (h : File_t) (e : FileEntry)
    (hbits : 32 ≤ c.size_t_bits)
    (ho : h._opened = true) (ht : h._type = file_type.file)
    (he : h._entry = .entry e) (hd : is_directory e = false) (hs : h._size = e.file_size)
    (hpos : h._position = (cursor : Int)) (hlt : cursor < h._size)
    (hmax : h._size + 1 < 2 ^ 32)
    (hread : getContents p g fuel (.entry e) = .ok (some contents))
    (hitems : 1 ≤ items) (hprod : size * items < 2 ^ c.size_t_bits)
    (hbuf : min (size * items) (h._size - cursor) ≤ buf.length) :
    fileRead p c g fuel (some buf) size items (some h) =
      .ok { ret := wrap32 ((min (size * items) (h._size - cursor) : Nat) : Int)
            buffer := some ((contents.drop cursor).take
                (min (size * items) (h._size - cursor)) ++
              buf.drop (min (size * items) (h._size - cursor)))
            handle := some { h with
              _position :=
                wrap32 ((cursor + min (size * items) (h._size - cursor) : Nat) : Int) } } := by
  have hpow : (2 : Nat) ^ 32 ≤ 2 ^ c.size_t_bits := Nat.pow_le_pow_right (by decide) hbits
  have hmod : (size * items) % 2 ^ c.size_t_bits = size * items := Nat.mod_eq_of_lt hprod
  have hge : ¬ size * items < size := by
    have := Nat.le_mul_of_pos_right size hitems
    omega
  have hcast : ∀ x : Nat, x < 2 ^ c.size_t_bits → to_size_t c (x : Int) = x := by
    intro x hx
    unfold to_size_t
    have h2 : (x : Int) % 2 ^ c.size_t_bits = (x : Int) := by
      apply Int.emod_eq_of_lt (by omega)
      exact_mod_cast hx
    rw [h2]
    exact Int.toNat_natCast _
  have hrem : to_size_t c ((h._size : Int) - h._position) = h._size - cursor := by
    rw [hpos]
    have h1 : ((h._size : Int) - (cursor : Int)) = ((h._size - cursor : Nat) : Int) := by omega
    rw [h1]
    exact hcast _ (by omega)
  have hopen : ¬ (h._opened = false ∨ h._type = file_type.directory) := by
    rw [ho, ht]; simp
  have hclen := getContents_file_length p g fuel e contents hd hread
  have hcl : contents.length = h._size + 1 := by
    rw [hclen, ← hs]
    exact Nat.mod_eq_of_lt (by omega)
  have hn : (if size * items > h._size - cursor then h._size - cursor else size * items) =
      min (size * items) (h._size - cursor) := by
    split <;> omega
  by_cases hz : min (size * items) (h._size - cursor) = 0
  · have hm : memcpy buf 0 contents cursor (min (size * items) (h._size - cursor)) =
        some ((contents.drop cursor).take (min (size * items) (h._size - cursor)) ++
          buf.drop (min (size * items) (h._size - cursor))) := by
      rw [hz]
      simp [memcpy]
    have hsz : to_size_t c ((cursor : Int) + ((min (size * items) (h._size - cursor) : Nat) : Int)) =
        cursor + min (size * items) (h._size - cursor) := by
      have h1 : (cursor : Int) + ((min (size * items) (h._size - cursor) : Nat) : Int) =
          ((cursor + min (size * items) (h._size - cursor) : Nat) : Int) := by push_cast; rfl
      rw [h1]
      exact hcast _ (by omega)
    have hne : h._size - cursor ≠ 0 := by omega
    have hnotneg : ¬ (h._position < 0 ∧ min (size * items) (h._size - cursor) ≠ 0) := by
      rw [hpos]; omega
    simp only [fileRead, hopen, if_false, hmod, hge, hrem, hne, hn, he, hread, Res.bind,
      hnotneg]
    rw [hpos, Int.toNat_natCast, hm]
    simp only [hsz]
  · have hm : memcpy buf 0 contents cursor (min (size * items) (h._size - cursor)) =
        some ((contents.drop cursor).take (min (size * items) (h._size - cursor)) ++
          buf.drop (min (size * items) (h._size - cursor))) := by
      unfold memcpy
      rw [if_neg hz, if_pos ⟨by omega, by omega⟩]
      simp
    have hsz : to_size_t c ((cursor : Int) + ((min (size * items) (h._size - cursor) : Nat) : Int)) =
        cursor + min (size * items) (h._size - cursor) := by
      have h1 : (cursor : Int) + ((min (size * items) (h._size - cursor) : Nat) : Int) =
          ((cursor + min (size * items) (h._size - cursor) : Nat) : Int) := by push_cast; rfl
      rw [h1]
      exact hcast _ (by omega)
    have hne : h._size - cursor ≠ 0 := by omega
    have hnotneg : ¬ (h._position < 0 ∧ min (size * items) (h._size - cursor) ≠ 0) := by
      rw [hpos]; omega
    simp only [fileRead, hopen, if_false, hmod, hge, hrem, hne, hn, he, hread, Res.bind,
      hnotneg]
    rw [hpos, Int.toNat_natCast, hm]
    simp only [hsz]

/-- C16, amended: for an open handle `h` on a regular file (of any size below
2^32 - 1 bytes) whose contents `getContents` returns, with cursor between 0 and
size(h), a buffer with room for the bytes copied, and `size`, `items` at least 1
with a product that fits `size_t`: at cursor = size(h) `fileRead` returns
`FILE_END` and changes nothing; otherwise, with
n = min(size * items, size(h) - cursor) and cursor + n at most 2^31 - 1 (the
largest `int`), it returns n, copies the n bytes of the contents from position
cursor on to the start of the buffer and advances the cursor by n. -/
theorem fileRead_spec (p : Platform) (c : CTypes) (g : global_data_t) (fuel : Nat)
    (buf contents : List Nat) (size items cursor : Nat) (h : File_t) (e : FileEntry)
    (hbits : 32 ≤ c.size_t_bits)
    (ho : h._opened = true) (ht : h._type = file_type.file)
    (he : h._entry = .entry e) (hd : is_directory e = false) (hs : h._size = e.file_size)
    (hpos : h._position = (cursor : Int)) (hmax : h._size + 1 < 2 ^ 32)
    (hread : getContents p g fuel (.entry e) = .ok (some contents))
    (hsize : 1 ≤ size) (hitems : 1 ≤ items) (hprod : size * items < 2 ^ c.size_t_bits)
    (hbuf : min (size * items) (h._size - cursor) ≤ buf.length) :
    (cursor = h._size →
        fileRead p c g fuel (some buf) size items (some h) =
          .ok { ret := FILE_END, buffer := some buf, handle := some h }) ∧
      (cursor < h._size → cursor + min (size * items) (h._size - cursor) < 2 ^ 31 →
        fileRead p c g fuel (some buf) size items (some h) =
          .ok { ret := (min (size * items) (h._size - cursor) : Nat)
                buffer := some ((contents.drop cursor).take
                    (min (size * items) (h._size - cursor)) ++
                  buf.drop (min (size * items) (h._size - cursor)))
                handle := some { h with
                  _position := ((cursor + min (size * items) (h._size - cursor) : Nat) : Int) } } ∧
          ((contents.drop cursor).take (min (size * items) (h._size - cursor))).length =
            min (size * items) (h._size - cursor) ∧
          1 ≤ min (size * items) (h._size - cursor)) := by
  constructor
  · intro heq
    have hpow : (2 : Nat) ^ 32 ≤ 2 ^ c.size_t_bits := Nat.pow_le_pow_right (by decide) hbits
    have hmod : (size * items) % 2 ^ c.size_t_bits = size * items := Nat.mod_eq_of_lt hprod
    have hge : ¬ size * items < size := by
      have := Nat.le_mul_of_pos_right size hitems
      omega
    have hrem : to_size_t c ((h._size : Int) - h._position) = 0 := by
      rw [hpos, heq]
      simp [to_size_t]
    have hopen : ¬ (h._opened = false ∨ h._type = file_type.directory) := by
      rw [ho, ht]; simp
    simp only [fileRead, hopen, if_false, hmod, hge, hrem, if_true]
  · intro hlt hint
    have hrun := fileRead_run p c g fuel buf contents size items cursor h e hbits ho ht he hd hs
      hpos hlt hmax hread hitems hprod hbuf
    have hclen := getContents_file_length p g fuel e contents hd hread
    have hcl : contents.length = h._size + 1 := by
      rw [hclen, ← hs]
      exact Nat.mod_eq_of_lt (by omega)
    have hmul := Nat.le_mul_of_pos_right size hitems
    refine ⟨?_, ?_, by omega⟩
    · rw [hrun, wrap32_of_lt (show min (size * items) (h._size - cursor) < 2 ^ 31 by omega),
        wrap32_of_lt (show cursor + min (size * items) (h._size - cursor) < 2 ^ 31 by omega)]
    · rw [List.length_take, List.length_drop, hcl]
      omega

theorem get_fat_entry_skip (x y z : Nat) (X : List Nat) (i : Nat) :
    get_fat_entry (x :: y :: z :: X) (i + 2) = get_fat_entry X i := by
  have e : i + 2 + (i + 2) / 2 = (i + i / 2) + 3 := by omega
  have hp : (i + 2) &&& 1 = i &&& 1 := by
    rw [Nat.and_one_is_mod, Nat.and_one_is_mod]; omega
  have a1 : ∀ k, (x :: y :: z :: X)[k + 3]? = X[k]? := by intro k; simp
  have a2 : i + i / 2 + 3 + 1 = (i + i / 2 + 1) + 3 := by omega
  simp only [get_fat_entry, e, hp, a2, a1]

/-- Reading the FAT12 packing of a list of 12-bit values gives the values back. -/
theorem get_fat_entry_packFAT :
    ∀ (l tail : List Nat) (i : Nat), (∀ v ∈ l, v < 0x1000) → i < l.length →
      get_fat_entry (packFAT l ++ tail) i = l[i]?
  | [], _, _, _, h => by simp at h
  | [a], tail, i, hl, h => by
    have ha := hl a (List.mem_cons_self _ _)
    have hi : i = 0 := by simpa using h
    subst hi
    have hand : ∀ x : Nat, x &&& 0xfff = x % 4096 := fun x =>
      Nat.and_pow_two_sub_one_eq_mod x 12
    simp only [packFAT, get_fat_entry, List.cons_append, List.getElem?_cons_zero,
      List.getElem?_cons_succ, hand]
    simp
    omega
  | a :: b :: rest, tail, i, hl, h => by
    have ha := hl a (List.mem_cons_self _ _)
    have hb := hl b (List.mem_cons_of_mem _ (List.mem_cons_self _ _))
    have hand : ∀ x : Nat, x &&& 0xfff = x % 4096 := fun x =>
      Nat.and_pow_two_sub_one_eq_mod x 12
    match i, h with
    | 0, _ =>
      simp only [packFAT, get_fat_entry, List.cons_append, List.getElem?_cons_zero,
        List.getElem?_cons_succ, hand]
      simp
      omega
    | 1, _ =>
      simp only [packFAT, get_fat_entry, List.cons_append, List.getElem?_cons_zero,
        List.getElem?_cons_succ, Nat.shiftRight_eq_div_pow]
      simp
      omega
    | i + 2, h =>
      simp only [packFAT, List.cons_append, get_fat_entry_skip, List.getElem?_cons_succ]
      exact get_fat_entry_packFAT rest tail i
        (fun v hv => hl v (List.mem_cons_of_mem _ (List.mem_cons_of_mem _ hv)))
        (by simpa using h)

/-- A FAT whose entries `a`, ..., `a + n - 1` each hold the next index and whose
entry `a + n` holds `t` has the chain `a`, ..., `a + n` followed by `t`. -/
theorem isChain_range' (FAT : List Nat) (t : Nat) :
    ∀ (n a : Nat), (∀ j, a ≤ j → j < a + n → get_fat_entry FAT j = some (j + 1)) →
      get_fat_entry FAT (a + n) = some t →
      isChain FAT a (List.range' a (n + 1)) t = true
  | 0, a, _, hlast => by
    simp only [Nat.add_zero] at hlast
    simp [List.range', isChain, hlast]
  | n + 1, a, hstep, hlast => by
    rw [List.range'_succ]
    refine isChain_cons.2 ⟨rfl, a + 1, hstep a (Nat.le_refl _) (by omega), ?_⟩
    exact isChain_range' FAT t n (a + 1) (fun j h1 h2 => hstep j (by omega) (by omega))
      (by rw [show a + 1 + n = a + (n + 1) by omega]; exact hlast)

theorem bigFAT_chain : isChain bigVol.FAT 2 (List.range' 2 129) 0xfff = true := by
  have hl : ∀ v ∈ [0xff8, 0xfff] ++ List.range' 3 128 ++ [0xfff], v < 0x1000 := by
    intro v hv
    simp only [List.mem_append, List.mem_cons, List.mem_singleton, List.mem_range',
      List.not_mem_nil, or_false] at hv
    omega
  have hget : ∀ j, j < 131 → get_fat_entry bigVol.FAT j =
      ([0xff8, 0xfff] ++ List.range' 3 128 ++ [0xfff])[j]? := by
    intro j hj
    show get_fat_entry bigFAT j = _
    unfold bigFAT padTo
    exact get_fat_entry_packFAT _ _ j hl (by simp; omega)
  apply isChain_range' bigVol.FAT 0xfff 128 2
  · intro j h1 h2
    rw [hget j (by omega)]
    obtain ⟨k, rfl⟩ : ∃ k, j = k + 2 := ⟨j - 2, by omega⟩
    simp only [List.cons_append, List.nil_append, List.getElem?_cons_succ]
    rw [List.getElem?_append_left (by simp; omega)]
    have hk : k < 128 := by omega
    simp [List.getElem?_range', hk]
    omega
  · rw [hget 130 (by omega)]
    simp only [List.cons_append, List.nil_append, List.getElem?_cons_succ]
    rw [List.getElem?_append_right (by simp)]
    simp

/-- The contents `getContents` returns for a regular file with a well-formed
chain, for a data region shorter than 2^32 - 31 bytes. -/
theorem getContents_file_eq (p : Platform) (g : global_data_t) (e : FileEntry)
    (cs : List Nat) (t fuel : Nat)
    (hD : g.dataSection.length + 32 ≤ 2 ^ 32)
    (hfile : is_directory e = false)
    (hchain : isChain g.FAT e.first_cluster_address_low cs t = true)
    (hused : ∀ c ∈ cs, used_entry c = true ∧ inData g c)
    (ht : last_entry t = true)
    (hsize : e.file_size ≤ cs.length * cluster_size g)
    (halloc : p.calloc (e.file_size + 1) = true)
    (hfuel : cs.length < fuel) :
    getContents p g fuel (.entry e) =
      .ok (some ((cs.flatMap (cluster g)).take e.file_size ++ [0])) := by
  have hnl : ∀ c ∈ cs, last_entry c = false ∧ bad_entry c = false ∧ inData g c := by
    intro c hc
    obtain ⟨hu, hi⟩ := hused c hc
    simp only [used_entry, decide_eq_true_eq] at hu
    refine ⟨?_, ?_, hi⟩
    · simp only [last_entry, decide_eq_false_iff_not]; omega
    · simp only [bad_entry, decide_eq_false_iff_not]; omega
  have hnd : cs.Nodup :=
    isChain_nodup last_entry cs _ t hchain (fun c hc => (hnl c hc).1) ht
  have hcap := capacity_le g cs hnd (fun c hc => (hused c hc).2)
  have hsz : (e.file_size + 1) % 2 ^ 32 = e.file_size + 1 := Nat.mod_eq_of_lt (by omega)
  obtain ⟨f, rfl⟩ : ∃ f, fuel = cs.length + (f + 1) := ⟨fuel - cs.length - 1, by omega⟩
  simp only [getContents, hfile, Bool.false_eq_true, if_false, Res.bind, hsz, halloc]
  have hseg := loop_file_segment g (by omega) cs e.first_cluster_address_low t e.file_size
    (f + 1) [] hchain hnl (by simp; omega)
  simp only [List.nil_append, List.length_nil] at hseg
  rw [hseg]
  have h0 : e.file_size - cs.length * cluster_size g = 0 := by omega
  rw [h0, loop_file_last_zero g f t _ _ ht]
  simp

theorem padTo_length (n : Nat) (l : List Nat) (h : l.length ≤ n) : (padTo n l).length = n := by
  unfold padTo
  rw [List.length_append, List.length_replicate]
  omega

theorem bigVol_loaded : loaded bigVol := by
  refine ⟨?_, ?_, ?_⟩
  · show bigFAT.length = _
    unfold bigFAT
    rw [padTo_length _ _ (by decide!)]
    decide
  · show bigRoot.length = _
    unfold bigRoot
    rw [padTo_length _ _ (by decide!)]
    decide
  · show bigData.length = _
    unfold bigData
    rw [List.length_replicate]
    decide

theorem bigVol_contents :
    getContents lp64 bigVol 130 (.entry bigEntry) =
      .ok (some (((List.range' 2 129).flatMap (cluster bigVol)).take 2147483648 ++ [0])) := by
  have hsz : bigEntry.file_size = 2147483648 := by decide!
  have hcs : cluster_size bigVol = 16703520 := by decide
  have hlen : bigVol.dataSection.length = 2171457600 := by
    show bigData.length = _
    unfold bigData
    rw [List.length_replicate]
  have h := getContents_file_eq lp64 bigVol bigEntry (List.range' 2 129) 0xfff 130
    (by rw [hlen]; decide) (by decide!)
    (by rw [show bigEntry.first_cluster_address_low = 2 by decide!]; exact bigFAT_chain)
    (by
      intro c hc
      obtain ⟨i, hi, rfl⟩ := List.mem_range'.1 hc
      refine ⟨?_, ?_, ?_⟩
      · simp only [used_entry, decide_eq_true_eq]; omega
      · omega
      · rw [hcs, hlen]; omega)
    (by decide) (by rw [hsz, hcs, List.length_range']; decide) rfl
    (by rw [List.length_range']; decide)
  rw [hsz] at h
  exact h

/-- C16, as stated, fails: `fileRead` returns an `int32_t` and keeps the cursor
in an `int`. For `BIG.BIN` of `bigVol` (2^31 bytes in a well-formed chain), at
cursor 0, with a buffer of 2^31 bytes, `size` 1 and `items` 2^31, the claim gives
n = 2^31, but `fileRead` returns -2^31 and leaves the cursor at -2^31. -/
theorem fileRead_return_wraps :
    loaded bigVol ∧ bigHandle._size = 2147483648 ∧ bigEntry.file_size = 2147483648 ∧
      bigBuffer.length = 2147483648 ∧
      (∃ contents, getContents lp64 bigVol 130 bigHandle._entry = .ok (some contents)) ∧
      (fileRead lp64 x86_64 bigVol 130 (some bigBuffer) 1 2147483648
          (some bigHandle)).toOption.map
          (fun r => (r.ret, r.handle.map fun h => h._position)) =
        some (-2147483648, some (-2147483648)) := by
  have hbl : bigBuffer.length = 2147483648 := by
    unfold bigBuffer
    rw [List.length_replicate]
  have hsz : bigEntry.file_size = 2147483648 := by decide!
  refine ⟨bigVol_loaded, rfl, hsz, hbl, ⟨_, bigVol_contents⟩, ?_⟩
  have hrun := fileRead_run lp64 x86_64 bigVol 130 bigBuffer _ 1 2147483648 0 bigHandle bigEntry
    (by decide) rfl rfl rfl (by decide!) hsz.symm rfl (by decide) (by decide) bigVol_contents
    (by decide) (by decide) (by rw [hbl]; decide)
  rw [hrun]
  decide

/-- Witness of C16: reading 1 * 3 bytes at cursor 130 of `HELLO.TXT`, and at
cursor 0 of `BIG.BIN`, a file of 2^31 bytes. -/
theorem fileRead_spec_witness :
    fileRead lp64 x86_64 demo 3 (some [9, 9, 9, 9]) 1 3
          (some { helloHandle with _position := 130 }) =
        .ok { ret := (min (1 * 3) ({ helloHandle with _position := 130 }._size - 130) : Nat)
              buffer := some ((helloContents.drop 130).take
                  (min (1 * 3) ({ helloHandle with _position := 130 }._size - 130)) ++
                [9, 9, 9, 9].drop
                  (min (1 * 3) ({ helloHandle with _position := 130 }._size - 130)))
              handle := some { { helloHandle with _position := 130 } with
                _position := ((130 + min (1 * 3)
                  ({ helloHandle with _position := 130 }._size - 130) : Nat) : Int) } } ∧
      fileRead lp64 x86_64 bigVol 130 (some [9, 9, 9, 9]) 1 3 (some bigHandle) =
        .ok { ret := (min (1 * 3) (bigHandle._size - 0) : Nat)
              buffer := some (((((List.range' 2 129).flatMap (cluster bigVol)).take 2147483648 ++
                  [0]).drop 0).take (min (1 * 3) (bigHandle._size - 0)) ++
                [9, 9, 9, 9].drop (min (1 * 3) (bigHandle._size - 0)))
              handle := some { bigHandle with
                _position := ((0 + min (1 * 3) (bigHandle._size - 0) : Nat) : Int) } } :=
  ⟨((fileRead_spec lp64 x86_64 demo 3 [9, 9, 9, 9] helloContents 1 3 130
      { helloHandle with _position := 130 } (demoEntry 1)
      (by decide) rfl rfl rfl (by decide!) (by decide!) rfl (by decide) (by decide!)
      (by decide) (by decide) (by decide) (by decide)).2 (by decide) (by decide)).1,
   ((fileRead_spec lp64 x86_64 bigVol 130 [9, 9, 9, 9] _ 1 3 0 bigHandle bigEntry
      (by decide) rfl rfl rfl (by decide!) (by decide!) rfl (by decide) bigVol_contents
      (by decide) (by decide) (by decide) (by decide)).2 (by decide) (by decide)).1⟩

/-! ### Path resolution along directories -/

theorem sameVolume_refl (g : global_data_t) : sameVolume g g := ⟨rfl, rfl, rfl, rfl⟩

theorem sameVolume_symm {g1 g2 : global_data_t} (h : sameVolume g1 g2) : sameVolume g2 g1 :=
  ⟨h.1.symm, h.2.1.symm, h.2.2.1.symm, h.2.2.2.symm⟩

theorem sameVolume_trans {g1 g2 g3 : global_data_t} (h : sameVolume g1 g2)
    (h' : sameVolume g2 g3) : sameVolume g1 g3 :=
  ⟨h.1.trans h'.1, h.2.1.trans h'.2.1, h.2.2.1.trans h'.2.2.1, h.2.2.2.trans h'.2.2.2⟩

theorem cluster_size_congr {g1 g2 : global_data_t} (h : sameVolume g1 g2) :
    cluster_size g1 = cluster_size g2 := by
  unfold cluster_size
  rw [h.1]

theorem getContents_loop_congr {g1 g2 : global_data_t} (h : sameVolume g1 g2)
    (isDirectory : Bool) :
    ∀ (fuel v rem dr : Nat) (contents : List Nat),
      getContents_loop g1 isDirectory fuel v rem dr contents =
        getContents_loop g2 isDirectory fuel v rem dr contents
  | 0, _, _, _, _ => by simp [getContents_loop]
  | fuel + 1, v, rem, dr, contents => by
    rw [getContents_loop, getContents_loop]
    simp only [cluster_size_congr h, h.2.1, h.2.2.1,
      getContents_loop_congr h isDirectory fuel]

theorem getContents_congr (p : Platform) {g1 g2 : global_data_t} (h : sameVolume g1 g2)
    (fuel : Nat) (d : DirPtr) : getContents p g1 fuel d = getContents p g2 fuel d := by
  cases d with
  | null => simp [getContents, h.2.2.2]
  | torn lo hi => simp [getContents]
  | entry e =>
    simp only [getContents, countFATentries, cluster_size_congr h, h.2.1]
    congr 1
    funext n
    rw [getContents_loop_congr h]

theorem findEntry_congr (p : Platform) {g1 g2 : global_data_t} (h : sameVolume g1 g2)
    (hd : getCurrentDir g1 = getCurrentDir g2) (fuel : Nat) (name : Option (List Nat)) :
    findEntry p g1 fuel name = findEntry p g2 fuel name := by
  cases name with
  | none => rfl
  | some name =>
    simp only [findEntry, hd]
    split
    · rfl
    · split
      · rfl
      · rw [getContents_congr p h]

theorem findEntry_in_directory (p : Platform) (g g0 : global_data_t) (h : sameVolume g g0)
    (dir : DirPtr) (hd : getCurrentDir g = some dir) (fuel : Nat) (name : Option (List Nat)) :
    findEntry p g fuel name = findEntry p (in_directory g0 dir) fuel name := by
  apply findEntry_congr p _ _
  · exact ⟨h.1, h.2.1, h.2.2.1, h.2.2.2⟩
  · rw [hd]; rfl

theorem cstr_of_no_zero (l : List Nat) (h : ∀ c ∈ l, c ≠ 0) : cstr l = l := by
  unfold cstr
  induction l with
  | nil => rfl
  | cons a as ih =>
    have ha : (a != 0) = true := by simpa using h a (List.mem_cons_self _ _)
    rw [List.takeWhile_cons, ha, if_pos rfl, ih (fun c hc => h c (List.mem_cons_of_mem _ hc))]

theorem strtokAux_append (delim : Nat) :
    ∀ (d rest cur : List Nat), (∀ c ∈ d, c ≠ delim) →
      strtokAux delim (d ++ rest) cur = strtokAux delim rest (d.reverse ++ cur)
  | [], _, _, _ => rfl
  | a :: as, rest, cur, h => by
    have ha := h a (List.mem_cons_self _ _)
    rw [List.cons_append, strtokAux, if_neg ha,
      strtokAux_append delim as rest (a :: cur) (fun c hc => h c (List.mem_cons_of_mem _ hc))]
    simp

/-- The tokens of `/d1/d2/.../dk` are `d1`, ..., `dk`. -/
theorem strtokAux_spec_path :
    ∀ (ds : List (List Nat)) (cur : List Nat),
      (∀ d ∈ ds, d ≠ [] ∧ ∀ c ∈ d, c ≠ 47 ∧ c ≠ 0) →
      strtokAux 47 (spec_path ds) cur = (if cur = [] then [] else [cur.reverse]) ++ ds
  | [], cur, _ => by
    simp only [spec_path, List.flatMap_nil, strtokAux, List.append_nil]
  | d :: ds, cur, h => by
    obtain ⟨hne, hc⟩ := h d (List.mem_cons_self _ _)
    have hrest := strtokAux_spec_path ds d.reverse (fun x hx => h x (List.mem_cons_of_mem _ hx))
    have hrev : d.reverse ≠ [] := by simpa using hne
    have hstep : strtokAux 47 (d ++ spec_path ds) [] = d :: ds := by
      rw [strtokAux_append 47 d _ [] (fun c hc' => (hc c hc').1), List.append_nil, hrest,
        if_neg hrev, List.reverse_reverse]
      rfl
    have hsp : spec_path (d :: ds) = 47 :: (d ++ spec_path ds) := by
      simp [spec_path]
    rw [hsp, strtokAux, if_pos rfl]
    split
    · rw [hstep]; rfl
    · rw [hstep]; rfl

theorem spec_path_no_zero (ds : List (List Nat))
    (h : ∀ d ∈ ds, d ≠ [] ∧ ∀ c ∈ d, c ≠ 47 ∧ c ≠ 0) : ∀ c ∈ spec_path ds, c ≠ 0 := by
  intro c hc
  simp only [spec_path, List.mem_flatMap, List.mem_cons] at hc
  obtain ⟨d, hd, hc | hc⟩ := hc
  · omega
  · exact ((h d hd).2 c hc).2

theorem strtok_spec_path (ds : List (List Nat))
    (h : ∀ d ∈ ds, d ≠ [] ∧ ∀ c ∈ d, c ≠ 47 ∧ c ≠ 0) : strtok (spec_path ds) 47 = ds := by
  unfold strtok
  rw [cstr_of_no_zero _ (spec_path_no_zero ds h), strtokAux_spec_path ds [] h]
  rfl

theorem strtok_name (d : List Nat) (hne : d ≠ []) (h : ∀ c ∈ d, c ≠ 47 ∧ c ≠ 0) :
    strtok d 47 = [d] := by
  unfold strtok
  rw [cstr_of_no_zero _ (fun c hc => (h c hc).2)]
  have := strtokAux_append 47 d [] [] (fun c hc => (h c hc).1)
  rw [List.append_nil, List.append_nil] at this
  rw [this, strtokAux, if_neg (by simpa using hne), List.reverse_reverse]

theorem take_set_self {α : Type} (l : List α) (n : Nat) (a : α) :
    (l.set n a).take n = l.take n := by
  rw [List.set_take]
  exact List.set_eq_of_length_le (by simp)

theorem findEntry_some_ne_dot {p : Platform} {g : global_data_t} {fuel : Nat} {d : List Nat}
    {e : FileEntry} (h : findEntry p g fuel (some d) = .ok (some e)) :
    d ≠ [46] ∧ d ≠ [46, 46] := by
  constructor
  · rintro rfl
    simp [findEntry, cstr] at h
  · rintro rfl
    simp [findEntry, cstr] at h

theorem isDirPath_cons_iff (p : Platform) (g : global_data_t) (fuel : Nat) (dir : DirPtr)
    (d : List Nat) (ds : List (List Nat)) (e : FileEntry) (es : List FileEntry) :
    isDirPath p g fuel dir (d :: ds) (e :: es) = true ↔
      findEntry p (in_directory g dir) fuel (some d) = .ok (some e) ∧ is_directory e = true ∧
        isDirPath p g fuel (.entry e) ds es = true := by
  simp [isDirPath, and_assoc]

theorem isDirPath_length (p : Platform) (g : global_data_t) (fuel : Nat) :
    ∀ (ds : List (List Nat)) (es : List FileEntry) (dir : DirPtr),
      isDirPath p g fuel dir ds es = true → es.length = ds.length
  | [], [], _, _ => rfl
  | [], _ :: _, _, h => by simp [isDirPath] at h
  | _ :: _, [], _, h => by simp [isDirPath] at h
  | d :: ds, e :: es, dir, h => by
    rw [isDirPath_cons_iff] at h
    simp [isDirPath_length p g fuel ds es _ h.2.2]

/-- The last lookup along a path of directories: the last name is found in the
directory before the last one. -/
theorem isDirPath_last (p : Platform) (g : global_data_t) (fuel : Nat) :
    ∀ (ds : List (List Nat)) (es : List FileEntry) (dir : DirPtr) (fc : Option (List Nat)),
      isDirPath p g fuel dir ds es = true → ds ≠ [] →
      ∃ dprev dl el, final_chunk_of fc ds = some dl ∧
        (dir :: es.map DirPtr.entry)[ds.length - 1]? = some dprev ∧
        (dir :: es.map DirPtr.entry)[ds.length]? = some (.entry el) ∧
        findEntry p (in_directory g dprev) fuel (some dl) = .ok (some el) ∧
        is_directory el = true
  | [], _, _, _, _, hne => absurd rfl hne
  | _ :: _, [], _, _, h, _ => by simp [isDirPath] at h
  | [d], e :: es, dir, fc, h, _ => by
    rw [isDirPath_cons_iff] at h
    exact ⟨dir, d, e, rfl, by simp, by simp, h.1, h.2.1⟩
  | d :: d' :: ds, e :: es, dir, fc, h, _ => by
    rw [isDirPath_cons_iff] at h
    obtain ⟨dprev, dl, el, h1, h2, h3, h4, h5⟩ :=
      isDirPath_last p g fuel (d' :: ds) es (.entry e) (some d) h.2.2 (by simp)
    refine ⟨dprev, dl, el, h1, ?_, ?_, h4, h5⟩
    · simpa using h2
    · simpa using h3

/-- The loop of `goAndFetch` along a path of directories: every name is pushed. -/
theorem goAndFetch_walk_dirs (p : Platform) (fuel : Nat) (g0 : global_data_t) :
    ∀ (ds : List (List Nat)) (es : List FileEntry) (g : global_data_t) (dir : DirPtr)
      (fc : Option (List Nat)),
      sameVolume g g0 → g.directoryHistory.length = MAX_DEPTH →
      g.historyIndex + ds.length < MAX_DEPTH →
      g.directoryHistory[g.historyIndex]? = some dir →
      isDirPath p g0 fuel dir ds es = true →
      ∃ g1, goAndFetch_walk p fuel ds g fc = .ok (.left (final_chunk_of fc ds) false, g1) ∧
        sameVolume g1 g0 ∧ g1.historyIndex = g.historyIndex + ds.length ∧
        g1.directoryHistory = g.directoryHistory.take g.historyIndex ++
          (dir :: es.map DirPtr.entry) ++
          g.directoryHistory.drop (g.historyIndex + 1 + ds.length) ∧
        g1.historyBackup = g.historyBackup ∧ g1.historyIndexBackup = g.historyIndexBackup
  | [], [], g, dir, fc, hv, hlen, hi, hdir, _ => by
    refine ⟨g, rfl, hv, rfl, ?_, rfl, rfl⟩
    have h1 : List.take (g.historyIndex + 1) g.directoryHistory =
        List.take g.historyIndex g.directoryHistory ++ [dir] := by
      rw [List.take_succ, hdir]; rfl
    have h2 := List.take_append_drop (g.historyIndex + 1) g.directoryHistory
    rw [h1] at h2
    simpa using h2.symm
  | [], _ :: _, _, _, _, _, _, _, _, h => by simp [isDirPath] at h
  | _ :: _, [], _, _, _, _, _, _, _, h => by simp [isDirPath] at h
  | d :: ds, e :: es, g, dir, fc, hv, hlen, hi, hdir, h => by
    rw [isDirPath_cons_iff] at h
    obtain ⟨hf, hisd, hrest⟩ := h
    have hne := findEntry_some_ne_dot hf
    have hfind : findEntry p g fuel (some d) = .ok (some e) := by
      rw [findEntry_in_directory p g g0 hv dir hdir]; exact hf
    simp only [List.length_cons] at hi
    have hmod : (g.historyIndex + 1) % 2 ^ 32 = g.historyIndex + 1 := by
      apply Nat.mod_eq_of_lt
      have : MAX_DEPTH = 100 := rfl
      omega
    have hlt : g.historyIndex + 1 < g.directoryHistory.length := by omega
    obtain ⟨g1, hw, hv1, hi1, hd1, hb1, hib1⟩ :=
      goAndFetch_walk_dirs p fuel g0 ds es
        { g with historyIndex := g.historyIndex + 1
                 directoryHistory := g.directoryHistory.set (g.historyIndex + 1) (.entry e) }
        (.entry e) (some d) hv (by simpa using hlen) (by simp only; omega)
        (by simp only; exact List.getElem?_set_self hlt) hrest
    dsimp only at hi1 hd1 hb1 hib1
    refine ⟨g1, ?_, hv1, ?_, ?_, hb1, hib1⟩
    · rw [goAndFetch_walk, if_neg hne.1, if_neg hne.2, hfind]
      simp only [hisd, hmod, hlt, if_true, Bool.true_eq_false, if_false]
      exact hw
    · rw [hi1]; simp only [List.length_cons]; omega
    · rw [hd1]
      simp only [List.length_cons]
      rw [List.drop_set_of_lt _ _ (by omega), take_set_self,
        List.take_succ, hdir]
      have : g.historyIndex + 1 + 1 + ds.length = g.historyIndex + 1 + (ds.length + 1) := by omega
      rw [this]
      simp

/-- The command `cd path` for a path whose tokens lead down through directories,
from slot `j` of the stack (slot 0 for a path that starts with a slash). -/
theorem cd_tokens (p : Platform) (fuel : Nat) (g0 g : global_data_t) (path : List Nat)
    (ds : List (List Nat)) (es : List FileEntry) (dir : DirPtr) (j : Nat)
    (halloc : ∀ n, p.calloc n = true) (hv : sameVolume g g0)
    (hlen : g.directoryHistory.length = MAX_DEPTH)
    (htok : strtok path 47 = ds) (hne : ds ≠ [])
    (hj : (if path.head? = some 47 then 0 else g.historyIndex) = j)
    (hjm : j + ds.length < MAX_DEPTH)
    (hdir : g.directoryHistory[j]? = some dir)
    (hpath : isDirPath p g0 fuel dir ds es = true) :
    ∃ g1, handleCommand_cd p fuel g (some path) = .ok (.entered, g1) ∧ sameVolume g1 g0 ∧
      g1.directoryHistory.length = MAX_DEPTH ∧ g1.historyIndex = j + ds.length ∧
      g1.directoryHistory = g.directoryHistory.take j ++ (dir :: es.map DirPtr.entry) ++
        g.directoryHistory.drop (j + 1 + ds.length) := by
  obtain ⟨gs, hgs⟩ : ∃ gs : global_data_t, gs =
      if path.head? = some 47 then { makeHistoryBackup p g with historyIndex := 0 }
      else makeHistoryBackup p g := ⟨_, rfl⟩
  have hgv : sameVolume gs g0 := by
    rw [hgs]; split <;> exact hv
  have hgd : gs.directoryHistory = g.directoryHistory := by
    rw [hgs]; split <;> rfl
  have hgi : gs.historyIndex = j := by
    rw [hgs, ← hj]; split <;> rfl
  have hM : MAX_DEPTH = 100 := rfl
  obtain ⟨g1, hw, hv1, hi1, hd1, -, -⟩ :=
    goAndFetch_walk_dirs p fuel g0 ds es gs dir none hgv (by rw [hgd]; exact hlen)
      (by rw [hgi]; exact hjm) (by rw [hgd, hgi]; exact hdir) hpath
  rw [hgd, hgi] at hd1
  rw [hgi] at hi1
  obtain ⟨dprev, dl, el, hfc, hprev, hlast, hfind, hisd⟩ :=
    isDirPath_last p g0 fuel ds es dir none hpath hne
  have hlenes := isDirPath_length p g0 fuel ds es dir hpath
  have hm : 0 < ds.length := List.length_pos.mpr hne
  have htake : (g.directoryHistory.take j).length = j := by
    rw [List.length_take]; omega
  have hslot : ∀ k, k ≤ ds.length →
      g1.directoryHistory[j + k]? = (dir :: es.map DirPtr.entry)[k]? := by
    intro k hk
    rw [hd1, List.append_assoc, List.getElem?_append_right (by omega), htake,
      List.getElem?_append_left (by simp; omega)]
    congr 1
    omega
  have hl1 : g1.directoryHistory.length = MAX_DEPTH := by
    rw [hd1]
    simp only [List.length_append, List.length_take, List.length_cons, List.length_map,
      List.length_drop]
    omega
  refine ⟨g1, ?_, hv1, hl1, hi1, hd1⟩
  have hgo : goAndFetch p fuel g (some path) false =
      .ok (.handle { _entry := .entry el, _position := 0,
                     _type := if is_directory el then .directory else .file,
                     _size := el.file_size, _opened := true },
           { g1 with historyIndex := g1.historyIndex - 1 }) := by
    simp only [goAndFetch, halloc, Bool.true_eq_false, if_false, htok]
    rw [← hgs, hw]
    have hpos : g1.historyIndex > 0 := by omega
    simp only [Res.bind, hfc, hpos, true_and, ne_eq, not_false_eq_true, if_true,
      reduceCtorEq, false_and, if_false]
    have hcur : getCurrentDir { g1 with historyIndex := g1.historyIndex - 1 } = some dprev := by
      show g1.directoryHistory[g1.historyIndex - 1]? = some dprev
      rw [hi1, show j + ds.length - 1 = j + (ds.length - 1) by omega, hslot _ (by omega)]
      exact hprev
    have hv2 : sameVolume { g1 with historyIndex := g1.historyIndex - 1 } g0 := hv1
    rw [findEntry_in_directory p _ g0 hv2 dprev hcur, hfind]
  rw [handleCommand_cd]
  simp only [hgo, Res.bind, hisd, Bool.true_eq_false, if_false]
  have hidx : (g1.historyIndex - 1 + 1) % 2 ^ 32 = j + ds.length := by
    rw [hi1, Nat.mod_eq_of_lt (by omega)]; omega
  simp only [hidx]
  rw [if_neg (by omega), if_pos (by omega)]
  have hset : g1.directoryHistory.set (j + ds.length) (.entry el) = g1.directoryHistory := by
    apply List.ext_getElem? 
    intro k
    by_cases hk : j + ds.length = k
    · subst hk
      rw [List.getElem?_set_self (by omega), hslot _ (le_refl _), hlast]
    · rw [List.getElem?_set_ne hk]
  rw [hset]
  congr 2
  cases g1
  simp only at hi1 ⊢
  rw [hi1]

/-- The command `cd /` arrives at the root from every stack. -/
theorem cd_root (p : Platform) (fuel : Nat) (g : global_data_t)
    (halloc : ∀ n, p.calloc n = true) :
    handleCommand_cd p fuel g (some [47]) =
      .ok (.arrived_at_root, { makeHistoryBackup p g with historyIndex := 0 }) := by
  have htok : strtok [47] 47 = [] := by decide
  simp [handleCommand_cd, goAndFetch, halloc, htok, goAndFetch_walk, Res.bind]

theorem take_splice {α : Type} (L M D : List α) (j : Nat) (x : α) (hx : L[j]? = some x) :
    (L.take j ++ (x :: M) ++ D).take (j + 1 + M.length) = L.take (j + 1) ++ M := by
  have hj : j < L.length := by
    by_contra h
    rw [List.getElem?_eq_none (by omega)] at hx
    cases hx
  rw [List.take_succ, hx]
  have e : L.take j ++ x :: M ++ D = (L.take j ++ (some x).toList ++ M) ++ D := by
    simp [Option.toList]
  rw [e]
  apply List.take_left'
  simp only [List.length_append, List.length_take, List.length_cons, Option.toList,
    List.length_nil]
  omega

/-- The commands `cd d1`, ..., `cd dk` along a path of directories push one
directory each. -/
theorem cd_sequence_dirs (p : Platform) (fuel : Nat) (g0 : global_data_t)
    (halloc : ∀ n, p.calloc n = true) :
    ∀ (ds : List (List Nat)) (es : List FileEntry) (g : global_data_t) (dir : DirPtr),
      sameVolume g g0 → g.directoryHistory.length = MAX_DEPTH →
      g.historyIndex + ds.length < MAX_DEPTH →
      g.directoryHistory[g.historyIndex]? = some dir →
      (∀ d ∈ ds, d ≠ [] ∧ ∀ c ∈ d, c ≠ 47 ∧ c ≠ 0) →
      isDirPath p g0 fuel dir ds es = true →
      ∃ g2, cd_sequence p fuel g ds = .ok g2 ∧ stack g2 = stack g ++ es.map DirPtr.entry
  | [], [], g, _, _, _, _, _, _, _ => ⟨g, rfl, by simp⟩
  | [], _ :: _, _, _, _, _, _, _, _, h => by simp [isDirPath] at h
  | _ :: _, [], _, _, _, _, _, _, _, h => by simp [isDirPath] at h
  | d :: ds, e :: es, g, dir, hv, hlen, hi, hdir, hnames, h => by
    have hM : MAX_DEPTH = 100 := rfl
    simp only [List.length_cons] at hi
    obtain ⟨hdne, hdc⟩ := hnames d (List.mem_cons_self _ _)
    have h' := (isDirPath_cons_iff p g0 fuel dir d ds e es).mp h
    have hone : isDirPath p g0 fuel dir [d] [e] = true := by
      rw [isDirPath_cons_iff]; exact ⟨h'.1, h'.2.1, rfl⟩
    have hhead : (if d.head? = some 47 then 0 else g.historyIndex) = g.historyIndex := by
      rw [if_neg]
      intro hh
      cases d with
      | nil => exact hdne rfl
      | cons a as =>
        simp only [List.head?_cons, Option.some.injEq] at hh
        exact (hdc a (List.mem_cons_self _ _)).1 hh
    obtain ⟨g1, hcd, hv1, hl1, hi1, hd1⟩ :=
      cd_tokens p fuel g0 g d [d] [e] dir g.historyIndex halloc hv hlen
        (strtok_name d hdne hdc) (by simp) hhead (by simp only [List.length_cons, List.length_nil]; omega)
        hdir hone
    simp only [List.length_cons, List.length_nil] at hi1 hd1
    have hstack1 : stack g1 = stack g ++ [.entry e] := by
      have := take_splice g.directoryHistory [.entry e]
        (g.directoryHistory.drop (g.historyIndex + 1 + (0 + 1))) g.historyIndex dir hdir
      simp only [List.length_cons, List.length_nil, List.map_cons, List.map_nil] at this hd1
      rw [stack, hi1, hd1, stack]
      exact this
    have hcur1 : g1.directoryHistory[g1.historyIndex]? = some (.entry e) := by
      have hlt : g.historyIndex < g.directoryHistory.length := by omega
      rw [hi1, hd1, List.append_assoc, List.getElem?_append_right (by simp),
        List.length_take, min_eq_left (by omega)]
      simp
    obtain ⟨g2, hseq, hstack2⟩ :=
      cd_sequence_dirs p fuel g0 halloc ds es g1 (.entry e) hv1 hl1 (by omega) hcur1
        (fun x hx => hnames x (List.mem_cons_of_mem _ hx)) h'.2.2
    refine ⟨g2, ?_, ?_⟩
    · rw [cd_sequence, hcd]
      exact hseq
    · rw [hstack2, hstack1]
      simp

/-- Paths along directories that the lookup of the code finds. For every volume
and every starting stack (of `MAX_DEPTH` slots with the root in slot 0), and all
names `d1`, ..., `dk` with `k < MAX_DEPTH` such that `findEntry` returns for
`d1` a directory of the root and for each next name a directory of the one
before: the command `cd /d1/d2/.../dk` and the commands `cd /`, `cd d1`, ...,
`cd dk` both end with the working-directory stack `[root, d1, ..., dk]`. -/
theorem cd_path_eq_cd_sequence (p : Platform) (fuel : Nat) (g : global_data_t)
    (ds : List (List Nat)) (es : List FileEntry)
    (halloc : ∀ n, p.calloc n = true)
    (hlen : g.directoryHistory.length = MAX_DEPTH)
    (hroot : g.directoryHistory[0]? = some .null)
    (hk : ds.length < MAX_DEPTH)
    (hnames : ∀ d ∈ ds, d ≠ [] ∧ ∀ c ∈ d, c ≠ 47 ∧ c ≠ 0)
    (hpath : isDirPath p g fuel .null ds es = true) :
    ∃ r g2, handleCommand_cd p fuel g (some (abs_path ds)) = .ok r ∧
      cd_sequence p fuel g ([47] :: ds) = .ok g2 ∧
      stack r.2 = .null :: es.map DirPtr.entry ∧ stack g2 = .null :: es.map DirPtr.entry := by
  have hM : MAX_DEPTH = 100 := rfl
  have hseq : ∃ g2, cd_sequence p fuel g ([47] :: ds) = .ok g2 ∧
      stack g2 = .null :: es.map DirPtr.entry := by
    obtain ⟨g2, h1, h2⟩ :=
      cd_sequence_dirs p fuel g halloc ds es { makeHistoryBackup p g with historyIndex := 0 }
        .null (sameVolume_refl g) hlen (by simp only; omega) hroot hnames hpath
    refine ⟨g2, ?_, ?_⟩
    · rw [cd_sequence, cd_root p fuel g halloc]
      exact h1
    · rw [h2]
      have : stack { makeHistoryBackup p g with historyIndex := 0 } = [.null] := by
        show g.directoryHistory.take 1 = [.null]
        rw [List.take_succ, hroot]; rfl
      rw [this]; rfl
  obtain ⟨g2, hs1, hs2⟩ := hseq
  by_cases hne : ds = []
  · subst hne
    have hes : es = [] := List.length_eq_zero.mp (isDirPath_length p g fuel [] es _ hpath)
    subst hes
    refine ⟨_, g2, cd_root p fuel g halloc, hs1, ?_, hs2⟩
    show g.directoryHistory.take 1 = [.null]
    rw [List.take_succ, hroot]; rfl
  · have hhead : (if (abs_path ds).head? = some 47 then 0 else g.historyIndex) = 0 := by
      rw [if_pos]
      cases ds with
      | nil => exact absurd rfl hne
      | cons d ds => simp [abs_path, spec_path]
    have htok : strtok (abs_path ds) 47 = ds := by
      rw [abs_path, if_neg hne]; exact strtok_spec_path ds hnames
    obtain ⟨g1, hcd, -, -, hi1, hd1⟩ :=
      cd_tokens p fuel g g (abs_path ds) ds es .null 0 halloc (sameVolume_refl g) hlen htok hne
        hhead (by omega) hroot hpath
    refine ⟨(.entered, g1), g2, hcd, hs1, ?_, hs2⟩
    have hlenes := isDirPath_length p g fuel ds es _ hpath
    have := take_splice g.directoryHistory (es.map DirPtr.entry)
      (g.directoryHistory.drop (0 + 1 + ds.length)) 0 .null hroot
    show g1.directoryHistory.take (g1.historyIndex + 1) = _
    rw [hi1, hd1, show 0 + ds.length + 1 = 0 + 1 + (es.map DirPtr.entry).length by
      rw [List.length_map, hlenes]; omega, this, List.take_succ, hroot]
    rfl

/-- An instance: `cd /a/b` and `cd /`, `cd a`, `cd b` on the example volume. -/
theorem cd_path_eq_cd_sequence_witness :
    ∃ r g2, handleCommand_cd lp64 3 demo (some (abs_path [str "a", str "b"])) = .ok r ∧
      cd_sequence lp64 3 demo ([47] :: [str "a", str "b"]) = .ok g2 ∧
      stack r.2 = .null :: [demoEntry 0, demoDirEntry 0 1].map DirPtr.entry ∧
      stack g2 = .null :: [demoEntry 0, demoDirEntry 0 1].map DirPtr.entry :=
  cd_path_eq_cd_sequence lp64 3 demo [str "a", str "b"] [demoEntry 0, demoDirEntry 0 1]
    (fun _ => rfl) (by decide!) (by decide!) (by decide!) (by decide!) (by decide!)

/-- C12 fails on the code. In `demoR` the root holds the directory `R` with the
attribute byte 0x11 (`DIRECTORY` and `READ_ONLY`), which is not skippable by the
specification; `skippable` tests `file_attributes & LONG_FILENAME`, so
`findEntry("r")` does not find it. From the working directory `/a/` the command
`cd /r` reports that `/r` does not exist and leaves the stack `[root, A]`, the
commands `cd /`, `cd r` leave the stack `[root]`: the two stacks differ and
neither is `[root, R]`. -/
theorem cd_path_read_only_directory :
    is_directory (rootEntry demoR 6) = true ∧ (rootEntry demoR 6).file_attributes = 0x11 ∧
      lastEntry (rootEntry demoR 6) = false ∧ spec_skippable (rootEntry demoR 6) = false ∧
      (getFilename lp64 (rootEntry demoR 6)).map cstr = some (str "r") ∧
      spec_findEntry lp64 (str "r") (entriesOf demoR.rootEntries) = some (rootEntry demoR 6) ∧
      skippable (rootEntry demoR 6) = true ∧
      (cd_a_times lp64 3 1 demoR).toOption.map stack_clusters = some [some 0, some 2] ∧
      ((cd_a_times lp64 3 1 demoR).bind fun g =>
          handleCommand_cd lp64 3 g (some (abs_path [str "r"]))).toOption.map
          (fun r => (r.1, stack_clusters r.2)) =
        some (CdReport.doesnt_exist, [some 0, some 2]) ∧
      ((cd_a_times lp64 3 1 demoR).bind fun g =>
          cd_sequence lp64 3 g [str "/", str "r"]).toOption.map stack_clusters =
        some [some 0] := by
  decide!

/-! ### The loader -/

theorem fread_bytes_length (stream : List Nat) (n : Nat) : (fread_bytes stream n).1.length = n := by
  simp only [fread_bytes, List.length_append, List.length_take, List.length_replicate]
  omega

theorem loadDiskImage_FATs_length (p : Platform) (FAT_in_bytes : Nat) :
    ∀ (n : Nat) (stream : List Nat) (FATs : List (List Nat)) (rest : List Nat),
      loadDiskImage_FATs p FAT_in_bytes n stream = some (FATs, rest) →
      ∀ FAT ∈ FATs, FAT.length = FAT_in_bytes
  | 0, _, FATs, rest, h => by
    simp only [loadDiskImage_FATs, Option.some.injEq, Prod.mk.injEq] at h
    intro FAT hF
    rw [← h.1] at hF
    cases hF
  | n + 1, stream, FATs, rest, h => by
    rw [loadDiskImage_FATs] at h
    split at h
    · cases h
    · split at h
      · cases h
      · next F r hrec =>
        simp only [Option.some.injEq, Prod.mk.injEq] at h
        intro FAT hF
        rw [← h.1] at hF
        rcases List.mem_cons.1 hF with rfl | hF
        · exact fread_bytes_length _ _
        · exact loadDiskImage_FATs_length p FAT_in_bytes n _ F r hrec FAT hF

/-- When `loadDiskImage` returns 0 the globals hold a volume whose buffers have
the sizes of `loaded`, with the working directory at the root. -/
theorem loadDiskImage_loaded (p : Platform) (image : Option (List Nat)) (s : ProgramState)
    (h : loadDiskImage p image = .ok (0, s)) :
    ∃ g, s.volume = some g ∧ s.BS_freed = false ∧ loaded g ∧
      g.directoryHistory = List.replicate MAX_DEPTH .null ∧ g.historyIndex = 0 := by
  unfold loadDiskImage at h
  split at h
  · cases h
  · next diskFile =>
    split at h
    · cases h
    · simp only at h
      split at h
      · cases h
      · split at h
        · cases h
        · cases h
        · next FAT FATs stream hF =>
          split at h
          · cases h
          · split at h
            · cases h
            · split at h
              · cases h
              · split at h
                · cases h
                · simp only [Res.ok.injEq, Prod.mk.injEq, true_and] at h
                  subst h
                  refine ⟨_, rfl, rfl, ⟨?_, ?_, ?_⟩, rfl, rfl⟩
                  · exact loadDiskImage_FATs_length p _ _ _ _ _ hF FAT (List.mem_cons_self _ _)
                  · simp only [fread_bytes_length]
                    apply Nat.mod_eq_of_lt
                    simp only [BootSector.ofBytes, le16]
                    omega
                  · next hle =>
                    simp only [List.length_append, List.length_replicate, remaining_entries]
                    simp only [not_lt] at hle
                    omega

/-- C21 fails on the code: `main` calls `loadDiskImage(argv[1])` and discards the
value it returns. When the image cannot be opened `loadDiskImage` returns 1,
`main` goes on to `initGUI`, and with the input `exit` the exit code is 0 (for
every dispatcher, which is not called). Without an argument the exit code is 1;
with an argument it is never 1, whatever the image, the input and the
platform. -/
theorem main_ignores_load_failure :
    loadDiskImage lp64 none = .ok (1, ProgramState.start) ∧
      (∀ handleCommand, main lp64 handleCommand 1 2 none (str "exit" ++ [10]) = .ok 0) ∧
      (∀ handleCommand, main lp64 handleCommand 1 1 none (str "exit" ++ [10]) = .ok 1) ∧
      ∀ p handleCommand fuel argc image stdin,
        2 ≤ argc → main p handleCommand fuel argc image stdin ≠ .ok 1 := by
  refine ⟨rfl, fun _ => rfl, fun _ => rfl, ?_⟩
  · intro p hc fuel argc image stdin h
    rw [main, if_neg (by omega)]
    cases loadDiskImage p image with
    | ub => simp [Res.bind]
    | timeout => simp [Res.bind]
    | ok r =>
      simp only [Res.bind]
      cases initGUI hc fuel stdin r.2 with
      | ub => simp
      | timeout => simp
      | ok s =>
        simp only
        cases freeResources s with
        | ub => simp
        | timeout => simp
        | ok u => simp

/-! ### The chain walk after the last byte -/

theorem isChain_append {FAT : List Nat} :
    ∀ (l1 l2 : List Nat) (c t : Nat),
      isChain FAT c (l1 ++ l2) t = true ↔
        ∃ mid, isChain FAT c l1 mid = true ∧ isChain FAT mid l2 t = true
  | [], l2, c, t => by
    constructor
    · intro h
      exact ⟨c, isChain_nil.2 rfl, h⟩
    · rintro ⟨mid, h1, h2⟩
      rw [isChain_nil] at h1
      subst h1
      exact h2
  | x :: xs, l2, c, t => by
    rw [List.cons_append, isChain_cons]
    constructor
    · rintro ⟨hx, next, hn, hr⟩
      obtain ⟨mid, h1, h2⟩ := (isChain_append xs l2 next t).1 hr
      exact ⟨mid, isChain_cons.2 ⟨hx, next, hn, h1⟩, h2⟩
    · rintro ⟨mid, h1, h2⟩
      obtain ⟨hx, next, hn, hr⟩ := isChain_cons.1 h1
      exact ⟨hx, next, hn, (isChain_append xs l2 next t).2 ⟨mid, hr, h2⟩⟩

/-- With no byte left the file loop goes on along the chain, copying nothing. -/
theorem loop_file_zero_segment (g : global_data_t) :
    ∀ (rest : List Nat) (c t f dr : Nat) (contents : List Nat),
      isChain g.FAT c rest t = true →
      (∀ x ∈ rest, last_entry x = false ∧ bad_entry x = false) →
      dr < 2 ^ 32 →
      getContents_loop g false (rest.length + f) c 0 dr contents =
        getContents_loop g false f t 0 dr contents
  | [], c, t, f, dr, contents, h, _, _ => by
    rw [isChain_nil] at h
    subst h; simp
  | x :: xs, c, t, f, dr, contents, h, hs, hdr => by
    obtain ⟨hx, next, hn, hr⟩ := isChain_cons.1 h
    subst hx
    obtain ⟨h1, h2⟩ := hs x (List.mem_cons_self _ _)
    have hlen : (x :: xs).length + f = (xs.length + f) + 1 := by simp; omega
    have hm : memcpy contents dr g.dataSection
        (((x + 2 ^ 32 - 2) % 2 ^ 32 * cluster_size g) % 2 ^ 32)
        (if false = true then cluster_size g
         else if 0 > cluster_size g then cluster_size g else 0) = some contents := by
      simp [memcpy]
    rw [hlen, loop_step g false _ x 0 dr contents contents next h2 h1 hn hm]
    have e1 : (0 + 2 ^ 32 - (if false = true then cluster_size g
        else if 0 > cluster_size g then cluster_size g else 0)) % 2 ^ 32 = 0 := by
      simp
    have e2 : (dr + (if false = true then cluster_size g
        else if 0 > cluster_size g then cluster_size g else 0)) % 2 ^ 32 = dr := by
      simp only [Bool.false_eq_true, if_false, Nat.not_lt_zero, gt_iff_lt, Nat.add_zero]
      exact Nat.mod_eq_of_lt hdr
    rw [e1, e2]
    exact loop_file_zero_segment g xs next t f dr contents hr
      (fun y hy => hs y (List.mem_cons_of_mem _ hy)) hdr

/-- C22, as stated, fails: the loop of `getContents` has no test of the bytes
left. `TINY.TXT` of `demoTiny` has 100 bytes and the first cluster 19, a used
cluster inside the data region (m = 1), and the FAT holds the bad value after
it: `getContents` returns `NULL`. So it does for `EMPTY.TXT`, of 0 bytes. -/
theorem getContents_walks_on_to_bad :
    is_directory (rootEntry demoTiny 0) = false ∧ (rootEntry demoTiny 0).file_size = 100 ∧
      (rootEntry demoTiny 0).first_cluster_address_low = 19 ∧ cluster_size demoTiny = 128 ∧
      used_entry 19 = true ∧ inData demoTiny 19 ∧
      get_fat_entry demoTiny.FAT 19 = some 0xff7 ∧
      getContents lp64 demoTiny 3 (.entry (rootEntry demoTiny 0)) = .ok none ∧
      is_directory (rootEntry demoTiny 1) = false ∧ (rootEntry demoTiny 1).file_size = 0 ∧
      getContents lp64 demoTiny 3 (.entry (rootEntry demoTiny 1)) = .ok none := by
  decide!

/-- C22, amended: for a regular-file entry whose chain starts with the used
clusters `cs` inside the data region, holding at least `file_size` bytes, and
goes on through any values `rest` that are neither terminal nor bad (free,
reserved, or clusters outside the data region) to the value `t`: when `t` is
terminal, `getContents` returns the first `file_size` bytes of the clusters `cs`
(followed by one zero byte); when `t` is the bad value, it returns `NULL`. With
`file_size` 0 and `cs` empty this holds for every first-cluster value. -/
theorem getContents_file_beyond_size (p : Platform) (g : global_data_t) (e : FileEntry)
    (cs rest : List Nat) (t fuel : Nat)
    (hload : loaded g)
    (hfile : is_directory e = false)
    (hchain : isChain g.FAT e.first_cluster_address_low (cs ++ rest) t = true)
    (hused : ∀ c ∈ cs, used_entry c = true ∧ inData g c)
    (hrest : ∀ c ∈ rest, last_entry c = false ∧ bad_entry c = false)
    (hsize : e.file_size ≤ cs.length * cluster_size g)
    (halloc : p.calloc (e.file_size + 1) = true)
    (hfuel : cs.length + rest.length < fuel) :
    (last_entry t = true →
        getContents p g fuel (.entry e) =
          .ok (some ((cs.flatMap (cluster g)).take e.file_size ++ [0]))) ∧
      (bad_entry t = true → getContents p g fuel (.entry e) = .ok none) := by
  have hD := loaded_dataSection_lt hload
  have hnl : ∀ c ∈ cs, last_entry c = false ∧ bad_entry c = false ∧ inData g c := by
    intro c hc
    obtain ⟨hu, hi⟩ := hused c hc
    simp only [used_entry, decide_eq_true_eq] at hu
    refine ⟨?_, ?_, hi⟩
    · simp only [last_entry, decide_eq_false_iff_not]; omega
    · simp only [bad_entry, decide_eq_false_iff_not]; omega
  obtain ⟨mid, hc1, hc2⟩ := (isChain_append cs rest _ t).1 hchain
  have hstop : ∀ x ∈ cs ++ rest, (last_entry x || bad_entry x) = false := by
    intro x hx
    rcases List.mem_append.1 hx with hx | hx
    · simp [(hnl x hx).1, (hnl x hx).2.1]
    · simp [(hrest x hx).1, (hrest x hx).2]
  have key : (last_entry t || bad_entry t) = true →
      getContents p g fuel (.entry e) =
        getContents_loop g false (fuel - cs.length - rest.length) t 0 e.file_size
          ((cs.flatMap (cluster g)).take e.file_size ++ [0]) := by
    intro ht
    have hnd : (cs ++ rest).Nodup :=
      isChain_nodup (fun x => last_entry x || bad_entry x) _ _ t hchain hstop ht
    have hcap := capacity_le g cs (List.Nodup.of_append_left hnd) (fun c hc => (hused c hc).2)
    have hlen := flatMap_cluster_length g cs (fun c hc => (hused c hc).2)
    have hsz : (e.file_size + 1) % 2 ^ 32 = e.file_size + 1 := Nat.mod_eq_of_lt (by omega)
    obtain ⟨f, rfl⟩ : ∃ f, fuel = cs.length + (rest.length + f) :=
      ⟨fuel - cs.length - rest.length, by omega⟩
    simp only [getContents, hfile, Bool.false_eq_true, if_false, Res.bind, hsz, halloc]
    have hseg := loop_file_segment g (by omega) cs e.first_cluster_address_low mid e.file_size
      (rest.length + f) [] hc1 hnl (by simp; omega)
    simp only [List.nil_append, List.length_nil] at hseg
    rw [hseg]
    have h0 : e.file_size - cs.length * cluster_size g = 0 := by omega
    have htk : ((cs.flatMap (cluster g)).take e.file_size).length = e.file_size := by
      rw [List.length_take, hlen]; omega
    have hfu : cs.length + (rest.length + f) - cs.length - rest.length = f := by omega
    rw [h0, htk, loop_file_zero_segment g rest mid t f e.file_size _ hc2 hrest (by omega), hfu]
    rfl
  obtain ⟨f, hf⟩ : ∃ f, fuel - cs.length - rest.length = f + 1 :=
    ⟨fuel - cs.length - rest.length - 1, by omega⟩
  constructor
  · intro ht
    rw [key (by simp [ht]), hf, loop_file_last_zero g f t _ _ ht]
  · intro ht
    have : t = 0xff7 := by simpa [bad_entry] using ht
    subst this
    rw [key (by simp [bad_entry]), hf, loop_bad]

/-- Witness of C22: a file of 100 bytes whose chain is cluster 17, cluster 18
and the terminal value; and a file of 0 bytes with the first cluster 21, a free
FAT entry that leads to entry 0 and its terminal value. -/
theorem getContents_file_beyond_size_witness :
    getContents lp64 demo 3 (.entry partEntry) =
        .ok (some (([17].flatMap (cluster demo)).take partEntry.file_size ++ [0])) ∧
      getContents lp64 demo 3
          (.entry { demoEntry 1 with file_size := 0, first_cluster_address_low := 21 }) =
        .ok (some ((([] : List Nat).flatMap (cluster demo)).take 0 ++ [0])) :=
  ⟨(getContents_file_beyond_size lp64 demo partEntry [17] [18] 0xfff 3 (by decide!)
      (by decide!) (by decide!) (by decide!) (by decide!) (by decide!) rfl (by decide)).1
      (by decide),
   (getContents_file_beyond_size lp64 demo
      { demoEntry 1 with file_size := 0, first_cluster_address_low := 21 } [] [21, 0] 0xff8 3
      (by decide!) (by decide!) (by decide!) (by decide!) (by decide!) (by decide!) rfl
      (by decide)).1 (by decide)⟩

/-! ### The directory scan -/

theorem first_match_cons (p : Platform) (name : List Nat) (e : FileEntry)
    (es : List FileEntry) (hl : lastEntry e = false) :
    first_match skippable p name (e :: es) =
      if (!skippable e && ((getFilename p e).map cstr == some (cstr name))) = true then some e
      else first_match skippable p name es := by
  simp only [first_match, List.takeWhile_cons, hl, Bool.not_false, if_true, List.find?_cons]
  split
  · next h => rw [if_pos h]
  · next h => rw [if_neg (by rw [h]; simp)]

theorem first_match_last (p : Platform) (name : List Nat) (e : FileEntry)
    (es : List FileEntry) (hl : lastEntry e = true) :
    first_match skippable p name (e :: es) = none := by
  simp [first_match, List.takeWhile_cons, hl]

/-- The scan of `findEntry` finds the first match under the skip rule of the
code when the array holds an entry with status byte 0x00 or a match. -/
theorem findEntry_scan_first_match (p : Platform) (name : List Nat) :
    ∀ es : List FileEntry,
      ((∃ e ∈ es, lastEntry e = true) ∨ (first_match skippable p name es).isSome = true) →
      findEntry_scan p name es = .ok (first_match skippable p name es)
  | [], h => by
    rcases h with ⟨e, he, _⟩ | h
    · cases he
    · simp [first_match] at h
  | e :: es, h => by
    rw [findEntry_scan]
    by_cases hl : lastEntry e = true
    · rw [if_pos hl, first_match_last p name e es hl]
    · have hl' : lastEntry e = false := by simpa using hl
      rw [if_neg hl, first_match_cons p name e es hl']
      have hrest : ¬ ((!skippable e && ((getFilename p e).map cstr == some (cstr name))) = true) →
          findEntry_scan p name es = .ok (first_match skippable p name es) := by
        intro hno
        apply findEntry_scan_first_match p name es
        rcases h with ⟨x, hx, hxl⟩ | h
        · left
          rcases List.mem_cons.1 hx with rfl | hx
          · rw [hl'] at hxl; cases hxl
          · exact ⟨x, hx, hxl⟩
        · right
          rw [first_match_cons p name e es hl', if_neg hno] at h
          exact h
      by_cases hs : skippable e = true
      · have hno : ¬ ((!skippable e && ((getFilename p e).map cstr == some (cstr name))) = true) := by
          simp [hs]
        rw [if_pos hs, if_neg hno]
        exact hrest hno
      · have hs' : skippable e = false := by simpa using hs
        rw [if_neg hs]
        cases hf : getFilename p e with
        | none =>
          have hno : ¬ ((!skippable e && ((getFilename p e).map cstr == some (cstr name))) = true) := by
            simp [hf]
          rw [hf] at hno
          simp only
          rw [if_neg hno]
          rw [hf] at hrest
          exact hrest hno
        | some filename =>
          simp only
          by_cases hm : cstr name = cstr filename
          · rw [if_pos hm, if_pos (by simp [hs', hm])]
          · have hno : ¬ ((!skippable e && ((some filename).map cstr == some (cstr name))) = true) := by
              simp only [Option.map_some', Bool.and_eq_true, beq_iff_eq, Option.some.injEq, not_and]
              intro _ h'
              exact hm h'.symm
            rw [if_neg hm, if_neg hno]
            rw [hf] at hrest
            exact hrest hno

/-- What `findEntry` returns, in a directory whose contents `getContents`
returns as `buf`: `NULL` for the null name and for a name that begins with '.';
for every other name, when the array holds an entry with status byte 0x00 (or a
match), the first entry, among those before the first entry with status byte
0x00, that `skippable` does not skip and whose reconstructed filename equals the
name, and `NULL` when there is none; and what follows the first entry with
status byte 0x00 does not change the result of the scan. -/
theorem findEntry_eq_first_match (p : Platform) (g : global_data_t) (fuel : Nat) (dir : DirPtr)
    (buf : List Nat) (hdir : getCurrentDir g = some dir)
    (hread : getContents p g fuel dir = .ok (some buf)) :
    findEntry p g fuel none = .ok none ∧
      (∀ name, (cstr name).head? = some 46 → findEntry p g fuel (some name) = .ok none) ∧
      (∀ name, (cstr name).head? ≠ some 46 →
        ((∃ e ∈ entriesOf buf, lastEntry e = true) ∨
          (first_match skippable p name (entriesOf buf)).isSome = true) →
        findEntry p g fuel (some name) = .ok (first_match skippable p name (entriesOf buf))) ∧
      ∀ name pre z tail1 tail2, (∀ e ∈ pre, lastEntry e = false) → lastEntry z = true →
        findEntry_scan p name (pre ++ z :: tail1) = .ok (first_match skippable p name pre) ∧
          findEntry_scan p name (pre ++ z :: tail2) = .ok (first_match skippable p name pre) := by
  refine ⟨rfl, ?_, ?_, ?_⟩
  · intro name h
    simp [findEntry, h]
  · intro name h hend
    simp only [findEntry, h, if_false, hdir, hread, Res.bind]
    exact findEntry_scan_first_match p name _ hend
  · intro name pre z tail1 tail2 hpre hz
    have key : ∀ tail, findEntry_scan p name (pre ++ z :: tail) =
        .ok (first_match skippable p name pre) := by
      intro tail
      rw [findEntry_scan_first_match p name _ (Or.inl ⟨z, by simp, hz⟩)]
      congr 1
      unfold first_match
      congr 1
      have hp : ∀ e ∈ pre, (fun e => !lastEntry e) e = true := fun e he => by
        simp [hpre e he]
      rw [List.takeWhile_append_of_pos hp, List.takeWhile_cons]
      simp only [hz, Bool.not_true, Bool.false_eq_true, if_false, List.append_nil]
      rw [List.takeWhile_eq_self_iff.2 hp]
    exact ⟨key tail1, key tail2⟩

/-- C23 fails on the code. `RO.TXT` of the example volume has the attribute byte
0x01 (`READ_ONLY`): it is not skippable by the specification, and it is the
first entry of the root whose reconstructed filename is `ro.txt`; but
`skippable` tests `file_attributes & LONG_FILENAME`, so the scan passes it over
and `findEntry("ro.txt")` returns `NULL`. And in `demoFull`, whose root array
has no entry with status byte 0x00, `findEntry` of a name that is not there
does not return `NULL` but reads past the array. -/
theorem findEntry_skips_read_only :
    (demoEntry 4).file_attributes = FILE_READ_ONLY ∧
      lastEntry (demoEntry 4) = false ∧ spec_skippable (demoEntry 4) = false ∧
      (getFilename lp64 (demoEntry 4)).map cstr = some (str "ro.txt") ∧
      spec_findEntry lp64 (str "ro.txt") (entriesOf demo.rootEntries) = some (demoEntry 4) ∧
      skippable (demoEntry 4) = true ∧
      findEntry lp64 demo 3 (some (str "ro.txt")) = .ok none ∧
      spec_findEntry lp64 (str "none.txt") (entriesOf demoFull.rootEntries) = none ∧
      findEntry lp64 demoFull 3 (some (str "none.txt")) = .ub := by
  decide!

/-- C24, as stated, fails: `handle->_position + offset` is an addition of two
`int` values. For an open handle on a file of 2^31 - 1 bytes with the cursor at
the end, `fileSeekCurrent(h, 1)` overflows (undefined behaviour), where the claim
gives the cursor 2^31 - 1. -/
theorem fileSeekCurrent_overflow :
    maxHandle._opened = true ∧ 0 ≤ maxHandle._position ∧
      maxHandle._position ≤ (maxHandle._size : Int) ∧
      fileSeekCurrent x86_64 (some maxHandle) 1 = .ub := by
  decide

/-- C24, amended: for an open handle with cursor between 0 and size(h), a
`size_t` of at least 32 bits and an offset `off` with cursor + off at most
2^31 - 1 (the largest `int`), after `fileSeekCurrent(h, off)` the cursor is
cursor + off clamped to [0, size(h)], and nothing else of the handle changes. -/
theorem fileSeekCurrent_clamp (c : CTypes) (h : File_t) (cursor : Nat) (off : Int)
    (hbits : 32 ≤ c.size_t_bits) (ho : h._opened = true)
    (hpos : h._position = (cursor : Int)) (hle : cursor ≤ h._size)
    (hoff : -2 ^ 31 ≤ off) (hsum : (cursor : Int) + off < 2 ^ 31) :
    fileSeekCurrent c (some h) off =
      .ok (some { h with
        _position :=
          if (cursor : Int) + off < 0 then 0
          else if (cursor : Int) + off > (h._size : Int) then (h._size : Int)
          else (cursor : Int) + off }) := by
  have hnot : ¬ ((cursor : Int) + off < -2 ^ 31 ∨ 2 ^ 31 ≤ (cursor : Int) + off) := by omega
  simp only [fileSeekCurrent, ho, Bool.true_eq_false, if_false, hpos, hnot]
  by_cases hneg : (cursor : Int) + off < 0
  · simp only [hneg, if_true]
  · simp only [hneg, if_false]
    have hpow : (2 : Int) ^ 32 ≤ 2 ^ c.size_t_bits :=
      pow_le_pow_right₀ (by norm_num) hbits
    have hts : to_size_t c ((cursor : Int) + off) = ((cursor : Int) + off).toNat := by
      unfold to_size_t
      rw [Int.emod_eq_of_lt (by omega) (by omega)]
    rw [hts]
    by_cases hgt : (cursor : Int) + off > (h._size : Int)
    · have h1 : ((cursor : Int) + off).toNat > h._size := by omega
      have h2 : wrap32 (h._size : Int) = (h._size : Int) := wrap32_of_lt (by omega)
      simp only [h1, hgt, if_true, h2]
    · have h1 : ¬ ((cursor : Int) + off).toNat > h._size := by omega
      simp only [h1, hgt, if_false]

/-- Witness of C24: in `HELLO.TXT` (200 bytes) from cursor 130, the offsets 20,
500 and -500. -/
theorem fileSeekCurrent_clamp_witness :
    fileSeekCurrent x86_64 (some { helloHandle with _position := 130 }) 20 =
        .ok (some { helloHandle with _position := 150 }) ∧
      fileSeekCurrent x86_64 (some { helloHandle with _position := 130 }) 500 =
        .ok (some { helloHandle with _position := 200 }) ∧
      fileSeekCurrent x86_64 (some { helloHandle with _position := 130 }) (-500) =
        .ok (some { helloHandle with _position := 0 }) :=
  ⟨fileSeekCurrent_clamp x86_64 { helloHandle with _position := 130 } 130 20
      (by decide) rfl rfl (by decide) (by decide) (by decide),
   fileSeekCurrent_clamp x86_64 { helloHandle with _position := 130 } 130 500
      (by decide) rfl rfl (by decide) (by decide) (by decide),
   fileSeekCurrent_clamp x86_64 { helloHandle with _position := 130 } 130 (-500)
      (by decide) rfl rfl (by decide) (by decide) (by decide)⟩

/-! ### The copies of `getContents` -/

/-- The loop with the log computes what the loop of `getContents` computes. -/
theorem getContents_loop_log_fst (g : global_data_t) (isDirectory : Bool) :
    ∀ (fuel v rem dr : Nat) (contents : List Nat),
      (getContents_loop_log g isDirectory fuel v rem dr contents).1 =
        getContents_loop g isDirectory fuel v rem dr contents
  | 0, _, _, _, _ => rfl
  | fuel + 1, v, rem, dr, contents => by
    rw [getContents_loop_log, getContents_loop]
    split
    · rfl
    · split
      · rfl
      · simp only
        split
        · rfl
        · split
          · rfl
          · split
            · rfl
            · exact getContents_loop_log_fst g isDirectory fuel _ _ _ _

theorem memcpy_some_of_le (dst src : List Nat) (dstOff srcOff n : Nat)
    (h : n = 0 ∨ (srcOff + n ≤ src.length ∧ dstOff + n ≤ dst.length)) :
    ∃ r, memcpy dst dstOff src srcOff n = some r ∧ r.length = dst.length := by
  unfold memcpy
  by_cases h0 : n = 0
  · exact ⟨dst, by simp [h0], rfl⟩
  · have h' := h.resolve_left h0
    refine ⟨_, by rw [if_neg h0, if_pos h'], ?_⟩
    simp only [List.length_append, List.length_take, List.length_drop]
    omega

theorem log_step (g : global_data_t) (isDirectory : Bool) (fuel v rem dr : Nat)
    (contents contents1 : List Nat) (next : Nat)
    (hb : bad_entry v = false) (hl : last_entry v = false)
    (hn : get_fat_entry g.FAT v = some next)
    (hm : memcpy contents dr g.dataSection
        (((v + 2 ^ 32 - 2) % 2 ^ 32 * cluster_size g) % 2 ^ 32)
        (if isDirectory then cluster_size g
         else if rem > cluster_size g then cluster_size g else rem) = some contents1) :
    (getContents_loop_log g isDirectory (fuel + 1) v rem dr contents).2 =
      (v, if isDirectory then cluster_size g
          else if rem > cluster_size g then cluster_size g else rem) ::
        (getContents_loop_log g isDirectory fuel next
          ((rem + 2 ^ 32 -
            (if isDirectory then cluster_size g
             else if rem > cluster_size g then cluster_size g else rem)) % 2 ^ 32)
          ((dr +
            (if isDirectory then cluster_size g
             else if rem > cluster_size g then cluster_size g else rem)) % 2 ^ 32)
          contents1).2 := by
  rw [getContents_loop_log]
  simp only [hb, hl, Bool.and_false, Bool.false_eq_true, if_false, hm, hn]

theorem log_file_segment (g : global_data_t) (hD : g.dataSection.length < 2 ^ 32) :
    ∀ (cs : List Nat) (c t rem f dr : Nat) (contents : List Nat),
      isChain g.FAT c cs t = true →
      (∀ x ∈ cs, last_entry x = false ∧ bad_entry x = false ∧ inData g x) →
      dr + rem ≤ contents.length → contents.length < 2 ^ 32 →
      ∃ dr1 contents1,
        (getContents_loop_log g false (cs.length + f) c rem dr contents).2 =
          chain_file_reads (cluster_size g) cs rem ++
            (getContents_loop_log g false f t (rem - cs.length * cluster_size g) dr1
              contents1).2
  | [], c, t, rem, f, dr, contents, h, _, _, _ => by
    rw [isChain_nil] at h
    subst h
    exact ⟨dr, contents, by simp [chain_file_reads]⟩
  | x :: xs, c, t, rem, f, dr, contents, h, hs, hle, hlt => by
    obtain ⟨hx, next, hn, hr⟩ := isChain_cons.1 h
    subst hx
    obtain ⟨h1, h2, h3⟩ := hs x (List.mem_cons_self _ _)
    have hlen : (x :: xs).length + f = (xs.length + f) + 1 := by simp; omega
    have hoff := offset_eq g x hD (not_last_lt h1) h3
    have htr : (if false = true then cluster_size g
        else if rem > cluster_size g then cluster_size g else rem) = min rem (cluster_size g) := by
      simp only [Bool.false_eq_true, if_false]
      split <;> omega
    obtain ⟨_, hin⟩ := h3
    obtain ⟨contents1, hm, hl1⟩ := memcpy_some_of_le contents g.dataSection dr
      ((x - 2) * cluster_size g) (min rem (cluster_size g)) (Or.inr ⟨by omega, by omega⟩)
    rw [← hoff, ← htr] at hm
    rw [hlen, log_step g false _ x rem dr contents contents1 next h2 h1 hn hm, htr]
    have e1 : (rem + 2 ^ 32 - min rem (cluster_size g)) % 2 ^ 32 =
        rem - min rem (cluster_size g) := by
      rw [show rem + 2 ^ 32 - min rem (cluster_size g) =
        (rem - min rem (cluster_size g)) + 2 ^ 32 by omega, Nat.add_mod_right]
      exact Nat.mod_eq_of_lt (by omega)
    have e2 : (dr + min rem (cluster_size g)) % 2 ^ 32 = dr + min rem (cluster_size g) :=
      Nat.mod_eq_of_lt (by omega)
    rw [e1, e2]
    obtain ⟨dr2, contents2, hrec⟩ := log_file_segment g hD xs next t
      (rem - min rem (cluster_size g)) f (dr + min rem (cluster_size g)) contents1 hr
      (fun y hy => hs y (List.mem_cons_of_mem _ hy)) (by omega) (by omega)
    refine ⟨dr2, contents2, ?_⟩
    rw [hrec, chain_file_reads, List.cons_append]
    have e3 : rem - min rem (cluster_size g) - xs.length * cluster_size g =
        rem - (x :: xs).length * cluster_size g := by
      rw [List.length_cons, Nat.succ_mul]
      omega
    rw [e3]

theorem log_dir_segment (g : global_data_t) (hD : g.dataSection.length < 2 ^ 32) :
    ∀ (cs : List Nat) (c t rem f dr : Nat) (contents : List Nat),
      isChain g.FAT c cs t = true →
      (∀ x ∈ cs, last_entry x = false ∧ bad_entry x = false ∧ inData g x) →
      dr + cs.length * cluster_size g ≤ contents.length → contents.length < 2 ^ 32 →
      ∃ rem1 dr1 contents1,
        (getContents_loop_log g true (cs.length + f) c rem dr contents).2 =
          cs.map (fun x => (x, cluster_size g)) ++
            (getContents_loop_log g true f t rem1 dr1 contents1).2
  | [], c, t, rem, f, dr, contents, h, _, _, _ => by
    rw [isChain_nil] at h
    subst h
    exact ⟨rem, dr, contents, by simp⟩
  | x :: xs, c, t, rem, f, dr, contents, h, hs, hle, hlt => by
    obtain ⟨hx, next, hn, hr⟩ := isChain_cons.1 h
    subst hx
    obtain ⟨h1, h2, h3⟩ := hs x (List.mem_cons_self _ _)
    have hlen : (x :: xs).length + f = (xs.length + f) + 1 := by simp; omega
    have hoff := offset_eq g x hD (not_last_lt h1) h3
    rw [List.length_cons, Nat.succ_mul] at hle
    obtain ⟨_, hin⟩ := h3
    obtain ⟨contents1, hm, hl1⟩ := memcpy_some_of_le contents g.dataSection dr
      ((x - 2) * cluster_size g) (cluster_size g) (Or.inr ⟨by omega, by omega⟩)
    rw [← hoff] at hm
    have hm' : memcpy contents dr g.dataSection
        (((x + 2 ^ 32 - 2) % 2 ^ 32 * cluster_size g) % 2 ^ 32)
        (if true = true then cluster_size g
         else if rem > cluster_size g then cluster_size g else rem) = some contents1 := by
      rw [if_pos rfl]; exact hm
    rw [hlen, log_step g true _ x rem dr contents contents1 next h2 h1 hn hm']
    simp only [if_true]
    have e2 : (dr + cluster_size g) % 2 ^ 32 = dr + cluster_size g :=
      Nat.mod_eq_of_lt (by omega)
    rw [e2]
    obtain ⟨rem2, dr2, contents2, hrec⟩ := log_dir_segment g hD xs next t
      ((rem + 2 ^ 32 - cluster_size g) % 2 ^ 32) f (dr + cluster_size g) contents1 hr
      (fun y hy => hs y (List.mem_cons_of_mem _ hy)) (by omega) (by omega)
    exact ⟨rem2, dr2, contents2, by rw [hrec]; rfl⟩

theorem chain_file_reads_mem (k : Nat) :
    ∀ (cs : List Nat) (rem : Nat) (r : Nat × Nat), r ∈ chain_file_reads k cs rem → r.1 ∈ cs
  | [], _, r, h => by simp [chain_file_reads] at h
  | c :: cs, rem, r, h => by
    rw [chain_file_reads, List.mem_cons] at h
    rcases h with rfl | h
    · exact List.mem_cons_self _ _
    · exact List.mem_cons_of_mem _ (chain_file_reads_mem k cs _ r h)

/-- C25, as stated, fails: `getContents` validates no cluster number. For
`ONE.TXT` of the example volume, whose first cluster is 1, it computes the
offset from the value 1 and copies 10 bytes from outside the data region. The
file path also computes an offset from the terminal value that ends a chain (the
defect of C5): for `HELLO.TXT`, with the well-formed chain 17, 18, a third
offset from 0xFFF, copying 0 bytes, and for `SHORT.TXT` 72 bytes from outside
the data region. -/
theorem getContents_reads_not_in_data :
    getContents_reads lp64 demo 3 (demoEntry 1) = [(17, 128), (18, 72), (0xfff, 0)] ∧
      (demoEntry 5).first_cluster_address_low = 1 ∧
      getContents_reads lp64 demo 3 (demoEntry 5) = [(1, 10)] ∧
      getContents lp64 demo 3 (.entry (demoEntry 5)) = .ub ∧
      getContents_reads lp64 demo 3 (demoEntry 3) = [(20, 128), (0xfff, 72)] ∧
      getContents lp64 demo 3 (.entry (demoEntry 3)) = .ub ∧
      ¬ inData demo 1 ∧ ¬ inData demo 0xfff := by
  decide!

/-- The copies of `getContents` for an entry whose chain is the used clusters
`cs` inside the data region followed by a terminal value `t`: for a directory
one copy of `cluster_size` bytes from each cluster of `cs`; for a regular file
the copies of `chain_file_reads` from the clusters of `cs`, and after them a
copy of 0 bytes at the offset computed from `t`. -/
theorem getContents_reads_eq (p : Platform) (g : global_data_t) (e : FileEntry)
    (cs : List Nat) (t fuel : Nat)
    (hload : loaded g)
    (hchain : isChain g.FAT e.first_cluster_address_low cs t = true)
    (hused : ∀ c ∈ cs, used_entry c = true ∧ inData g c)
    (ht : last_entry t = true)
    (hsize : is_directory e = false → e.file_size ≤ cs.length * cluster_size g)
    (halloc : ∀ n, p.calloc n = true)
    (hfuel : cs.length < fuel) :
    getContents_reads p g fuel e =
        (if is_directory e then cs.map (fun c => (c, cluster_size g))
         else chain_file_reads (cluster_size g) cs e.file_size ++ [(t, 0)]) ∧
      ∀ r ∈ getContents_reads p g fuel e,
        r.2 ≠ 0 → used_entry r.1 = true ∧ 2 ≤ r.1 ∧ inData g r.1 := by
  have hD := loaded_dataSection_lt hload
  have hnl : ∀ c ∈ cs, last_entry c = false ∧ bad_entry c = false ∧ inData g c := by
    intro c hc
    obtain ⟨hu, hi⟩ := hused c hc
    simp only [used_entry, decide_eq_true_eq] at hu
    refine ⟨?_, ?_, hi⟩
    · simp only [last_entry, decide_eq_false_iff_not]; omega
    · simp only [bad_entry, decide_eq_false_iff_not]; omega
  have hnd : cs.Nodup :=
    isChain_nodup last_entry cs _ t hchain (fun c hc => (hnl c hc).1) ht
  have hcap := capacity_le g cs hnd (fun c hc => (hused c hc).2)
  have htb : bad_entry t = false := by
    simp only [last_entry, decide_eq_true_eq] at ht
    simp only [bad_entry, decide_eq_false_iff_not]
    omega
  obtain ⟨f, rfl⟩ : ∃ f, fuel = cs.length + (f + 1) := ⟨fuel - cs.length - 1, by omega⟩
  have hreads : getContents_reads p g (cs.length + (f + 1)) e =
      (if is_directory e then cs.map (fun c => (c, cluster_size g))
       else chain_file_reads (cluster_size g) cs e.file_size ++ [(t, 0)]) := by
    by_cases hdir : is_directory e = true
    · have hcount : countFATentries g (cs.length + (f + 1)) e = .ok cs.length := by
        unfold countFATentries
        rw [count_segment g.FAT cs _ t 0 (f + 1) hchain
          (fun c hc => ⟨(hnl c hc).1, (hnl c hc).2.1⟩) (by
            have := nodup_length_le cs _ hnd (fun c hc => not_last_lt (hnl c hc).1)
            omega), countFATentries_loop]
        simp [ht]
      have hsz : (cs.length * cluster_size g) % 2 ^ 32 = cs.length * cluster_size g :=
        Nat.mod_eq_of_lt (by omega)
      simp only [getContents_reads, hdir, if_true, hcount, Res.bind, hsz, halloc,
        Bool.true_eq_false, if_false]
      obtain ⟨rem1, dr1, contents1, hseg⟩ := log_dir_segment g (by omega) cs
        e.first_cluster_address_low t e.file_size (f + 1) 0
        (List.replicate (cs.length * cluster_size g) 0) hchain hnl (by simp) (by simp; omega)
      rw [hseg, getContents_loop_log]
      simp [htb, ht]
    · have hfile : is_directory e = false := by simpa using hdir
      have hs := hsize hfile
      have hsz : (e.file_size + 1) % 2 ^ 32 = e.file_size + 1 := Nat.mod_eq_of_lt (by omega)
      simp only [getContents_reads, hfile, Bool.false_eq_true, if_false, hsz, halloc]
      obtain ⟨dr1, contents1, hseg⟩ := log_file_segment g (by omega) cs
        e.first_cluster_address_low t e.file_size (f + 1) 0
        (List.replicate (e.file_size + 1) 0) hchain hnl (by simp) (by simp; omega)
      have h0 : e.file_size - cs.length * cluster_size g = 0 := by omega
      rw [hseg, h0, getContents_loop_log]
      simp [htb, ht, memcpy]
  refine ⟨hreads, ?_⟩
  intro r hr hne
  have hmem : r.1 ∈ cs := by
    rw [hreads] at hr
    split at hr
    · obtain ⟨c, hc, rfl⟩ := List.mem_map.1 hr
      exact hc
    · rcases List.mem_append.1 hr with hr | hr
      · exact chain_file_reads_mem _ cs _ r hr
      · simp only [List.mem_singleton] at hr
        subst hr
        exact absurd rfl hne
  exact ⟨(hused _ hmem).1, (hused _ hmem).2.1, (hused _ hmem).2⟩

theorem chain_file_reads_le (k : Nat) :
    ∀ (cs : List Nat) (rem : Nat) (r : Nat × Nat), r ∈ chain_file_reads k cs rem → r.2 ≤ k
  | [], _, r, h => by simp [chain_file_reads] at h
  | c :: cs, rem, r, h => by
    rw [chain_file_reads, List.mem_cons] at h
    rcases h with rfl | h
    · exact Nat.min_le_right _ _
    · exact chain_file_reads_le k cs _ r h

/-- C25, amended: for an entry whose chain is the used clusters `cs` inside the
data region followed by a terminal value (for a regular file with room for
`file_size` bytes), every copy of at least one byte that `getContents` makes is
taken at the offset of a cluster `c` of `cs`, a used value with `2 ≤ c` inside
the data region, and has at most `cluster_size` bytes, so that the copied range
lies inside the data region; for a directory the offsets are computed from the
clusters of `cs`, in chain order, and from nothing else. -/
theorem getContents_reads_in_chain (p : Platform) (g : global_data_t) (e : FileEntry)
    (cs : List Nat) (t fuel : Nat)
    (hload : loaded g)
    (hchain : isChain g.FAT e.first_cluster_address_low cs t = true)
    (hused : ∀ c ∈ cs, used_entry c = true ∧ inData g c)
    (ht : last_entry t = true)
    (hsize : is_directory e = false → e.file_size ≤ cs.length * cluster_size g)
    (halloc : ∀ n, p.calloc n = true)
    (hfuel : cs.length < fuel) :
    (∀ r ∈ getContents_reads p g fuel e, r.2 ≠ 0 →
        r.1 ∈ cs ∧ used_entry r.1 = true ∧ 2 ≤ r.1 ∧ inData g r.1 ∧ r.2 ≤ cluster_size g ∧
          (r.1 - 2) * cluster_size g + r.2 ≤ g.dataSection.length) ∧
      (is_directory e = true → (getContents_reads p g fuel e).map Prod.fst = cs) := by
  have hreads := (getContents_reads_eq p g e cs t fuel hload hchain hused ht hsize halloc hfuel).1
  constructor
  · intro r hr hne
    rw [hreads] at hr
    have hmem : r.1 ∈ cs ∧ r.2 ≤ cluster_size g := by
      split at hr
      · obtain ⟨c, hc, rfl⟩ := List.mem_map.1 hr
        exact ⟨hc, Nat.le_refl _⟩
      · rcases List.mem_append.1 hr with hr | hr
        · exact ⟨chain_file_reads_mem _ cs _ r hr, chain_file_reads_le _ cs _ r hr⟩
        · simp only [List.mem_singleton] at hr
          subst hr
          exact absurd rfl hne
    obtain ⟨hu, hin⟩ := hused _ hmem.1
    refine ⟨hmem.1, hu, hin.1, hin, hmem.2, ?_⟩
    have := hin.2
    have := hmem.2
    omega
  · intro hdir
    rw [hreads, if_pos hdir, List.map_map]
    exact List.map_id _

/-- Witness of C25: `HELLO.TXT` of the example volume, with the chain 17, 18, and
the directory `A`, in cluster 2. -/
theorem getContents_reads_in_chain_witness :
    (∀ r ∈ getContents_reads lp64 demo 3 (demoEntry 1), r.2 ≠ 0 →
        r.1 ∈ [17, 18] ∧ used_entry r.1 = true ∧ 2 ≤ r.1 ∧ inData demo r.1 ∧
          r.2 ≤ cluster_size demo ∧
          (r.1 - 2) * cluster_size demo + r.2 ≤ demo.dataSection.length) ∧
      (getContents_reads lp64 demo 2 (demoEntry 0)).map Prod.fst = [2] :=
  ⟨(getContents_reads_in_chain lp64 demo (demoEntry 1) [17, 18] 0xfff 3
      (by decide!) (by decide!) (by decide!) (by decide!) (by decide!) (fun _ => rfl)
      (by decide!)).1,
   (getContents_reads_in_chain lp64 demo (demoEntry 0) [2] 0xfff 2
      (by decide!) (by decide!) (by decide!) (by decide!) (by decide!) (fun _ => rfl)
      (by decide!)).2 (by decide!)⟩

/-- C26 fails on the code: the scans of `findEntry` and `fileReadDirectory` are
`for (size_t i = 0; true; i++)` loops that end only at an entry with status byte
0x00 (or at a match), while `countRootEntries` stops at `max_files_in_root`. In
`demoFull` the root array has 8 entries, none with status byte 0x00:
`countRootEntries` returns 7 (one entry is skippable), `findEntry` of a name
that is not there reads `dirCluster[8]`, and `fileReadDirectory`, after it has
returned the last name `h.txt`, reads `entries[8]` on the next call. -/
theorem scans_pass_full_directory :
    (entriesOf demoFull.rootEntries).length = 8 ∧ demoFull.BS.max_files_in_root = 8 ∧
      (entriesOf demoFull.rootEntries).map lastEntry = List.replicate 8 false ∧
      countRootEntries demoFull = .ok 7 ∧
      findEntry lp64 demoFull 3 (some (str "none.txt")) = .ub ∧
      (findEntry lp64 demoFull 3 (some (str "h.txt"))).toOption =
        some (some (rootEntry demoFull 7)) ∧
      (fileReadDirectory lp64 demoFull 3 5 (some rootHandle)).toOption.map
          (fun r => (r.ret, r.name, r.lastIndex)) = some (0, some (str "h.txt"), 6) ∧
      fileReadDirectory lp64 demoFull 3 6 (some rootHandle) = .ub := by
  decide!

end FAT
